import Mathlib

/-! Brahma web bridge: `src/brahma/web/server.js`

A shallow embedding of the bridge between browser clients (JSON frames over a
WebSocket) and the synthesis engine (OSC messages over UDP).

* JavaScript values are the inductive type `JSVal`; a thrown exception is the
  `error` case of `Except JSError`.
* Strings are Lean strings (sequences of Unicode scalar values); `startsWith`
  compares them character by character.
* Numbers are exact rationals plus the two infinities and NaN; every IEEE double
  is one of these, so a statement proved for all `JSNum` holds for all doubles.
  The sign of zero is not tracked (`-0` is falsy and integral, like `0`).
* Built-ins of the language runtime that the bridge calls but does not define
  (`JSON.parse`, `Number.prototype.toString`) enter as inputs: the handler of a
  client frame takes the outcome of `JSON.parse`, and `numToString` is a parameter.
-/

namespace Bridge

/-! ## JavaScript values -/

/-- A JavaScript number: a finite value, an infinity, or NaN. -/
inductive JSNum where
  | fin (q : ℚ)
  | posInf
  | negInf
  | nan
  deriving DecidableEq

/-- A JavaScript value as it reaches the bridge: the result of `JSON.parse`, or the
`value` of a decoded OSC argument. -/
inductive JSVal where
  | undefined
  | null
  | bool (b : Bool)
  | num (n : JSNum)
  | str (s : String)
  | arr (xs : List JSVal)
  | obj (props : List (String × JSVal))

/-- The exceptions the bridge code can meet. -/
inductive JSError where
  | syntaxError
  | typeError
  deriving DecidableEq

mutual
/-- Structural equality of values is decidable. -/
def JSVal.decEq : (a b : JSVal) → Decidable (a = b)
  | .undefined, .undefined => isTrue rfl
  | .undefined, .null => isFalse nofun
  | .undefined, .bool _ => isFalse nofun
  | .undefined, .num _ => isFalse nofun
  | .undefined, .str _ => isFalse nofun
  | .undefined, .arr _ => isFalse nofun
  | .undefined, .obj _ => isFalse nofun
  | .null, .undefined => isFalse nofun
  | .null, .null => isTrue rfl
  | .null, .bool _ => isFalse nofun
  | .null, .num _ => isFalse nofun
  | .null, .str _ => isFalse nofun
  | .null, .arr _ => isFalse nofun
  | .null, .obj _ => isFalse nofun
  | .bool _, .undefined => isFalse nofun
  | .bool _, .null => isFalse nofun
  | .bool a, .bool b =>
    if h : a = b then isTrue (congrArg JSVal.bool h)
    else isFalse (fun h' => h (JSVal.bool.inj h'))
  | .bool _, .num _ => isFalse nofun
  | .bool _, .str _ => isFalse nofun
  | .bool _, .arr _ => isFalse nofun
  | .bool _, .obj _ => isFalse nofun
  | .num _, .undefined => isFalse nofun
  | .num _, .null => isFalse nofun
  | .num _, .bool _ => isFalse nofun
  | .num a, .num b =>
    if h : a = b then isTrue (congrArg JSVal.num h)
    else isFalse (fun h' => h (JSVal.num.inj h'))
  | .num _, .str _ => isFalse nofun
  | .num _, .arr _ => isFalse nofun
  | .num _, .obj _ => isFalse nofun
  | .str _, .undefined => isFalse nofun
  | .str _, .null => isFalse nofun
  | .str _, .bool _ => isFalse nofun
  | .str _, .num _ => isFalse nofun
  | .str a, .str b =>
    if h : a = b then isTrue (congrArg JSVal.str h)
    else isFalse (fun h' => h (JSVal.str.inj h'))
  | .str _, .arr _ => isFalse nofun
  | .str _, .obj _ => isFalse nofun
  | .arr _, .undefined => isFalse nofun
  | .arr _, .null => isFalse nofun
  | .arr _, .bool _ => isFalse nofun
  | .arr _, .num _ => isFalse nofun
  | .arr _, .str _ => isFalse nofun
  | .arr a, .arr b =>
    match JSVal.decEqList a b with
    | isTrue h => isTrue (congrArg JSVal.arr h)
    | isFalse h => isFalse (fun h' => h (JSVal.arr.inj h'))
  | .arr _, .obj _ => isFalse nofun
  | .obj _, .undefined => isFalse nofun
  | .obj _, .null => isFalse nofun
  | .obj _, .bool _ => isFalse nofun
  | .obj _, .num _ => isFalse nofun
  | .obj _, .str _ => isFalse nofun
  | .obj _, .arr _ => isFalse nofun
  | .obj a, .obj b =>
    match JSVal.decEqProps a b with
    | isTrue h => isTrue (congrArg JSVal.obj h)
    | isFalse h => isFalse (fun h' => h (JSVal.obj.inj h'))
/-- Structural equality of lists of values is decidable. -/
def JSVal.decEqList : (a b : List JSVal) → Decidable (a = b)
  | [], [] => isTrue rfl
  | [], _ :: _ => isFalse nofun
  | _ :: _, [] => isFalse nofun
  | x :: xs, y :: ys =>
    match JSVal.decEq x y, JSVal.decEqList xs ys with
    | isTrue h, isTrue hs => isTrue (by rw [h, hs])
    | isFalse h, _ => isFalse (fun h' => h (List.cons.inj h').1)
    | _, isFalse hs => isFalse (fun h' => hs (List.cons.inj h').2)
/-- Structural equality of property lists is decidable. -/
def JSVal.decEqProps : (a b : List (String × JSVal)) → Decidable (a = b)
  | [], [] => isTrue rfl
  | [], _ :: _ => isFalse nofun
  | _ :: _, [] => isFalse nofun
  | (k, x) :: xs, (l, y) :: ys =>
    if hk : k = l then
      match JSVal.decEq x y, JSVal.decEqProps xs ys with
      | isTrue h, isTrue hs => isTrue (by rw [hk, h, hs])
      | isFalse h, _ => isFalse (fun h' => h (Prod.mk.inj (List.cons.inj h').1).2)
      | _, isFalse hs => isFalse (fun h' => hs (List.cons.inj h').2)
    else isFalse (fun h' => hk (Prod.mk.inj (List.cons.inj h').1).1)
end

instance : DecidableEq JSVal := JSVal.decEq

/-- JavaScript truthiness (`ToBoolean`). -/
def truthy : JSVal → Bool
  | .undefined => false
  | .null => false
  | .bool b => b
  | .num (.fin q) => decide (q ≠ 0)
  | .num .nan => false
  | .num .posInf => true
  | .num .negInf => true
  | .str s => decide (s ≠ "")
  | .arr _ => true
  | .obj _ => true

/-- The operator `a || b`. -/
def orElse (a b : JSVal) : JSVal := if truthy a then a else b

/-- The test `Number.isInteger`: finite with zero fractional part. -/
def Number_isInteger : JSNum → Bool
  | .fin q => decide (q.den = 1)
  | _ => false

/-- The method `s.startsWith(p)`, search position 0. -/
def startsWith (s p : String) : Bool := p.data.isPrefixOf s.data

/-- The operator `===`. Arrays and objects are compared by identity; the two
operands the bridge compares never share one (a stored value against a value of
the datagram being handled, or against a literal), so they are never equal. -/
def strictEq : JSVal → JSVal → Bool
  | .undefined, .undefined => true
  | .null, .null => true
  | .bool a, .bool b => decide (a = b)
  | .num a, .num b => decide (a ≠ JSNum.nan) && decide (a = b)
  | .str a, .str b => decide (a = b)
  | _, _ => false

/-- Property read `v.k` for a name `k` that no built-in prototype defines (the
bridge reads `address` and `args`): the own property of an object, `undefined`
on any other value that has properties, a `TypeError` on `null` and `undefined`. -/
def JSVal.prop (v : JSVal) (k : String) : Except JSError JSVal :=
  match v with
  | .undefined => .error .typeError
  | .null => .error .typeError
  | .obj ps => .ok ((ps.lookup k).getD .undefined)
  | _ => .ok .undefined

/-- Whether a value is `null` or `undefined`. -/
def nullish : JSVal → Bool
  | .undefined => true
  | .null => true
  | _ => false

mutual
/-- The conversion `String(v)` (`ToString`). An array joins its elements with
commas, `null` and `undefined` elements giving the empty string. A plain object
gives `[object Object]` through the inherited `toString`, unless it has an own
property `toString`: a decoded value is never callable, `valueOf` then yields
no primitive either, and the conversion throws a `TypeError`. -/
def jsString (numToString : JSNum → String) : JSVal → Except JSError String
  | .undefined => .ok "undefined"
  | .null => .ok "null"
  | .bool b => .ok (if b then "true" else "false")
  | .num n => .ok (numToString n)
  | .str s => .ok s
  | .arr xs => jsJoin numToString xs
  | .obj ps =>
    if (ps.lookup "toString").isSome then .error .typeError else .ok "[object Object]"
/-- The method `Array.prototype.join` with the default separator. -/
def jsJoin (numToString : JSNum → String) : List JSVal → Except JSError String
  | [] => .ok ""
  | x :: rest =>
    match (if nullish x then .ok "" else jsString numToString x) with
    | .error e => .error e
    | .ok s =>
      match rest with
      | [] => .ok s
      | _ :: _ =>
        match jsJoin numToString rest with
        | .error e => .error e
        | .ok t => .ok (s ++ "," ++ t)
end

deriving instance DecidableEq for Except

/-! ## Client frames: browser to engine (`ws.on("message")`, lines 65-88) -/

/-- Namespace whitelist: all OSC address prefixes allowed from browser to engine. -/
def ALLOWED_NAMESPACES : List String :=
  ["/golem/", "/brahma/", "/chronos/", "/daemon/",
   "/moirai/", "/genesis/", "/arbor/", "/serpens/",
   "/scriptorium/"]

/-- One typed OSC argument, `{ type, value }`. -/
structure OscArg where
  type : String
  value : JSVal
  deriving DecidableEq

/-- An OSC message, `{ address, args }`. -/
structure OscMessage where
  address : JSVal
  args : List OscArg
  deriving DecidableEq

/-- The access check of line 70 against a whitelist `W`:
`address && W.some(ns => address.startsWith(ns))`.
A falsy address stops the conjunction. On a truthy address that is not a string,
`startsWith` is not a function and the first call of the callback throws; with
an empty `W` the callback is never called. -/
def accessCheck (W : List String) (address : JSVal) : Except JSError Bool :=
  if truthy address then
    match address with
    | .str a => .ok (W.any (fun ns => startsWith a ns))
    | _ => if W.isEmpty then .ok false else .error .typeError
  else .ok false

/-- The callback of the `map` of lines 71-78: the wire type of one argument. -/
def oscArg (numToString : JSNum → String) (arg : JSVal) : Except JSError OscArg :=
  match arg with
  | .num n =>
    if Number_isInteger n then .ok { type := "i", value := arg }
    else .ok { type := "f", value := arg }
  | _ =>
    match jsString numToString arg with
    | .error e => .error e
    | .ok s => .ok { type := "s", value := .str s }

/-- `Array.prototype.map` with the callback `oscArg`, left to right; the first
exception ends it. -/
def mapOscArgs (numToString : JSNum → String) : List JSVal → Except JSError (List OscArg)
  | [] => .ok []
  | x :: xs =>
    match oscArg numToString x with
    | .error e => .error e
    | .ok o =>
      match mapOscArgs numToString xs with
      | .error e => .error e
      | .ok os => .ok (o :: os)

/-- The expression `(msg.args || []).map(...)` of lines 71-78. Only an array has
a `map` method: on any other truthy value the call throws a `TypeError` (an
object decoded from JSON may have an own property `map`, never a callable one). -/
def oscArgs (numToString : JSNum → String) (args : JSVal) : Except JSError (List OscArg) :=
  match orElse args (.arr []) with
  | .arr xs => mapOscArgs numToString xs
  | _ => .error .typeError

/-- What one run of the client-frame handler does to the outside: the messages
handed to `sendPort.send`, and the frames sent back on the client socket. -/
structure WsEffects where
  upstream : List OscMessage
  toClient : List String
  deriving DecidableEq

/-- The body of the `try` block, lines 67-84. The argument is the outcome of
`JSON.parse(message)`: the decoded value, or the `SyntaxError` it throws. -/
def wsTryBody (numToString : JSNum → String) (parsed : Except JSError JSVal) :
    Except JSError WsEffects :=
  match parsed with
  | .error e => .error e
  | .ok msg =>
    match msg.prop "address" with
    | .error e => .error e
    | .ok address =>
      match accessCheck ALLOWED_NAMESPACES address with
      | .error e => .error e
      | .ok false => .ok { upstream := [], toClient := [] }
      | .ok true =>
        match msg.prop "args" with
        | .error e => .error e
        | .ok args =>
          match oscArgs numToString args with
          | .error e => .error e
          | .ok typed =>
            .ok { upstream := [{ address := address, args := typed }], toClient := [] }

/-- The statement `try { body } catch (e) { handler }`. -/
def tryCatch {ε α : Type} (body : Except ε α) (handler : ε → Except ε α) : Except ε α :=
  match body with
  | .ok a => .ok a
  | .error e => handler e

/-- The client-frame handler, lines 65-88: the `try` body, with an empty `catch`
block ("Ignore malformed messages"). An `error` result would be an exception
leaving the handler. -/
def wsOnMessage (numToString : JSNum → String) (parsed : Except JSError JSVal) :
    Except JSError WsEffects :=
  tryCatch (wsTryBody numToString parsed) (fun _ => .ok { upstream := [], toClient := [] })

/-- The handler run on the successive frames of a session, in arrival order. An
exception that leaves the handler would end the run. -/
def wsRun (numToString : JSNum → String) : List (Except JSError JSVal) → Except JSError WsEffects
  | [] => .ok { upstream := [], toClient := [] }
  | parsed :: rest =>
    match wsOnMessage numToString parsed with
    | .error e => .error e
    | .ok e1 =>
      match wsRun numToString rest with
      | .error e => .error e
      | .ok e2 => .ok { upstream := e1.upstream ++ e2.upstream, toClient := e1.toClient ++ e2.toClient }

/-! ## Plain objects used as dictionaries (`moduleCache`, `paramCache`) -/

/-- The array index that a property key denotes, if any: a decimal numeral
without leading zero whose value is below `2^32 - 1`. -/
def arrayIndex? (k : String) : Option Nat :=
  match k.data with
  | [] => none
  | c :: cs =>
    if (c :: cs).all Char.isDigit && (c != '0' || cs.isEmpty) then
      let n := (c :: cs).foldl (fun acc d => 10 * acc + (d.toNat - 48)) 0
      if n < 4294967295 then some n else none
    else none

/-- Whether an object has the own property `k`. -/
def ownHas {α : Type} (k : String) (ps : List (String × α)) : Bool :=
  ps.any (fun p => p.1 == k)

/-- Assignment to an existing own property: the value changes, the place stays. -/
def ownReplace {α : Type} (k : String) (v : α) (ps : List (String × α)) : List (String × α) :=
  ps.map (fun p => if p.1 == k then (p.1, v) else p)

/-- Creation of an own property whose key is the array index `n`: own keys are
enumerated with the array indices first, in ascending order. -/
def ownInsertIndex {α : Type} (n : Nat) (k : String) (v : α) :
    List (String × α) → List (String × α)
  | [] => [(k, v)]
  | p :: rest =>
    match arrayIndex? p.1 with
    | some m => if n < m then (k, v) :: p :: rest else p :: ownInsertIndex n k v rest
    | none => (k, v) :: p :: rest

/-- The assignment `o[k] = v` on the own properties of a plain object, kept in the
order in which `Object.values` enumerates them: array indices ascending, then
the other keys in order of creation. -/
def ownSet {α : Type} (k : String) (v : α) (ps : List (String × α)) : List (String × α) :=
  if ownHas k ps then ownReplace k v ps
  else
    match arrayIndex? k with
    | some n => ownInsertIndex n k v ps
    | none => ps ++ [(k, v)]

/-- The property names every plain object inherits from `Object.prototype`. Each
holds a function, except the accessor `__proto__`, whose getter returns the
prototype object: all of these values are truthy and none is an array. -/
def objectPrototypeKeys : List String :=
  ["constructor", "__defineGetter__", "__defineSetter__", "hasOwnProperty",
   "__lookupGetter__", "__lookupSetter__", "isPrototypeOf", "propertyIsEnumerable",
   "toString", "valueOf", "__proto__", "toLocaleString"]

/-! ## Registry cache: engine to browser (`udpPort.on("message")`, lines 92-143) -/

/-- A cached module record, lines 97-104. -/
structure ModuleDescriptor where
  name : JSVal
  category : JSVal
  synthDef : JSVal
  numParams : JSVal
  numInstances : JSVal
  description : JSVal
  deriving DecidableEq

/-- A cached parameter record, lines 116-123. -/
structure ParamDescriptor where
  name : JSVal
  default : JSVal
  min : JSVal
  max : JSVal
  units : JSVal
  desc : JSVal
  deriving DecidableEq

/-- The object `moduleCache`: its own properties, and the descriptor installed as
its prototype, if any. It starts as `{}`, whose prototype is `Object.prototype`
(`none`); the only way the bridge changes the prototype is the inherited
accessor `__proto__`. -/
structure ModuleCache where
  own : List (String × ModuleDescriptor)
  proto : Option ModuleDescriptor
  deriving DecidableEq

/-- The assignment `moduleCache[key] = d`. The key `__proto__` reaches the setter
inherited from `Object.prototype`, which replaces the prototype and creates no
own property; any other key creates or overwrites an own property (the
inherited data properties are all writable). -/
def ModuleCache.set (c : ModuleCache) (key : String) (d : ModuleDescriptor) : ModuleCache :=
  if key = "__proto__" then { c with proto := some d }
  else { c with own := ownSet key d c.own }

/-- The two caches of lines 17-19. `paramCache` keeps the prototype it starts
with: the bridge assigns to `paramCache[k]` only when reading it gave a falsy
value, which the key `__proto__` never does. -/
structure Caches where
  moduleCache : ModuleCache
  paramCache : List (String × List ParamDescriptor)
  deriving DecidableEq

/-- Both caches as the process starts: `{}` and `{}`. -/
def emptyCaches : Caches := { moduleCache := { own := [], proto := none }, paramCache := [] }

/-- The expression `Object.values(moduleCache)` answered by `GET /api/modules`,
lines 28-30. -/
def apiModules (c : Caches) : List ModuleDescriptor := c.moduleCache.own.map (fun p => p.2)

/-- The expression `oscMsg.args[i]?.value`. -/
def argValue (args : List OscArg) (i : Nat) : JSVal :=
  match args.get? i with
  | some a => a.value
  | none => .undefined

/-- The object literal of lines 97-104. -/
def moduleDescriptor (name : JSVal) (args : List OscArg) : ModuleDescriptor :=
  { name := name
    category := orElse (argValue args 1) (.str "")
    synthDef := orElse (argValue args 2) (.str "")
    numParams := orElse (argValue args 3) (.num (.fin 0))
    numInstances := orElse (argValue args 4) (.num (.fin 0))
    description := orElse (argValue args 5) (.str "") }

/-- Cache registry module broadcasts, lines 94-106. The property key of
`moduleCache[name]` is `String(name)`. -/
def cacheModule (numToString : JSNum → String) (c : Caches) (oscMsg : OscMessage) :
    Except JSError Caches :=
  if strictEq oscMsg.address (.str "/brahma/registry/module") then
    let name := argValue oscMsg.args 0
    if truthy name then
      match jsString numToString name with
      | .error e => .error e
      | .ok key =>
        .ok { c with moduleCache := c.moduleCache.set key (moduleDescriptor name oscMsg.args) }
    else .ok c
  else .ok c

/-- What the read `paramCache[key]` finds. -/
inductive ParamSlot where
  | list (ps : List ParamDescriptor)
  | inherited
  | absent

/-- The read `paramCache[key]`: an own property, else a property inherited from
`Object.prototype`, else `undefined`. -/
def paramCacheGet (pc : List (String × List ParamDescriptor)) (key : String) : ParamSlot :=
  match pc.lookup key with
  | some ps => .list ps
  | none => if objectPrototypeKeys.contains key then .inherited else .absent

/-- The call `ps.findIndex(p => p.name === paramName)`; `none` stands for `-1`. -/
def findIndex (paramName : JSVal) : List ParamDescriptor → Option Nat
  | [] => none
  | p :: rest =>
    if strictEq p.name paramName then some 0
    else (findIndex paramName rest).map (fun i => i + 1)

/-- The object literal of lines 116-123. -/
def paramDescriptor (paramName : JSVal) (args : List OscArg) : ParamDescriptor :=
  { name := paramName
    default := orElse (argValue args 2) (.num (.fin 0))
    min := orElse (argValue args 3) (.num (.fin 0))
    max := orElse (argValue args 4) (.num (.fin 1))
    units := orElse (argValue args 5) (.str "")
    desc := orElse (argValue args 6) (.str "") }

/-- Lines 115-128 on the parameter list of one module: overwrite in place the
entry of the same name, or append. -/
def upsertParam (paramName : JSVal) (args : List OscArg) (ps : List ParamDescriptor) :
    List ParamDescriptor :=
  match findIndex paramName ps with
  | some i => ps.set i (paramDescriptor paramName args)
  | none => ps ++ [paramDescriptor paramName args]

/-- Cache registry param broadcasts, lines 109-130. An inherited property is
truthy, so line 113 leaves it, and it has no `findIndex` method: line 115
throws a `TypeError`. -/
def cacheParam (numToString : JSNum → String) (c : Caches) (oscMsg : OscMessage) :
    Except JSError Caches :=
  if strictEq oscMsg.address (.str "/brahma/registry/param") then
    let moduleName := argValue oscMsg.args 0
    let paramName := argValue oscMsg.args 1
    if truthy moduleName && truthy paramName then
      match jsString numToString moduleName with
      | .error e => .error e
      | .ok key =>
        match paramCacheGet c.paramCache key with
        | .inherited => .error .typeError
        | .list ps =>
          .ok { c with paramCache := ownSet key (upsertParam paramName oscMsg.args ps) c.paramCache }
        | .absent =>
          .ok { c with paramCache := ownSet key (upsertParam paramName oscMsg.args []) c.paramCache }
    else .ok c
  else .ok c

/-- A browser session in `wss.clients`, with the `readyState` of its socket. -/
structure Client where
  id : Nat
  readyState : Nat
  deriving DecidableEq

/-- The constant `WebSocket.OPEN`. -/
def WebSocket_OPEN : Nat := 1

/-- Broadcast to all WebSocket clients, lines 133-142: each open client is sent
the JSON text of `{ address, args }`, recorded here as the pair of the client
and the message that the text is made from (what a client decodes from the
text is `toTransportFrame`). -/
def broadcast (clients : List Client) (oscMsg : OscMessage) : List (Nat × OscMessage) :=
  (clients.filter (fun c => c.readyState == WebSocket_OPEN)).map (fun c => (c.id, oscMsg))

/-- The handler of an inbound OSC message, lines 92-143: both cache updates, then
the broadcast. An `error` result is an exception that leaves the handler. -/
def udpOnMessage (numToString : JSNum → String) (c : Caches) (clients : List Client)
    (oscMsg : OscMessage) : Except JSError (Caches × List (Nat × OscMessage)) :=
  match cacheModule numToString c oscMsg with
  | .error e => .error e
  | .ok c1 =>
    match cacheParam numToString c1 oscMsg with
    | .error e => .error e
    | .ok c2 => .ok (c2, broadcast clients oscMsg)

/-- An inbound datagram together with the sessions connected when it arrives. -/
structure UdpEvent where
  clients : List Client
  oscMsg : OscMessage

/-- The handler run on a sequence of inbound messages, in arrival order. An
exception that leaves the handler ends the run. -/
def udpRun (numToString : JSNum → String) :
    Caches → List UdpEvent → Except JSError (Caches × List (Nat × OscMessage))
  | c, [] => .ok (c, [])
  | c, ev :: rest =>
    match udpOnMessage numToString c ev.clients ev.oscMsg with
    | .error e => .error e
    | .ok (c1, out1) =>
      match udpRun numToString c1 rest with
      | .error e => .error e
      | .ok (c2, out2) => .ok (c2, out1 ++ out2)

/-- What `GET /api/modules/:name/params` hands to `res.json`: a parameter list,
or a property that `paramCache` inherits from `Object.prototype`. -/
inductive ParamsReply where
  | params (ps : List ParamDescriptor)
  | inheritedProperty
  deriving DecidableEq

/-- The expression `paramCache[req.params.name] || []` answered by
`GET /api/modules/:name/params`, lines 32-35. An own parameter list is an
array, hence truthy; so is every inherited property. -/
def apiParams (c : Caches) (name : String) : ParamsReply :=
  match paramCacheGet c.paramCache name with
  | .list ps => .params ps
  | .inherited => .inheritedProperty
  | .absent => .params []

/-- Whether a value is a primitive (not an array, not an object): the values that
`===` compares by content. -/
def isPrimitive : JSVal → Bool
  | .arr _ => false
  | .obj _ => false
  | _ => true

/-- The loop `wss.clients.forEach(client => { if (client.readyState ===
WebSocket.OPEN) client.send(jsonMsg) })`, lines 138-142, run on the session
set: the session set after the loop, and the frames sent. The callback sends
to an open client and does nothing else; no line of the bridge adds a session
to `wss.clients` or removes one. -/
def fanOut (clients : List Client) (oscMsg : OscMessage) :
    List Client × List (Nat × OscMessage) :=
  clients.foldl
    (fun acc client =>
      if client.readyState == WebSocket_OPEN then (acc.1, acc.2 ++ [(client.id, oscMsg)])
      else acc)
    (clients, [])

/-- The client-frame handler, lines 62-89, seen from the whole bridge process: its
code names neither `moduleCache` nor `paramCache` nor `wss.clients`, so the
caches after it are the caches before it and no session is sent a frame. The
result holds the caches, the frames delivered to sessions, and the effects of
`wsOnMessage`. -/
def wsOnMessageBridge (numToString : JSNum → String) (c : Caches)
    (parsed : Except JSError JSVal) :
    Except JSError (Caches × List (Nat × OscMessage) × WsEffects) :=
  match wsOnMessage numToString parsed with
  | .error e => .error e
  | .ok eff => .ok (c, [], eff)

/-- An argument value of the wire types integer, float and string as a JSON text
carries it: `JSON.stringify` writes a number that is not finite (NaN,
Infinity, -Infinity) as `null`; a string and a finite number come back from
`JSON.parse` unchanged. -/
def jsonValue : JSVal → JSVal
  | .num (.fin q) => .num (.fin q)
  | .num _ => .null
  | v => v

/-- The transport frame of lines 133-136 as a client decodes it: the value that
`JSON.parse` gives back for the text `JSON.stringify({ address, args })`, an
object whose `args` are `{ type, value }` objects. -/
def toTransportFrame (oscMsg : OscMessage) : JSVal :=
  .obj [("address", oscMsg.address),
        ("args", .arr (oscMsg.args.map
          (fun a => JSVal.obj [("type", .str a.type), ("value", jsonValue a.value)])))]

/-- The frame that carries the plain values of a message: `{ address, args }` with
`args` the values alone, the form in which clients send (section 6 of the
specification). -/
def plainFrame (oscMsg : OscMessage) : JSVal :=
  .obj [("address", oscMsg.address), ("args", .arr (oscMsg.args.map OscArg.value))]

/-! ## Browser client: reconnection (`public/sketch.js`, lines 31-58) -/

/-- An active interval timer of the page: the handle `setInterval` returned, and
its period in milliseconds. -/
structure IntervalTimer where
  handle : Nat
  period : Nat
  deriving DecidableEq

/-- The state the reconnect logic lives in: the variable `reconnectInterval`
(`null` is `none`), the active interval timers, and the last handle handed
out (`setInterval` returns a fresh integer greater than zero). -/
structure ReconnectState where
  reconnectInterval : Option Nat
  timers : List IntervalTimer
  lastHandle : Nat
  deriving DecidableEq

/-- The page as it loads: `let reconnectInterval = null`, no timer. -/
def initialReconnect : ReconnectState :=
  { reconnectInterval := none, timers := [], lastHandle := 0 }

/-- Truthiness of `reconnectInterval`: `null` is falsy, a handle is truthy unless
it is 0. -/
def reconnectIntervalTruthy (s : ReconnectState) : Bool :=
  match s.reconnectInterval with
  | some h => h != 0
  | none => false

/-- The call `clearInterval(h)`. -/
def clearInterval (h : Option Nat) (timers : List IntervalTimer) : List IntervalTimer :=
  timers.filter (fun t => some t.handle != h)

/-- The handler `socket.onopen`, lines 34-39. -/
def onopen (s : ReconnectState) : ReconnectState :=
  if reconnectIntervalTruthy s then
    { s with timers := clearInterval s.reconnectInterval s.timers, reconnectInterval := none }
  else s

/-- The handler `socket.onclose`, lines 46-53: auto-reconnect every 3 seconds. -/
def onclose (s : ReconnectState) : ReconnectState :=
  if !reconnectIntervalTruthy s then
    { reconnectInterval := some (s.lastHandle + 1)
      timers := s.timers ++ [{ handle := s.lastHandle + 1, period := 3000 }]
      lastHandle := s.lastHandle + 1 }
  else s

/-- The events of a socket that touch the reconnect logic. The tick of the timer
calls `connectWebSocket`, which creates a socket and sets no timer. -/
inductive SocketEvent where
  | open
  | close
  | tick
  deriving DecidableEq

/-- One event handled. -/
def reconnectStep (s : ReconnectState) : SocketEvent → ReconnectState
  | .open => onopen s
  | .close => onclose s
  | .tick => s

/-- A sequence of events handled, from the state `s`. -/
def reconnectRun (s : ReconnectState) (events : List SocketEvent) : ReconnectState :=
  events.foldl reconnectStep s

/-- The invariant of the reconnect logic: either `reconnectInterval` is `null` and
no timer is active, or it holds the handle of the one active timer, whose
period is 3000 ms. -/
def ReconnectInv (s : ReconnectState) : Prop :=
  (s.reconnectInterval = none ∧ s.timers = []) ∨
  ∃ h, h ≠ 0 ∧ s.reconnectInterval = some h ∧ s.timers = [{ handle := h, period := 3000 }]

/-! ## Cortex panels (`public/cortex/components`) -/

/-- The addresses `chronos-panel.js` passes to `osc.send`
(lines 25, 32, 47, 80, 83, 113, 117, 124, 129, 150). -/
def chronosAddresses : List String :=
  ["/chronos/transport/play", "/chronos/transport/stop", "/chronos/transport/tempo",
   "/chronos/scene/load", "/chronos/scene/save", "/chronos/fill/on", "/chronos/fill/off",
   "/chronos/undo", "/chronos/redo", "/chronos/scene/morph"]

/-- The addresses `daemon-panel.js` passes to `osc.send`
(lines 111, 130, 139, 182-206, 222, 225). -/
def daemonAddresses : List String :=
  ["/daemon/clock/register", "/daemon/clock/division", "/daemon/clock/unregister",
   "/daemon/machina/create", "/moirai/create", "/genesis/create", "/arbor/create",
   "/daemon/euclidean/create", "/daemon/probmatrix/create", "/daemon/lorenz/create",
   "/daemon/henon/create", "/daemon/rossler/create", "/daemon/clock/unregister",
   "/daemon/free"]

/-- The addresses `engine-panel.js` passes to `osc.send`
(lines 46, 83, 188, 220, 233, 239). -/
def engineAddresses : List String :=
  ["/brahma/modules/params", "/brahma/engine/freeAll", "/brahma/modules/params",
   "/brahma/engine/set", "/brahma/engine/noteOn", "/brahma/engine/noteOff"]

/-- The addresses `module-browser.js` passes to `osc.send`
(line 38, both branches; lines 130, 173, 183, 205, 221). -/
def moduleBrowserAddresses : List String :=
  ["/brahma/demo/stop", "/brahma/demo/start", "/brahma/modules/params",
   "/brahma/module/create", "/brahma/module/free", "/brahma/modules/params",
   "/brahma/module/set"]

/-- The addresses `patch-matrix.js` passes to `osc.send` (lines 58, 74, 123). -/
def patchMatrixAddresses : List String :=
  ["/brahma/patch/connect", "/brahma/patch/disconnect", "/brahma/patch/disconnect"]

/-- The addresses `serpens-panel.js` passes to `osc.send` (lines 33, 41, 112, 124). -/
def serpensAddresses : List String :=
  ["/serpens/list", "/serpens/stopAll", "/serpens/stop", "/serpens/apply"]

/-- Every address a cortex panel passes to `osc.send`. -/
def panelAddresses : List String :=
  chronosAddresses ++ daemonAddresses ++ engineAddresses ++ moduleBrowserAddresses ++
    patchMatrixAddresses ++ serpensAddresses

/-- A call `osc.send(address, ...args)`. -/
structure OscSend where
  address : String
  args : List JSVal
  deriving DecidableEq

/-- An entry of `connections` in the patch matrix, `{ source, dest, amount }`. -/
structure Connection where
  source : String
  dest : String
  amount : JSVal
  deriving DecidableEq

/-- The click handler of the Connect button, `patch-matrix.js` lines 55-67, on the
list `connections`. The arguments are the texts of the source and destination
inputs and the outcome of `parseFloat(amtInput.value)` (NaN when the text
does not start with a number); the input is labelled `Amount (0-1)`, line 48.
The result is the list after the click and the calls of `osc.send`. -/
def connectClick (connections : List Connection) (src dst : String) (parsedAmount : JSNum) :
    List Connection × List OscSend :=
  if truthy (.str src) && truthy (.str dst) then
    let amt := orElse (.num parsedAmount) (.num (.fin 1))
    (connections ++ [{ source := src, dest := dst, amount := amt }],
     [{ address := "/brahma/patch/connect", args := [.str src, .str dst, amt] }])
  else (connections, [])

/-- The click handler of `Oct-`, `engine-panel.js` line 68. -/
def octaveDown (octave : Int) : Int := max 1 (octave - 1)

/-- The click handler of `Oct+`, `engine-panel.js` line 72. -/
def octaveUp (octave : Int) : Int := min 7 (octave + 1)

/-- A click on one of the two octave buttons. -/
inductive OctaveClick where
  | down
  | up
  deriving DecidableEq

/-- The octave after a sequence of clicks. -/
def octaveAfter (octave : Int) (clicks : List OctaveClick) : Int :=
  clicks.foldl (fun o click => match click with
    | .down => octaveDown o
    | .up => octaveUp o) octave

/-- The octave of a new engine panel, `this.octave = 4`, line 23. -/
def initialOctave : Int := 4

/-- The notes of the 25 keys that `renderPiano` builds, lines 111-125:
`(this.octave * 12) + i` for `i` from 0 to 24; `noteOn` and `noteOff` send the
note of the key, lines 231-240. -/
def pianoNotes (octave : Int) : List Int :=
  (List.range 25).map (fun (i : Nat) => octave * 12 + (i : Int))

/-! ## The tagging rule as the specification words it -/

/-- The rule of the specification for the wire type of an outbound argument `x`,
as a relation to the typed argument `o`: a number whose value is an integer
(zero fractional part) is tagged `i`, any other number is tagged `f`, both
with the value unchanged; every value that is not a number is tagged `s`, with
its string conversion as value; there is no other tag. -/
def specTagRule (numToString : JSNum → String) (x : JSVal) (o : OscArg) : Prop :=
  (∀ q : ℚ, x = .num (.fin q) → (∃ z : ℤ, q = z) → o = { type := "i", value := x }) ∧
  (∀ n, x = .num n → (¬ ∃ z : ℤ, n = .fin z) → o = { type := "f", value := x }) ∧
  ((∀ n, x ≠ .num n) →
    ∃ t, jsString numToString x = .ok t ∧ o = { type := "s", value := .str t }) ∧
  (o.type = "i" ∨ o.type = "f" ∨ o.type = "s")

/-! ## The parameter registry as the specification words it -/

/-- A name is listed at the end unless it is listed already. -/
def addIfAbsent (names : List String) (p : String) : List String :=
  if p ∈ names then names else names ++ [p]

/-- The distinct names of a sequence of sightings, in the order of each name's
first sighting: the sequence is read from the left and a name is listed when
it is met for the first time. -/
def firstSightings (names : List String) : List String :=
  names.foldl addIfAbsent []

/-- The arguments of the last sighting of the parameter `p`, if it was sighted. -/
def lastArgs (p : String) (sightings : List (String × List OscArg)) : Option (List OscArg) :=
  sightings.foldl (fun acc w => if w.1 = p then some w.2 else acc) none

/-- Whether a message is a sighting of a parameter for the module named `m`: a
param-registry broadcast whose module name is the non-empty string `m` and
whose parameter name is a non-empty string; then the parameter name and the
arguments of the message. -/
def sighting? (m : String) (msg : OscMessage) : Option (String × List OscArg) :=
  if msg.address = .str "/brahma/registry/param" ∧ argValue msg.args 0 = .str m ∧ m ≠ "" then
    match argValue msg.args 1 with
    | .str p => if p ≠ "" then some (p, msg.args) else none
    | _ => none
  else none

/-- The sightings of parameters for the module named `m` in a sequence of inbound
messages, in arrival order. -/
def paramSightings (m : String) (evs : List UdpEvent) : List (String × List OscArg) :=
  evs.filterMap (fun ev => sighting? m ev.oscMsg)

/-- A value typed as a name in the wire format of the registry broadcasts: a
string, or absent. -/
def stringOrAbsent (v : JSVal) : Prop := v = .undefined ∨ ∃ t, v = .str t

/-- A message whose first two arguments are typed as the names of a
param-registry broadcast. -/
def namesTyped (msg : OscMessage) : Prop :=
  stringOrAbsent (argValue msg.args 0) ∧ stringOrAbsent (argValue msg.args 1)

/-- A parameter descriptor holds the values of the arguments of a broadcast:
each of default, min, max, units and desc is the argument 2, 3, 4, 5, 6 of the
broadcast when that argument is truthy, and otherwise (the argument missing,
0, NaN, or the empty string) the default of the field: 0, 0, 1, the empty
string, the empty string. -/
def storesArguments (d : ParamDescriptor) (args : List OscArg) : Prop :=
  (truthy (argValue args 2) = true → d.default = argValue args 2) ∧
  (truthy (argValue args 2) = false → d.default = .num (.fin 0)) ∧
  (truthy (argValue args 3) = true → d.min = argValue args 3) ∧
  (truthy (argValue args 3) = false → d.min = .num (.fin 0)) ∧
  (truthy (argValue args 4) = true → d.max = argValue args 4) ∧
  (truthy (argValue args 4) = false → d.max = .num (.fin 1)) ∧
  (truthy (argValue args 5) = true → d.units = argValue args 5) ∧
  (truthy (argValue args 5) = false → d.units = .str "") ∧
  (truthy (argValue args 6) = true → d.desc = argValue args 6) ∧
  (truthy (argValue args 6) = false → d.desc = .str "")

/-- The invariant of the two caches: each holds every property key once; a module
descriptor is stored under the string conversion of its name, which is truthy;
in a parameter list the names are truthy and no two of them are equal under
`===`. -/
def CachesInv (numToString : JSNum → String) (c : Caches) : Prop :=
  (c.moduleCache.own.map Prod.fst).Nodup ∧
  (∀ k d, (k, d) ∈ c.moduleCache.own →
    jsString numToString d.name = .ok k ∧ truthy d.name = true) ∧
  (c.paramCache.map Prod.fst).Nodup ∧
  (∀ k l, (k, l) ∈ c.paramCache →
    (l.map ParamDescriptor.name).Pairwise (fun x y => strictEq x y = false) ∧
    ∀ x ∈ l.map ParamDescriptor.name, truthy x = true)

/-! ## Concrete inputs -/

/-- The double nearest to `2.667`. -/
def double_2_667 : ℚ := ⟨1501387525774639, 562949953421312, by decide, by decide⟩

/-- A stand-in for `Number.prototype.toString` where no number is converted. -/
def noNumToString : JSNum → String := fun _ => ""

/-- The decoded frame `{"address":"/daemon/lorenz/create","args":["lorenz1",10,28,2.667]}`. -/
def frameLorenzCreate : JSVal :=
  .obj [("address", .str "/daemon/lorenz/create"),
        ("args", .arr [.str "lorenz1", .num (.fin 10), .num (.fin 28), .num (.fin double_2_667)])]

/-- The decoded frame `{"address":"/admin/shutdown","args":[]}`. -/
def frameAdminShutdown : JSVal :=
  .obj [("address", .str "/admin/shutdown"), ("args", .arr [])]

/-- The decoded frame `{"address":"/daemon/x","args":[2147483648]}`. -/
def frameBigInteger : JSVal :=
  .obj [("address", .str "/daemon/x"), ("args", .arr [.num (.fin 2147483648)])]

/-- The decoded frame `{"address":"/daemon/x","args":null}`. -/
def frameNullArgs : JSVal :=
  .obj [("address", .str "/daemon/x"), ("args", .null)]

/-- The decoded frame `{"address":"/daemon/x","args":7}`. -/
def frameNumberArgs : JSVal :=
  .obj [("address", .str "/daemon/x"), ("args", .num (.fin 7))]

/-- The decoded frame `{"address":"/daemon/x","args":[true,null,[1,"a"],{}]}`. -/
def frameMixedArgs : JSVal :=
  .obj [("address", .str "/daemon/x"),
        ("args", .arr [.bool true, .null, .arr [.num (.fin 1), .str "a"], .obj []])]

/-- The broadcast `/brahma/registry/module ["lorenz","daemon","DaemonSynth",3,0,"chaos source"]`. -/
def moduleMsgLorenz : OscMessage :=
  { address := .str "/brahma/registry/module"
    args := [{ type := "s", value := .str "lorenz" }, { type := "s", value := .str "daemon" },
             { type := "s", value := .str "DaemonSynth" }, { type := "i", value := .num (.fin 3) },
             { type := "i", value := .num (.fin 0) }, { type := "s", value := .str "chaos source" }] }

/-- The broadcast `/brahma/registry/module ["__proto__","daemon","DaemonSynth",3,0,"chaos source"]`. -/
def moduleMsgProto : OscMessage :=
  { address := .str "/brahma/registry/module"
    args := [{ type := "s", value := .str "__proto__" }, { type := "s", value := .str "daemon" },
             { type := "s", value := .str "DaemonSynth" }, { type := "i", value := .num (.fin 3) },
             { type := "i", value := .num (.fin 0) }, { type := "s", value := .str "chaos source" }] }

/-- The broadcast `/brahma/registry/module ["","daemon","DaemonSynth",3,0,"chaos source"]`. -/
def moduleMsgEmptyName : OscMessage :=
  { address := .str "/brahma/registry/module"
    args := [{ type := "s", value := .str "" }, { type := "s", value := .str "daemon" },
             { type := "s", value := .str "DaemonSynth" }, { type := "i", value := .num (.fin 3) },
             { type := "i", value := .num (.fin 0) }, { type := "s", value := .str "chaos source" }] }

/-- The 32-bit float nearest to `0.01`. -/
def float32_0_01 : ℚ := ⟨5368709, 536870912, by decide, by decide⟩

/-- The arguments `[m, p, default, min, max, "Hz", "update rate"]` of a
param-registry broadcast, typed s, s, f, f, f, s, s. -/
def paramArgs (m p : String) (default min max : ℚ) : List OscArg :=
  [{ type := "s", value := .str m }, { type := "s", value := .str p },
   { type := "f", value := .num (.fin default) }, { type := "f", value := .num (.fin min) },
   { type := "f", value := .num (.fin max) }, { type := "s", value := .str "Hz" },
   { type := "s", value := .str "update rate" }]

/-- The broadcast `/brahma/registry/param ["lorenz","rate",1.0,0.01,10.0,"Hz","update rate"]`. -/
def paramMsgRate1 : OscMessage :=
  { address := .str "/brahma/registry/param", args := paramArgs "lorenz" "rate" 1 float32_0_01 10 }

/-- The broadcast `/brahma/registry/param ["lorenz","rate",2.0,0.01,10.0,"Hz","update rate"]`. -/
def paramMsgRate2 : OscMessage :=
  { address := .str "/brahma/registry/param", args := paramArgs "lorenz" "rate" 2 float32_0_01 10 }

/-- The broadcast `/brahma/registry/param ["lorenz","rate",2.0,0.01,0.0,"Hz","update rate"]`. -/
def paramMsgRateMaxZero : OscMessage :=
  { address := .str "/brahma/registry/param", args := paramArgs "lorenz" "rate" 2 float32_0_01 0 }

/-- The broadcast `/brahma/registry/param ["constructor","rate",1.0,0.01,10.0,"Hz","update rate"]`. -/
def paramMsgConstructor : OscMessage :=
  { address := .str "/brahma/registry/param",
    args := paramArgs "constructor" "rate" 1 float32_0_01 10 }

/-- The broadcast `/brahma/registry/param ["lorenz","",1.0,0.01,10.0,"Hz","update rate"]`. -/
def paramMsgEmptyParamName : OscMessage :=
  { address := .str "/brahma/registry/param", args := paramArgs "lorenz" "" 1 float32_0_01 10 }

/-- The broadcast `/brahma/registry/param ["lorenz","rate"]`, without default. -/
def paramMsgNoDefault : OscMessage :=
  { address := .str "/brahma/registry/param",
    args := [{ type := "s", value := .str "lorenz" }, { type := "s", value := .str "rate" }] }

/-- The broadcast `/brahma/registry/param ["lorenz","rate",0.0]`. -/
def paramMsgDefaultZero : OscMessage :=
  { address := .str "/brahma/registry/param",
    args := [{ type := "s", value := .str "lorenz" }, { type := "s", value := .str "rate" },
             { type := "f", value := .num (.fin 0) }] }

/-- A stand-in for `Number.prototype.toString` that is right on the integers of
magnitude below `10^21` (their decimal numeral), on the infinities and on NaN;
it does not convert the other numbers. -/
def integerNumToString : JSNum → String
  | .fin q => if q.den = 1 then toString q.num else ""
  | .posInf => "Infinity"
  | .negInf => "-Infinity"
  | .nan => "NaN"

/-- The broadcast `/brahma/registry/module [5,"daemon","DaemonSynth",3,0,"chaos source"]`,
whose first argument is the 32-bit integer 5. -/
def moduleMsgIntName : OscMessage :=
  { address := .str "/brahma/registry/module"
    args := [{ type := "i", value := .num (.fin 5) }, { type := "s", value := .str "daemon" },
             { type := "s", value := .str "DaemonSynth" }, { type := "i", value := .num (.fin 3) },
             { type := "i", value := .num (.fin 0) }, { type := "s", value := .str "chaos source" }] }

/-- The broadcast `/brahma/registry/param [5,"rate",1.0,0.01,10.0,"Hz","update rate"]`,
whose first argument is the 32-bit integer 5. -/
def paramMsgIntModule : OscMessage :=
  { address := .str "/brahma/registry/param"
    args := [{ type := "i", value := .num (.fin 5) }, { type := "s", value := .str "rate" },
             { type := "f", value := .num (.fin 1) }, { type := "f", value := .num (.fin float32_0_01) },
             { type := "f", value := .num (.fin 10) }, { type := "s", value := .str "Hz" },
             { type := "s", value := .str "update rate" }] }

/-- The broadcast `/brahma/registry/param ["lorenz", blob [1], 1.0]`, typed s, b, f.
A blob argument is decoded to a byte array (`Uint8Array [1]`), an object, which
`===` compares by identity. -/
def paramMsgBlobName : OscMessage :=
  { address := .str "/brahma/registry/param"
    args := [{ type := "s", value := .str "lorenz" },
             { type := "b", value := .arr [.num (.fin 1)] },
             { type := "f", value := .num (.fin 1) }] }

/-- The message `/chronos/tick [7]`, outside the registry. -/
def tickMsg : OscMessage :=
  { address := .str "/chronos/tick", args := [{ type := "i", value := .num (.fin 7) }] }

/-- Session A, open. -/
def sessionA : Client := { id := 1, readyState := WebSocket_OPEN }

/-- Session B, whose socket is closed (`WebSocket.CLOSED` is 3). -/
def sessionB : Client := { id := 2, readyState := 3 }

/-- Session C, open. -/
def sessionC : Client := { id := 3, readyState := WebSocket_OPEN }

/-- The message `/chronos/transport/tempo [120]`, the argument tagged integer. -/
def tempoMsg : OscMessage :=
  { address := .str "/chronos/transport/tempo",
    args := [{ type := "i", value := .num (.fin 120) }] }

/-- The message `/daemon/lorenz/create ["lorenz1", 10, 2.667]`, tagged string,
integer and float. -/
def lorenzCreateMsg : OscMessage :=
  { address := .str "/daemon/lorenz/create",
    args := [{ type := "s", value := .str "lorenz1" }, { type := "i", value := .num (.fin 10) },
             { type := "f", value := .num (.fin double_2_667) }] }

/-! ## Lemmas on the client-frame handler -/

theorem isInteger_iff (n : JSNum) :
    Number_isInteger n = true ↔ ∃ z : ℤ, n = .fin (z : ℚ) := by
  cases n with
  | fin q =>
    simp only [Number_isInteger, decide_eq_true_eq]
    constructor
    · intro h
      exact ⟨q.num, by rw [Rat.coe_int_num_of_den_eq_one h]⟩
    · rintro ⟨z, hz⟩
      cases hz
      exact Rat.intCast_den z
  | posInf => simp [Number_isInteger]
  | negInf => simp [Number_isInteger]
  | nan => simp [Number_isInteger]

theorem accessCheck_str (W : List String) (a : String) :
    accessCheck W (.str a) = .ok (decide (a ≠ "") && W.any (fun ns => startsWith a ns)) := by
  by_cases h : a = ""
  · simp [accessCheck, truthy, h]
  · simp [accessCheck, truthy, h]

theorem accessCheck_true {W : List String} {address : JSVal}
    (h : accessCheck W address = .ok true) :
    ∃ a, address = .str a ∧ a ≠ "" ∧ ∃ p ∈ W, startsWith a p = true := by
  unfold accessCheck at h
  split at h
  · rename_i ht
    split at h
    · rename_i a
      refine ⟨a, rfl, ?_, ?_⟩
      · simpa [truthy] using ht
      · simpa using h
    · split at h <;> simp at h
  · simp at h

theorem not_startsWith_empty : ∀ p ∈ ALLOWED_NAMESPACES, startsWith "" p = false := by
  decide

theorem wsOnMessage_ok (numToString : JSNum → String) (parsed : Except JSError JSVal) :
    ∃ eff, wsOnMessage numToString parsed = .ok eff := by
  unfold wsOnMessage tryCatch
  cases wsTryBody numToString parsed with
  | ok eff => exact ⟨eff, rfl⟩
  | error e => exact ⟨_, rfl⟩

theorem wsTryBody_ok {numToString : JSNum → String} {parsed : Except JSError JSVal}
    {eff : WsEffects} (h : wsTryBody numToString parsed = .ok eff) :
    eff = { upstream := [], toClient := [] } ∨
    ∃ msg a args typed, parsed = .ok msg ∧ msg.prop "address" = .ok (.str a) ∧
      accessCheck ALLOWED_NAMESPACES (.str a) = .ok true ∧
      msg.prop "args" = .ok args ∧ oscArgs numToString args = .ok typed ∧
      eff = { upstream := [{ address := .str a, args := typed }], toClient := [] } := by
  unfold wsTryBody at h
  cases parsed with
  | error e => simp at h
  | ok msg =>
    simp only at h
    cases haddr : msg.prop "address" with
    | error e => simp [haddr] at h
    | ok address =>
      simp only [haddr] at h
      cases hacc : accessCheck ALLOWED_NAMESPACES address with
      | error e => simp [hacc] at h
      | ok b =>
        cases b with
        | false =>
          simp only [hacc] at h
          left
          exact (Except.ok.inj h).symm
        | true =>
          simp only [hacc] at h
          obtain ⟨a, rfl, -, -⟩ := accessCheck_true hacc
          cases hargs : msg.prop "args" with
          | error e => simp [hargs] at h
          | ok args =>
            simp only [hargs] at h
            cases htyped : oscArgs numToString args with
            | error e => simp [htyped] at h
            | ok typed =>
              simp only [htyped] at h
              right
              exact ⟨msg, a, args, typed, rfl, haddr, hacc, hargs, htyped, (Except.ok.inj h).symm⟩

theorem wsOnMessage_inv {numToString : JSNum → String} {parsed : Except JSError JSVal}
    {eff : WsEffects} (h : wsOnMessage numToString parsed = .ok eff) :
    eff = { upstream := [], toClient := [] } ∨
    ∃ msg a args typed, parsed = .ok msg ∧ msg.prop "address" = .ok (.str a) ∧
      accessCheck ALLOWED_NAMESPACES (.str a) = .ok true ∧
      msg.prop "args" = .ok args ∧ oscArgs numToString args = .ok typed ∧
      eff = { upstream := [{ address := .str a, args := typed }], toClient := [] } := by
  unfold wsOnMessage tryCatch at h
  cases hb : wsTryBody numToString parsed with
  | ok eff1 =>
    simp only [hb] at h
    cases Except.ok.inj h
    exact wsTryBody_ok hb
  | error e =>
    simp only [hb] at h
    left
    exact (Except.ok.inj h).symm

theorem wsOnMessage_forward {numToString : JSNum → String} {msg : JSVal} {a : String}
    {args : JSVal} {typed : List OscArg}
    (haddr : msg.prop "address" = .ok (.str a))
    (hacc : accessCheck ALLOWED_NAMESPACES (.str a) = .ok true)
    (hargs : msg.prop "args" = .ok args) (htyped : oscArgs numToString args = .ok typed) :
    wsOnMessage numToString (.ok msg) =
      .ok { upstream := [{ address := .str a, args := typed }], toClient := [] } := by
  simp [wsOnMessage, tryCatch, wsTryBody, haddr, hacc, hargs, htyped]

theorem mapOscArgs_forall₂ (numToString : JSNum → String) :
    ∀ (xs : List JSVal) (typed : List OscArg), mapOscArgs numToString xs = .ok typed →
      List.Forall₂ (fun x o => oscArg numToString x = .ok o) xs typed := by
  intro xs
  induction xs with
  | nil =>
    intro typed h
    simp only [mapOscArgs] at h
    cases Except.ok.inj h
    exact List.Forall₂.nil
  | cons x xs ih =>
    intro typed h
    simp only [mapOscArgs] at h
    cases hx : oscArg numToString x with
    | error e => simp [hx] at h
    | ok o =>
      simp only [hx] at h
      cases hxs : mapOscArgs numToString xs with
      | error e => simp [hxs] at h
      | ok os =>
        simp only [hxs] at h
        cases Except.ok.inj h
        exact List.Forall₂.cons hx (ih os hxs)

theorem oscArgs_inv {numToString : JSNum → String} {args : JSVal} {typed : List OscArg}
    (h : oscArgs numToString args = .ok typed) :
    ∃ xs, orElse args (.arr []) = .arr xs ∧
      List.Forall₂ (fun x o => oscArg numToString x = .ok o) xs typed := by
  unfold oscArgs at h
  split at h
  · rename_i xs hxs
    exact ⟨xs, hxs, mapOscArgs_forall₂ numToString xs typed h⟩
  · simp at h

theorem mapOscArgs_scalars (numToString : JSNum → String) :
    ∀ xs : List JSVal, (∀ x ∈ xs, (∃ n, x = .num n) ∨ (∃ t, x = .str t)) →
      ∃ typed, mapOscArgs numToString xs = .ok typed ∧ typed.map OscArg.value = xs := by
  intro xs
  induction xs with
  | nil => intro _; exact ⟨[], rfl, rfl⟩
  | cons x xs ih =>
    intro h
    obtain ⟨os, hos, hval⟩ := ih (fun y hy => h y (List.mem_cons_of_mem x hy))
    rcases h x (List.mem_cons_self x xs) with ⟨n, rfl⟩ | ⟨t, rfl⟩
    · by_cases hn : Number_isInteger n = true
      · exact ⟨{ type := "i", value := .num n } :: os, by simp [mapOscArgs, oscArg, hn, hos],
          by simp [hval]⟩
      · exact ⟨{ type := "f", value := .num n } :: os, by simp [mapOscArgs, oscArg, hn, hos],
          by simp [hval]⟩
    · exact ⟨{ type := "s", value := .str t } :: os, by simp [mapOscArgs, oscArg, jsString, hos],
        by simp [hval]⟩

theorem oscArg_rule {numToString : JSNum → String} {x : JSVal} {o : OscArg}
    (h : oscArg numToString x = .ok o) :
    (∀ n, x = .num n → Number_isInteger n = true → o = { type := "i", value := x }) ∧
    (∀ n, x = .num n → Number_isInteger n = false → o = { type := "f", value := x }) ∧
    ((∀ n, x ≠ .num n) → ∃ t, jsString numToString x = .ok t ∧ o = { type := "s", value := .str t }) := by
  refine ⟨?_, ?_, ?_⟩
  · rintro n rfl hn
    simp only [oscArg, hn, if_true] at h
    exact (Except.ok.inj h).symm
  · rintro n rfl hn
    simp only [oscArg, hn] at h
    exact (Except.ok.inj h).symm
  · intro hx
    cases x with
    | num n => exact absurd rfl (hx n)
    | undefined | null | bool _ | str _ | arr _ | obj _ =>
      simp only [oscArg] at h
      split at h
      · simp at h
      · rename_i t ht
        exact ⟨t, ht, (Except.ok.inj h).symm⟩

theorem forall₂_mem_right {α β : Type} {R : α → β → Prop} :
    ∀ {xs : List α} {ys : List β}, List.Forall₂ R xs ys → ∀ y ∈ ys, ∃ x ∈ xs, R x y := by
  intro xs ys h
  induction h with
  | nil => intro y hy; simp at hy
  | cons hxy _ ih =>
    intro y hy
    rcases List.mem_cons.mp hy with rfl | hy
    · exact ⟨_, List.mem_cons_self _ _, hxy⟩
    · obtain ⟨x, hx, hr⟩ := ih y hy
      exact ⟨x, List.mem_cons_of_mem _ hx, hr⟩

theorem accessCheck_allowed_iff (a : String) :
    accessCheck ALLOWED_NAMESPACES (.str a) = .ok true ↔
      ∃ p ∈ ALLOWED_NAMESPACES, startsWith a p = true := by
  rw [accessCheck_str]
  constructor
  · intro h
    have h2 := Except.ok.inj h
    simp only [Bool.and_eq_true, List.any_eq_true] at h2
    exact h2.2
  · rintro ⟨p, hp, hs⟩
    have hne : a ≠ "" := by
      rintro rfl
      rw [not_startsWith_empty p hp] at hs
      exact Bool.noConfusion hs
    have hany : ALLOWED_NAMESPACES.any (fun ns => startsWith a ns) = true :=
      List.any_eq_true.mpr ⟨p, hp, hs⟩
    simp [hne, hany]

/-! ## The access filter and the client-frame handler -/

/-- C1, as stated, fails: for the empty address and the whitelist holding only the
empty prefix, the prefix matches (`"".startsWith("")`), yet the access check is
false, because the empty address is falsy. -/
theorem C1_counterexample_empty_address :
    ¬ (accessCheck [""] (.str "") = .ok true ↔ ∃ p ∈ [""], startsWith "" p = true) := by
  decide

/-- C1, amended: for every address string `a` and every whitelist `W`, the access
check is true if and only if `a` is not empty and some prefix of `W` is a prefix
of `a`; against `ALLOWED_NAMESPACES`, which has no empty prefix, it is true if
and only if some prefix matches; against the empty whitelist it is false. -/
theorem C1_accessCheck_iff_nonempty_and_prefix (a : String) (W : List String) :
    (accessCheck W (.str a) = .ok true ↔ a ≠ "" ∧ ∃ p ∈ W, startsWith a p = true) ∧
    (accessCheck ALLOWED_NAMESPACES (.str a) = .ok true ↔
      ∃ p ∈ ALLOWED_NAMESPACES, startsWith a p = true) ∧
    accessCheck [] (.str a) = .ok false := by
  have key : ∀ W : List String,
      accessCheck W (.str a) = .ok true ↔ a ≠ "" ∧ ∃ p ∈ W, startsWith a p = true := by
    intro W
    rw [accessCheck_str]
    simp
  refine ⟨key W, ?_, ?_⟩
  · rw [key]
    constructor
    · exact fun h => h.2
    · rintro ⟨p, hp, hs⟩
      refine ⟨?_, p, hp, hs⟩
      rintro rfl
      rw [not_startsWith_empty p hp] at hs
      exact Bool.noConfusion hs
  · rw [accessCheck_str]
    simp

/-- C2: the handler of a client frame always completes, sends nothing back to the
client, and every message it sends upstream has a string address that starts
with one of the nine prefixes of `ALLOWED_NAMESPACES`; for a frame that does
not decode to a value with such an address, nothing is sent upstream. -/
theorem C2_upstream_address_whitelisted (numToString : JSNum → String)
    (parsed : Except JSError JSVal) :
    ∃ eff, wsOnMessage numToString parsed = .ok eff ∧ eff.toClient = [] ∧
      (∀ m ∈ eff.upstream, ∃ a, m.address = .str a ∧
        ∃ p ∈ ALLOWED_NAMESPACES, startsWith a p = true) ∧
      ((¬ ∃ msg a, parsed = .ok msg ∧ msg.prop "address" = .ok (.str a) ∧
          ∃ p ∈ ALLOWED_NAMESPACES, startsWith a p = true) → eff.upstream = []) ∧
      ALLOWED_NAMESPACES.length = 9 := by
  obtain ⟨eff, h⟩ := wsOnMessage_ok numToString parsed
  refine ⟨eff, h, ?_⟩
  rcases wsOnMessage_inv h with rfl | ⟨msg, a, args, typed, rfl, haddr, hacc, -, -, rfl⟩
  · refine ⟨rfl, ?_, fun _ => rfl, rfl⟩
    intro m hm
    simp at hm
  · obtain ⟨b, hb, -, hp⟩ := accessCheck_true hacc
    cases hb
    refine ⟨rfl, ?_, ?_, rfl⟩
    · intro m hm
      simp only [List.mem_singleton] at hm
      subst hm
      exact ⟨a, rfl, hp⟩
    · intro hno
      exact absurd ⟨msg, a, rfl, haddr, hp⟩ hno

/-- C2 at the frame `{"address":"/admin/shutdown","args":[]}`: its address matches
no prefix, the handler completes with no upstream message and no reply. -/
theorem C2_witness_admin_shutdown :
    wsOnMessage noNumToString (.ok frameAdminShutdown) = .ok { upstream := [], toClient := [] } := by
  obtain ⟨eff, h, htc, -, hnone, -⟩ :=
    C2_upstream_address_whitelisted noNumToString (.ok frameAdminShutdown)
  have hup : eff.upstream = [] := by
    apply hnone
    rintro ⟨msg, a, hmsg, haddr, hp⟩
    cases hmsg
    have ha : a = "/admin/shutdown" := by
      have := haddr
      simp [frameAdminShutdown, JSVal.prop] at this
      exact this.symm
    subst ha
    revert hp
    decide
  rw [h]
  cases eff
  simp_all

/-- C3: a frame that is an object with a string address matching a whitelisted
prefix and an `args` array of numbers and strings produces exactly one upstream
message; it carries the frame's address, and its arguments carry the values of
the frame's `args`, in the same number and order. -/
theorem C3_forwards_one_message_same_values (numToString : JSNum → String)
    (props : List (String × JSVal)) (a : String) (xs : List JSVal)
    (haddr : props.lookup "address" = some (.str a))
    (hallow : ∃ p ∈ ALLOWED_NAMESPACES, startsWith a p = true)
    (hargs : props.lookup "args" = some (.arr xs))
    (hxs : ∀ x ∈ xs, (∃ n, x = .num n) ∨ (∃ t, x = .str t)) :
    ∃ typed, wsOnMessage numToString (.ok (.obj props)) =
        .ok { upstream := [{ address := .str a, args := typed }], toClient := [] } ∧
      typed.length = xs.length ∧ typed.map OscArg.value = xs := by
  obtain ⟨typed, htyped, hval⟩ := mapOscArgs_scalars numToString xs hxs
  refine ⟨typed, ?_, ?_, hval⟩
  · have h1 : (JSVal.obj props).prop "address" = .ok (.str a) := by simp [JSVal.prop, haddr]
    have h2 : (JSVal.obj props).prop "args" = .ok (.arr xs) := by simp [JSVal.prop, hargs]
    have h3 : oscArgs numToString (.arr xs) = .ok typed := by
      simp [oscArgs, orElse, truthy, htyped]
    exact wsOnMessage_forward h1 ((accessCheck_allowed_iff a).mpr hallow) h2 h3
  · rw [← hval, List.length_map]

/-- C3 at the frame `{"address":"/daemon/lorenz/create","args":["lorenz1",10,28,2.667]}`:
one upstream message with that address, whose four arguments are typed string,
integer, integer, float and carry the four values. -/
theorem C3_witness_lorenz_create :
    (∃ typed, wsOnMessage noNumToString (.ok frameLorenzCreate) =
        .ok { upstream := [{ address := .str "/daemon/lorenz/create", args := typed }],
              toClient := [] } ∧
      typed.length = 4 ∧
      typed.map OscArg.value =
        [.str "lorenz1", .num (.fin 10), .num (.fin 28), .num (.fin double_2_667)]) ∧
    wsOnMessage noNumToString (.ok frameLorenzCreate) =
      .ok { upstream := [{ address := .str "/daemon/lorenz/create",
                           args := [{ type := "s", value := .str "lorenz1" },
                                    { type := "i", value := .num (.fin 10) },
                                    { type := "i", value := .num (.fin 28) },
                                    { type := "f", value := .num (.fin double_2_667) }] }],
            toClient := [] } :=
  ⟨C3_forwards_one_message_same_values noNumToString
      [("address", .str "/daemon/lorenz/create"),
       ("args", .arr [.str "lorenz1", .num (.fin 10), .num (.fin 28), .num (.fin double_2_667)])]
      "/daemon/lorenz/create"
      [.str "lorenz1", .num (.fin 10), .num (.fin 28), .num (.fin double_2_667)]
      (by decide) (by decide) (by decide) (by simp),
   by decide⟩

/-- C4: every argument of a message sent upstream is the image of the frame's
argument at the same position under this rule: a number with zero fractional
part (an integer value) is tagged `i` and a number of any other kind is tagged
`f`, both keeping the value; a value that is not a number is tagged `s` and
carries its string conversion. The arguments converted are those of the
frame's `args`, or none when `args` is falsy. No other tag occurs. -/
theorem C4_type_tag_inference (numToString : JSNum → String)
    (parsed : Except JSError JSVal) (eff : WsEffects) (m : OscMessage)
    (h : wsOnMessage numToString parsed = .ok eff) (hm : m ∈ eff.upstream) :
    ∃ msg args xs, parsed = .ok msg ∧ msg.prop "args" = .ok args ∧
      orElse args (.arr []) = .arr xs ∧
      List.Forall₂ (specTagRule numToString) xs m.args := by
  rcases wsOnMessage_inv h with rfl | ⟨msg, a, args, typed, rfl, -, -, hargs, htyped, rfl⟩
  · simp at hm
  · simp only [List.mem_singleton] at hm
    subst hm
    obtain ⟨xs, hxs, hall⟩ := oscArgs_inv htyped
    refine ⟨msg, args, xs, rfl, hargs, hxs, ?_⟩
    refine hall.imp ?_
    intro x o hxo
    obtain ⟨hi, hf, hs⟩ := oscArg_rule hxo
    refine ⟨?_, ?_, hs, ?_⟩
    · rintro q rfl ⟨z, rfl⟩
      exact hi _ rfl ((isInteger_iff _).mpr ⟨z, rfl⟩)
    · rintro n rfl hn
      apply hf n rfl
      cases hb : Number_isInteger n with
      | false => rfl
      | true => exact absurd ((isInteger_iff n).mp hb) hn
    · cases x with
      | num n =>
        cases hb : Number_isInteger n with
        | true => left; rw [hi n rfl hb]
        | false => right; left; rw [hf n rfl hb]
      | undefined | null | bool _ | str _ | arr _ | obj _ =>
        obtain ⟨t, -, ht⟩ := hs (by intro n hn; cases hn)
        right; right; rw [ht]

/-- C4 at the frame `{"address":"/daemon/x","args":[true,null,[1,"a"],{}]}`: the
four values, none a number, go upstream tagged `s` with their string
conversions. -/
theorem C4_witness_mixed_args :
    (∃ msg args xs, (Except.ok frameMixedArgs : Except JSError JSVal) = .ok msg ∧
      msg.prop "args" = .ok args ∧ orElse args (.arr []) = .arr xs ∧
      List.Forall₂ (specTagRule (fun _ => "1")) xs
        [{ type := "s", value := .str "true" }, { type := "s", value := .str "null" },
         { type := "s", value := .str "1,a" }, { type := "s", value := .str "[object Object]" }]) :=
  C4_type_tag_inference (fun _ => "1") (.ok frameMixedArgs)
    { upstream := [{ address := .str "/daemon/x",
                     args := [{ type := "s", value := .str "true" },
                              { type := "s", value := .str "null" },
                              { type := "s", value := .str "1,a" },
                              { type := "s", value := .str "[object Object]" }] }],
      toClient := [] }
    { address := .str "/daemon/x",
      args := [{ type := "s", value := .str "true" }, { type := "s", value := .str "null" },
               { type := "s", value := .str "1,a" },
               { type := "s", value := .str "[object Object]" }] }
    (by decide) (by decide)

theorem forall₂_get?_right {α β : Type} {R : α → β → Prop} :
    ∀ {xs : List α} {ys : List β}, List.Forall₂ R xs ys →
      ∀ (i : Nat) (y : β), ys.get? i = some y → ∃ x, xs.get? i = some x ∧ R x y := by
  intro xs ys h
  induction h with
  | nil => intro i y hy; simp at hy
  | cons hxy _ ih =>
    intro i y hy
    cases i with
    | zero =>
      simp only [List.get?_cons_zero, Option.some.injEq] at hy
      subst hy
      exact ⟨_, rfl, hxy⟩
    | succ j =>
      simp only [List.get?_cons_succ] at hy
      exact ih j y hy

/-- C5, as stated, fails: the frame `{"address":"/daemon/x","args":[2147483648]}`
is forwarded with its argument tagged `i`, and `2147483648 = 2^31` is above the
largest 32-bit integer `2^31 - 1`. -/
theorem C5_counterexample_two_pow_31 :
    wsOnMessage noNumToString (.ok frameBigInteger) =
      .ok { upstream := [{ address := .str "/daemon/x",
                           args := [{ type := "i", value := .num (.fin 2147483648) }] }],
            toClient := [] } ∧
    ¬ ((2147483648 : ℚ) ≤ 2 ^ 31 - 1) := by
  constructor
  · decide
  · norm_num

/-- C5, amended: every upstream argument tagged `i` carries a number whose value
is an integer (finite, with zero fractional part), and it is the argument that
the frame holds at the same position; the upstream message has as many
arguments as the frame. The handler puts no bound on the size of the
integer. -/
theorem C5_integer_tag_is_integral (numToString : JSNum → String)
    (parsed : Except JSError JSVal) (eff : WsEffects) (m : OscMessage) (i : Nat) (o : OscArg)
    (h : wsOnMessage numToString parsed = .ok eff) (hm : m ∈ eff.upstream)
    (ho : m.args.get? i = some o) (hi : o.type = "i") :
    ∃ (z : ℤ) (msg : JSVal) (xs : List JSVal),
      o.value = .num (.fin z) ∧ parsed = .ok msg ∧ msg.prop "args" = .ok (.arr xs) ∧
      xs.get? i = some o.value ∧ xs.length = m.args.length := by
  rcases wsOnMessage_inv h with rfl | ⟨msg, a, args, typed, rfl, -, -, hargs, htyped, rfl⟩
  · simp at hm
  · simp only [List.mem_singleton] at hm
    subst hm
    obtain ⟨xs, hxs, hall⟩ := oscArgs_inv htyped
    obtain ⟨x, hxi, hxo⟩ := forall₂_get?_right hall i o ho
    have harr : args = .arr xs := by
      unfold orElse at hxs
      split at hxs
      · exact hxs
      · cases JSVal.arr.inj hxs
        simp at hxi
    obtain ⟨hint, hflt, hstr⟩ := oscArg_rule hxo
    cases x with
    | num n =>
      cases hb : Number_isInteger n with
      | true =>
        obtain ⟨z, rfl⟩ := (isInteger_iff n).mp hb
        have hval : o.value = .num (.fin z) := by rw [hint _ rfl hb]
        exact ⟨z, msg, xs, hval, rfl, by rw [hargs, harr], by rw [hxi, hval],
          hall.length_eq⟩
      | false =>
        rw [hflt n rfl hb] at hi
        exact absurd (show "f" = "i" from hi) (by decide)
    | undefined | null | bool _ | str _ | arr _ | obj _ =>
      obtain ⟨t, -, ht⟩ := hstr (by intro n hn; cases hn)
      rw [ht] at hi
      exact absurd (show "s" = "i" from hi) (by decide)

/-- C5, amended, at the frame `{"address":"/daemon/x","args":[2147483648]}`: the
argument tagged `i` carries the integer `2147483648`, the argument 0 of the
frame. -/
theorem C5_witness_integral :
    ∃ (z : ℤ) (msg : JSVal) (xs : List JSVal),
      JSVal.num (.fin 2147483648) = .num (.fin z) ∧
      (Except.ok frameBigInteger : Except JSError JSVal) = .ok msg ∧
      msg.prop "args" = .ok (.arr xs) ∧
      xs.get? 0 = some (.num (.fin 2147483648)) ∧ xs.length = 1 :=
  C5_integer_tag_is_integral noNumToString (.ok frameBigInteger)
    { upstream := [{ address := .str "/daemon/x",
                     args := [{ type := "i", value := .num (.fin 2147483648) }] }],
      toClient := [] }
    { address := .str "/daemon/x", args := [{ type := "i", value := .num (.fin 2147483648) }] }
    0 { type := "i", value := .num (.fin 2147483648) }
    (by decide) (by decide) rfl rfl

/-- C6, as stated, fails: the frame `{"address":"/daemon/x","args":null}` has an
`args` field that is present and is not an array, and it is forwarded upstream,
with an empty argument list. -/
theorem C6_counterexample_null_args :
    wsOnMessage noNumToString (.ok frameNullArgs) =
      .ok { upstream := [{ address := .str "/daemon/x", args := [] }], toClient := [] } := by
  decide

/-- C6, amended: a frame that has no `address` field, or whose `args` field is
truthy and is not an array (a non-zero number, a non-empty string, `true`, an
object), is not forwarded; a falsy `args` value (`null`, `false`, `0`, the
empty string) counts as an absent one: with a whitelisted address the frame is
forwarded with an empty argument list. -/
theorem C6_malformed_frame_not_forwarded (numToString : JSNum → String) (msg : JSVal) :
    (((∃ e, msg.prop "address" = .error e) ∨ msg.prop "address" = .ok .undefined ∨
        (∃ args, msg.prop "args" = .ok args ∧ truthy args = true ∧ ∀ xs, args ≠ .arr xs)) →
      wsOnMessage numToString (.ok msg) = .ok { upstream := [], toClient := [] }) ∧
    (∀ a args, msg.prop "address" = .ok (.str a) →
      (∃ p ∈ ALLOWED_NAMESPACES, startsWith a p = true) →
      msg.prop "args" = .ok args → truthy args = false →
      wsOnMessage numToString (.ok msg) =
        .ok { upstream := [{ address := .str a, args := [] }], toClient := [] }) := by
  constructor
  · intro hbad
    obtain ⟨eff, h⟩ := wsOnMessage_ok numToString (.ok msg)
    rw [h]
    rcases wsOnMessage_inv h with rfl | ⟨msg1, a, args, typed, hmsg, haddr, -, hargs, htyped, rfl⟩
    · rfl
    · exfalso
      cases hmsg
      rcases hbad with ⟨e, he⟩ | hu | ⟨args1, hargs1, htruthy, hnot⟩
      · rw [haddr] at he
        cases he
      · rw [haddr] at hu
        cases Except.ok.inj hu
      · rw [hargs] at hargs1
        cases Except.ok.inj hargs1
        obtain ⟨xs, hxs, -⟩ := oscArgs_inv htyped
        simp only [orElse, htruthy, if_true] at hxs
        exact hnot xs hxs
  · intro a args haddr hallow hargs hfalsy
    apply wsOnMessage_forward haddr ((accessCheck_allowed_iff a).mpr hallow) hargs
    simp [oscArgs, orElse, hfalsy, mapOscArgs]

/-- C6, amended, at the frames `{"address":"/daemon/x","args":7}` (not forwarded)
and `{"address":"/daemon/x","args":null}` (forwarded without arguments). -/
theorem C6_witness_number_args_and_null_args :
    wsOnMessage noNumToString (.ok frameNumberArgs) = .ok { upstream := [], toClient := [] } ∧
    wsOnMessage noNumToString (.ok frameNullArgs) =
      .ok { upstream := [{ address := .str "/daemon/x", args := [] }], toClient := [] } :=
  ⟨(C6_malformed_frame_not_forwarded noNumToString frameNumberArgs).1
      (Or.inr (Or.inr ⟨.num (.fin 7), by decide, by decide, by intro xs h; cases h⟩)),
   (C6_malformed_frame_not_forwarded noNumToString frameNullArgs).2 "/daemon/x" .null
      (by decide) (by decide) (by decide) (by decide)⟩

/-- C7: whatever the client frame (text that `JSON.parse` rejects, or any decoded
value: `null`, a scalar, an array, an object with any `address`), the handler
completes without raising; hence a run over the successive frames of a session
never ends on an exception, each frame being handled in its turn. -/
theorem C7_handler_never_raises (numToString : JSNum → String) :
    (∀ parsed : Except JSError JSVal, ∃ eff, wsOnMessage numToString parsed = .ok eff) ∧
    (∀ frames : List (Except JSError JSVal), ∃ eff, wsRun numToString frames = .ok eff ∧
      eff.upstream.length ≤ frames.length) := by
  refine ⟨wsOnMessage_ok numToString, ?_⟩
  intro frames
  induction frames with
  | nil => exact ⟨_, rfl, by simp⟩
  | cons parsed rest ih =>
    obtain ⟨e1, h1⟩ := wsOnMessage_ok numToString parsed
    obtain ⟨e2, h2, hlen⟩ := ih
    refine ⟨{ upstream := e1.upstream ++ e2.upstream, toClient := e1.toClient ++ e2.toClient },
      by simp only [wsRun, h1, h2], ?_⟩
    have hle : e1.upstream.length ≤ 1 := by
      rcases wsOnMessage_inv h1 with rfl | ⟨_, _, _, _, _, _, _, _, _, rfl⟩ <;> simp
    simp only [List.length_append, List.length_cons]
    omega

/-! ## Lemmas on dictionaries -/

section Dictionaries
variable {α : Type}

theorem ownReplace_cons (k : String) (v : α) (p : String × α) (ps : List (String × α)) :
    ownReplace k v (p :: ps) = (if p.1 = k then (p.1, v) else p) :: ownReplace k v ps := by
  simp [ownReplace]

theorem ownSet_of_has (k : String) (v : α) (ps : List (String × α)) (h : ownHas k ps = true) :
    ownSet k v ps = ownReplace k v ps := by
  simp [ownSet, h]

theorem ownHas_iff_mem_keys (k : String) (ps : List (String × α)) :
    ownHas k ps = true ↔ k ∈ ps.map Prod.fst := by
  simp [ownHas]

theorem lookup_isSome_iff (k : String) (ps : List (String × α)) :
    (ps.lookup k).isSome = true ↔ k ∈ ps.map Prod.fst := by
  induction ps with
  | nil => simp
  | cons p ps ih =>
    obtain ⟨k1, v1⟩ := p
    by_cases h : k = k1
    · subst h; simp [List.lookup_cons]
    · have h2 : (k == k1) = false := by simpa using h
      simp [List.lookup_cons, h2, ih, h]

theorem keys_ownReplace (k : String) (v : α) (ps : List (String × α)) :
    (ownReplace k v ps).map Prod.fst = ps.map Prod.fst := by
  induction ps with
  | nil => rfl
  | cons p ps ih =>
    rw [ownReplace_cons, List.map_cons, List.map_cons, ih]
    split <;> rfl

theorem lookup_ownReplace_self (k : String) (v : α) (ps : List (String × α))
    (h : k ∈ ps.map Prod.fst) : (ownReplace k v ps).lookup k = some v := by
  induction ps with
  | nil => simp at h
  | cons p ps ih =>
    obtain ⟨k1, v1⟩ := p
    rw [ownReplace_cons]
    by_cases hk : k1 = k
    · subst hk; simp [List.lookup_cons]
    · have h2 : (k == k1) = false := by simpa using (Ne.symm hk)
      have hmem : k ∈ ps.map Prod.fst := by
        simp only [List.map_cons, List.mem_cons] at h
        rcases h with h | h
        · exact absurd h.symm hk
        · exact h
      simp [List.lookup_cons, hk, h2, ih hmem]

theorem lookup_ownReplace_ne (k k2 : String) (v : α) (ps : List (String × α))
    (h : k2 ≠ k) : (ownReplace k v ps).lookup k2 = ps.lookup k2 := by
  induction ps with
  | nil => rfl
  | cons p ps ih =>
    obtain ⟨k1, v1⟩ := p
    rw [ownReplace_cons]
    by_cases hk : k1 = k
    · subst hk
      have h2 : (k2 == k1) = false := by simpa using h
      simp [List.lookup_cons, h2, ih]
    · simp [List.lookup_cons, hk, ih]

theorem ownInsertIndex_perm (n : Nat) (k : String) (v : α) (ps : List (String × α)) :
    (ownInsertIndex n k v ps).Perm ((k, v) :: ps) := by
  induction ps with
  | nil => exact List.Perm.refl _
  | cons p ps ih =>
    simp only [ownInsertIndex]
    split
    · split
      · exact List.Perm.refl _
      · exact (List.Perm.cons p ih).trans (List.Perm.swap _ _ _)
    · exact List.Perm.refl _

theorem lookup_ownInsertIndex_self (n : Nat) (k : String) (v : α) (ps : List (String × α))
    (h : k ∉ ps.map Prod.fst) : (ownInsertIndex n k v ps).lookup k = some v := by
  induction ps with
  | nil => simp [ownInsertIndex, List.lookup_cons]
  | cons p ps ih =>
    obtain ⟨k1, v1⟩ := p
    simp only [List.map_cons, List.mem_cons, not_or] at h
    have h2 : (k == k1) = false := by simpa using h.1
    simp only [ownInsertIndex]
    split
    · split
      · simp [List.lookup_cons]
      · simp [List.lookup_cons, h2, ih h.2]
    · simp [List.lookup_cons]

theorem lookup_ownInsertIndex_ne (n : Nat) (k k2 : String) (v : α) (ps : List (String × α))
    (h : k2 ≠ k) : (ownInsertIndex n k v ps).lookup k2 = ps.lookup k2 := by
  have h2 : (k2 == k) = false := by simpa using h
  induction ps with
  | nil => simp [ownInsertIndex, List.lookup_cons, h2]
  | cons p ps ih =>
    obtain ⟨k1, v1⟩ := p
    simp only [ownInsertIndex]
    split
    · split
      · simp [List.lookup_cons, h2]
      · simp [List.lookup_cons, ih]
    · simp [List.lookup_cons, h2]

theorem lookup_append_singleton_self (k : String) (v : α) (ps : List (String × α))
    (h : k ∉ ps.map Prod.fst) : (ps ++ [(k, v)]).lookup k = some v := by
  induction ps with
  | nil => simp [List.lookup_cons]
  | cons p ps ih =>
    obtain ⟨k1, v1⟩ := p
    simp only [List.map_cons, List.mem_cons, not_or] at h
    have h2 : (k == k1) = false := by simpa using h.1
    simp [List.lookup_cons, h2, ih h.2]

theorem lookup_append_singleton_ne (k k2 : String) (v : α) (ps : List (String × α))
    (h : k2 ≠ k) : (ps ++ [(k, v)]).lookup k2 = ps.lookup k2 := by
  have h2 : (k2 == k) = false := by simpa using h
  induction ps with
  | nil => simp [List.lookup_cons, h2]
  | cons p ps ih =>
    obtain ⟨k1, v1⟩ := p
    simp [List.lookup_cons, ih]

theorem lookup_ownSet_self (k : String) (v : α) (ps : List (String × α)) :
    (ownSet k v ps).lookup k = some v := by
  unfold ownSet
  split
  · rename_i h
    exact lookup_ownReplace_self k v ps ((ownHas_iff_mem_keys k ps).mp h)
  · rename_i h
    have hn : k ∉ ps.map Prod.fst := fun hm => h ((ownHas_iff_mem_keys k ps).mpr hm)
    split
    · exact lookup_ownInsertIndex_self _ k v ps hn
    · exact lookup_append_singleton_self k v ps hn

theorem lookup_ownSet_ne (k k2 : String) (v : α) (ps : List (String × α)) (h : k2 ≠ k) :
    (ownSet k v ps).lookup k2 = ps.lookup k2 := by
  unfold ownSet
  split
  · exact lookup_ownReplace_ne k k2 v ps h
  · split
    · exact lookup_ownInsertIndex_ne _ k k2 v ps h
    · exact lookup_append_singleton_ne k k2 v ps h

theorem keys_ownSet_perm (k : String) (v : α) (ps : List (String × α)) :
    ((ownSet k v ps).map Prod.fst).Perm
      (if k ∈ ps.map Prod.fst then ps.map Prod.fst else k :: ps.map Prod.fst) := by
  unfold ownSet
  split
  · rename_i h
    rw [if_pos ((ownHas_iff_mem_keys k ps).mp h), keys_ownReplace]
  · rename_i h
    have hn : k ∉ ps.map Prod.fst := fun hm => h ((ownHas_iff_mem_keys k ps).mpr hm)
    rw [if_neg hn]
    split
    · exact (ownInsertIndex_perm _ k v ps).map Prod.fst
    · simp only [List.map_append, List.map_cons, List.map_nil]
      exact List.perm_append_singleton k _

theorem keys_nodup_ownSet (k : String) (v : α) (ps : List (String × α))
    (h : (ps.map Prod.fst).Nodup) : ((ownSet k v ps).map Prod.fst).Nodup := by
  rw [(keys_ownSet_perm k v ps).nodup_iff]
  split
  · exact h
  · rename_i hn
    exact List.nodup_cons.mpr ⟨hn, h⟩

theorem mem_keys_ownSet (k : String) (v : α) (ps : List (String × α)) :
    k ∈ (ownSet k v ps).map Prod.fst := by
  rw [(keys_ownSet_perm k v ps).mem_iff]
  split
  · assumption
  · exact List.mem_cons_self _ _

theorem ownReplace_of_lookup (k : String) (v : α) (ps : List (String × α))
    (h : ∀ p ∈ ps, p.1 = k → p.2 = v) : ownReplace k v ps = ps := by
  induction ps with
  | nil => rfl
  | cons p ps ih =>
    obtain ⟨k1, v1⟩ := p
    rw [ownReplace_cons, ih (fun q hq => h q (List.mem_cons_of_mem _ hq))]
    by_cases hk : k1 = k
    · have hv : v1 = v := h (k1, v1) (List.mem_cons_self _ _) hk
      subst hv
      simp
    · simp [hk]

theorem ownSet_values_at_key (k : String) (v : α) (ps : List (String × α)) :
    ∀ p ∈ ownSet k v ps, p.1 = k → p.2 = v := by
  unfold ownSet
  split
  · intro p hp hk
    simp only [ownReplace, List.mem_map] at hp
    obtain ⟨q, -, rfl⟩ := hp
    by_cases hq : q.1 = k
    · simp [hq]
    · simp [hq] at hk
  · rename_i h
    have hn : k ∉ ps.map Prod.fst := fun hm => h ((ownHas_iff_mem_keys k ps).mpr hm)
    have key : ∀ p ∈ (k, v) :: ps, p.1 = k → p.2 = v := by
      intro p hp hk
      rcases List.mem_cons.mp hp with rfl | hp
      · rfl
      · exact absurd (hk ▸ List.mem_map_of_mem Prod.fst hp) hn
    split
    · intro p hp
      exact key p ((ownInsertIndex_perm _ k v ps).mem_iff.mp hp)
    · intro p hp
      exact key p (by
        rcases List.mem_append.mp hp with hp | hp
        · exact List.mem_cons_of_mem _ hp
        · rw [List.mem_singleton.mp hp]; exact List.mem_cons_self _ _)

theorem ownSet_idem (k : String) (v : α) (ps : List (String × α)) :
    ownSet k v (ownSet k v ps) = ownSet k v ps := by
  have hmem := mem_keys_ownSet k v ps
  rw [ownSet_of_has k v (ownSet k v ps) ((ownHas_iff_mem_keys k _).mpr hmem)]
  exact ownReplace_of_lookup k v _ (ownSet_values_at_key k v ps)

end Dictionaries

/-! ## Lemmas on the registry cache -/

theorem mem_of_lookup {α : Type} (k : String) (v : α) :
    ∀ ps : List (String × α), ps.lookup k = some v → (k, v) ∈ ps := by
  intro ps
  induction ps with
  | nil => intro h; simp at h
  | cons p ps ih =>
    obtain ⟨k1, v1⟩ := p
    intro h
    by_cases hk : k = k1
    · subst hk
      simp only [List.lookup_cons, beq_self_eq_true] at h
      cases Option.some.inj h
      exact List.mem_cons_self _ _
    · have h2 : (k == k1) = false := by simpa using hk
      simp only [List.lookup_cons, h2] at h
      exact List.mem_cons_of_mem _ (ih h)

theorem filter_key_of_lookup {α : Type} (k : String) (v : α) :
    ∀ ps : List (String × α), (ps.map Prod.fst).Nodup → ps.lookup k = some v →
      ps.filter (fun p => decide (p.1 = k)) = [(k, v)] := by
  intro ps
  induction ps with
  | nil => intro _ h; simp at h
  | cons p ps ih =>
    obtain ⟨k1, v1⟩ := p
    intro hnd h
    simp only [List.map_cons, List.nodup_cons] at hnd
    by_cases hk : k = k1
    · subst hk
      simp only [List.lookup_cons, beq_self_eq_true] at h
      cases Option.some.inj h
      have hnone : ps.filter (fun p => decide (p.1 = k)) = [] := by
        rw [List.filter_eq_nil_iff]
        intro q hq hqk
        have hqk2 : q.1 = k := by simpa using hqk
        exact hnd.1 (hqk2 ▸ List.mem_map_of_mem Prod.fst hq)
      simp [List.filter_cons, hnone]
    · have h2 : (k == k1) = false := by simpa using hk
      simp only [List.lookup_cons, h2] at h
      have hk2 : ¬ k1 = k := fun e => hk e.symm
      simp [List.filter_cons, hk2, ih hnd.2 h]

theorem moduleCache_set_idem (mc : ModuleCache) (key : String) (d : ModuleDescriptor) :
    (mc.set key d).set key d = mc.set key d := by
  unfold ModuleCache.set
  by_cases h : key = "__proto__"
  · simp [h]
  · simp [h, ownSet_idem]

theorem cacheParam_module_address (numToString : JSNum → String) (c : Caches)
    (m : OscMessage) (haddr : m.address = .str "/brahma/registry/module") :
    cacheParam numToString c m = .ok c := by
  have hne : strictEq (.str "/brahma/registry/module") (.str "/brahma/registry/param") = false := by
    decide
  simp [cacheParam, haddr, hne]

theorem cacheModule_module_address (numToString : JSNum → String) (c : Caches)
    (m : OscMessage) (haddr : m.address = .str "/brahma/registry/module") :
    cacheModule numToString c m =
      if truthy (argValue m.args 0) then
        match jsString numToString (argValue m.args 0) with
        | .error e => .error e
        | .ok key =>
          .ok { c with moduleCache :=
                  c.moduleCache.set key (moduleDescriptor (argValue m.args 0) m.args) }
      else .ok c := by
  have heq : strictEq (.str "/brahma/registry/module") (.str "/brahma/registry/module") = true := by
    decide
  simp [cacheModule, haddr, heq]

theorem udpOnMessage_module_inv {numToString : JSNum → String} {c c1 : Caches}
    {clients : List Client} {m : OscMessage} {out : List (Nat × OscMessage)}
    (haddr : m.address = .str "/brahma/registry/module")
    (h : udpOnMessage numToString c clients m = .ok (c1, out)) :
    out = broadcast clients m ∧
    ((truthy (argValue m.args 0) = false ∧ c1 = c) ∨
     (truthy (argValue m.args 0) = true ∧ ∃ key, jsString numToString (argValue m.args 0) = .ok key ∧
        c1 = { c with moduleCache :=
                 c.moduleCache.set key (moduleDescriptor (argValue m.args 0) m.args) })) := by
  unfold udpOnMessage at h
  rw [cacheModule_module_address numToString c m haddr] at h
  cases ht : truthy (argValue m.args 0) with
  | false =>
    simp only [ht, Bool.false_eq_true, if_false,
      cacheParam_module_address numToString c m haddr] at h
    cases Except.ok.inj h
    exact ⟨rfl, Or.inl ⟨rfl, rfl⟩⟩
  | true =>
    simp only [ht, if_true] at h
    cases hk : jsString numToString (argValue m.args 0) with
    | error e => simp [hk] at h
    | ok key =>
      simp only [hk, cacheParam_module_address numToString _ m haddr] at h
      cases Except.ok.inj h
      exact ⟨rfl, Or.inr ⟨rfl, key, rfl, rfl⟩⟩

theorem udpOnMessage_module_store (numToString : JSNum → String) (c : Caches)
    (clients : List Client) (m : OscMessage) (key : String)
    (haddr : m.address = .str "/brahma/registry/module")
    (ht : truthy (argValue m.args 0) = true)
    (hk : jsString numToString (argValue m.args 0) = .ok key) :
    udpOnMessage numToString c clients m =
      .ok ({ c with moduleCache :=
               c.moduleCache.set key (moduleDescriptor (argValue m.args 0) m.args) },
           broadcast clients m) := by
  unfold udpOnMessage
  rw [cacheModule_module_address numToString c m haddr]
  simp only [ht, if_true, hk, cacheParam_module_address numToString _ m haddr]

theorem udpOnMessage_module_skip (numToString : JSNum → String) (c : Caches)
    (clients : List Client) (m : OscMessage)
    (haddr : m.address = .str "/brahma/registry/module")
    (ht : truthy (argValue m.args 0) = false) :
    udpOnMessage numToString c clients m = .ok (c, broadcast clients m) := by
  unfold udpOnMessage
  rw [cacheModule_module_address numToString c m haddr]
  simp only [ht, Bool.false_eq_true, if_false, cacheParam_module_address numToString _ m haddr]

/-! ## The module registry -/

/-- C8, failing input: the module-registry broadcast with the six arguments
`["__proto__","daemon","DaemonSynth",3,0,"chaos source"]`, handled from the
empty cache. Its name is not empty, yet the module list holds no descriptor
afterwards: the assignment `moduleCache["__proto__"] = {...}` replaced the
prototype of `moduleCache` instead of creating a property. The same broadcast
under the name `lorenz` is listed, with the fields of the message. -/
theorem C8_proto_name_stores_no_descriptor (numToString : JSNum → String)
    (clients : List Client) :
    (∃ c1, udpOnMessage numToString emptyCaches clients moduleMsgProto =
        .ok (c1, broadcast clients moduleMsgProto) ∧
      apiModules c1 = [] ∧
      c1.moduleCache.proto =
        some { name := .str "__proto__", category := .str "daemon", synthDef := .str "DaemonSynth",
               numParams := .num (.fin 3), numInstances := .num (.fin 0),
               description := .str "chaos source" }) ∧
    (∃ c1, udpOnMessage numToString emptyCaches clients moduleMsgLorenz =
        .ok (c1, broadcast clients moduleMsgLorenz) ∧
      apiModules c1 =
        [{ name := .str "lorenz", category := .str "daemon", synthDef := .str "DaemonSynth",
           numParams := .num (.fin 3), numInstances := .num (.fin 0),
           description := .str "chaos source" }]) := by
  constructor
  · refine ⟨_, udpOnMessage_module_store numToString emptyCaches clients moduleMsgProto
      "__proto__" rfl (by decide) rfl, ?_, ?_⟩
    · decide
    · decide
  · refine ⟨_, udpOnMessage_module_store numToString emptyCaches clients moduleMsgLorenz
      "lorenz" rfl (by decide) rfl, ?_⟩
    decide

/-- C9, as stated, fails: a module-registry broadcast with the empty name, handled
from the empty cache, leaves the cache empty, so that handling it twice in a
row leaves no descriptor for that name. -/
theorem C9_counterexample_empty_name :
    udpOnMessage noNumToString emptyCaches [] moduleMsgEmptyName = .ok (emptyCaches, []) ∧
    apiModules emptyCaches = [] := by
  decide

/-- C9, amended: for every cache state and every module-registry broadcast that
the handler handles, handling the same broadcast once more leaves both caches
as the first handling left them; the handler does handle it whenever the name
has a string conversion, as every number, string and boolean has. A broadcast
whose name is empty or absent leaves the caches unchanged. A broadcast whose name is a non-empty string
other than `__proto__` leaves exactly one descriptor stored under that name,
the one built from the broadcast, and the module list contains it. (A cache
state holds each property key once.) -/
theorem C9_module_broadcast_idempotent (numToString : JSNum → String) (c : Caches)
    (clients : List Client) (m : OscMessage)
    (haddr : m.address = .str "/brahma/registry/module")
    (hkeys : (c.moduleCache.own.map Prod.fst).Nodup) :
    (∀ c1 out, udpOnMessage numToString c clients m = .ok (c1, out) →
      udpOnMessage numToString c1 clients m = .ok (c1, out)) ∧
    ((∃ key, jsString numToString (argValue m.args 0) = .ok key) →
      ∃ c1, udpOnMessage numToString c clients m = .ok (c1, broadcast clients m)) ∧
    (truthy (argValue m.args 0) = false →
      udpOnMessage numToString c clients m = .ok (c, broadcast clients m)) ∧
    (∀ name, argValue m.args 0 = .str name → name ≠ "" → name ≠ "__proto__" →
      ∃ c1, udpOnMessage numToString c clients m = .ok (c1, broadcast clients m) ∧
        c1.moduleCache.own.filter (fun p => decide (p.1 = name)) =
          [(name, moduleDescriptor (.str name) m.args)] ∧
        moduleDescriptor (.str name) m.args ∈ apiModules c1) := by
  refine ⟨?_, ?_, ?_, ?_⟩
  · intro c1 out h
    obtain ⟨rfl, hcase⟩ := udpOnMessage_module_inv haddr h
    rcases hcase with ⟨ht, rfl⟩ | ⟨ht, key, hk, rfl⟩
    · exact udpOnMessage_module_skip numToString c1 clients m haddr ht
    · rw [udpOnMessage_module_store numToString _ clients m key haddr ht hk]
      simp only [moduleCache_set_idem]
  · rintro ⟨key, hk⟩
    cases ht : truthy (argValue m.args 0) with
    | false => exact ⟨_, udpOnMessage_module_skip numToString c clients m haddr ht⟩
    | true => exact ⟨_, udpOnMessage_module_store numToString c clients m key haddr ht hk⟩
  · intro ht
    exact udpOnMessage_module_skip numToString c clients m haddr ht
  · intro name hname hne hproto
    have ht : truthy (argValue m.args 0) = true := by simp [hname, truthy, hne]
    have hk : jsString numToString (argValue m.args 0) = .ok name := by simp [hname, jsString]
    refine ⟨_, udpOnMessage_module_store numToString c clients m name haddr ht hk, ?_⟩
    have hlook : (ownSet name (moduleDescriptor (.str name) m.args) c.moduleCache.own).lookup name =
        some (moduleDescriptor (.str name) m.args) := lookup_ownSet_self _ _ _
    simp only [ModuleCache.set, hproto, if_false, hname, apiModules]
    constructor
    · exact filter_key_of_lookup _ _ _ (keys_nodup_ownSet _ _ _ hkeys) hlook
    · exact List.mem_map.mpr ⟨_, mem_of_lookup _ _ _ hlook, rfl⟩

/-- C9, amended, at the broadcast of the module `lorenz` handled from the empty
cache: the second handling changes nothing, and one descriptor is stored under
`lorenz`. -/
theorem C9_witness_lorenz_twice :
    (∀ c1 out, udpOnMessage noNumToString emptyCaches [] moduleMsgLorenz = .ok (c1, out) →
      udpOnMessage noNumToString c1 [] moduleMsgLorenz = .ok (c1, out)) ∧
    (∃ c1, udpOnMessage noNumToString emptyCaches [] moduleMsgLorenz =
        .ok (c1, broadcast [] moduleMsgLorenz) ∧
      c1.moduleCache.own.filter (fun p => decide (p.1 = "lorenz")) =
        [("lorenz", moduleDescriptor (.str "lorenz") moduleMsgLorenz.args)] ∧
      moduleDescriptor (.str "lorenz") moduleMsgLorenz.args ∈ apiModules c1) :=
  ⟨(C9_module_broadcast_idempotent noNumToString emptyCaches [] moduleMsgLorenz rfl
      (by decide)).1,
   (C9_module_broadcast_idempotent noNumToString emptyCaches [] moduleMsgLorenz rfl
      (by decide)).2.2.2 "lorenz" (by decide) (by decide) (by decide)⟩

/-- C10, failing input: the two module-registry broadcasts `lorenz` and `__proto__`
handled in this order from the empty cache. Two distinct non-empty names
appeared as first argument, and the module list holds one descriptor only,
that of `lorenz`: none for `__proto__`. -/
theorem C10_run_lists_no_descriptor_for_proto (numToString : JSNum → String)
    (clients : List Client) :
    ∃ c1 out, udpRun numToString emptyCaches
        [{ clients := clients, oscMsg := moduleMsgLorenz },
         { clients := clients, oscMsg := moduleMsgProto }] = .ok (c1, out) ∧
      apiModules c1 =
        [{ name := .str "lorenz", category := .str "daemon", synthDef := .str "DaemonSynth",
           numParams := .num (.fin 3), numInstances := .num (.fin 0),
           description := .str "chaos source" }] := by
  have h1 := udpOnMessage_module_store numToString emptyCaches clients moduleMsgLorenz
    "lorenz" rfl (by decide) rfl
  have h2 := fun c => udpOnMessage_module_store numToString c clients moduleMsgProto
    "__proto__" rfl (by decide) rfl
  refine ⟨{ emptyCaches with
              moduleCache :=
                (emptyCaches.moduleCache.set "lorenz"
                  (moduleDescriptor (argValue moduleMsgLorenz.args 0) moduleMsgLorenz.args)).set
                  "__proto__"
                  (moduleDescriptor (argValue moduleMsgProto.args 0) moduleMsgProto.args) },
    broadcast clients moduleMsgLorenz ++ (broadcast clients moduleMsgProto ++ []), ?_, ?_⟩
  · simp only [udpRun, h1, h2]
  · decide

/-! ## Lemmas on the parameter registry -/

theorem strictEq_eq_of_true {x y : JSVal} (h : strictEq x y = true) : x = y := by
  cases x <;> cases y <;> simp [strictEq] at h ⊢
  · exact h
  · exact h.2
  · exact h

theorem strictEq_comm (x y : JSVal) : strictEq x y = strictEq y x := by
  cases hxy : strictEq x y with
  | true =>
    have := strictEq_eq_of_true hxy
    subst this
    exact hxy.symm
  | false =>
    cases hyx : strictEq y x with
    | false => rfl
    | true =>
      have := strictEq_eq_of_true hyx
      subst this
      rw [hxy] at hyx
      exact hyx

theorem strictEq_self {p : JSVal} (hp : isPrimitive p = true) (ht : truthy p = true) :
    strictEq p p = true := by
  cases p with
  | undefined => simp [truthy] at ht
  | null => simp [truthy] at ht
  | bool b => simp [strictEq]
  | num n =>
    cases n with
    | nan => simp [truthy] at ht
    | fin q => simp [strictEq]
    | posInf => simp [strictEq]
    | negInf => simp [strictEq]
  | str t => simp [strictEq]
  | arr xs => simp [isPrimitive] at hp
  | obj ps => simp [isPrimitive] at hp

theorem strictEq_str_iff (x : JSVal) (t : String) : strictEq x (.str t) = true ↔ x = .str t := by
  constructor
  · exact strictEq_eq_of_true
  · rintro rfl
    simp [strictEq]

theorem upsertParam_nil (p : JSVal) (args : List OscArg) :
    upsertParam p args [] = [paramDescriptor p args] := rfl

theorem upsertParam_cons (p : JSVal) (args : List OscArg) (e : ParamDescriptor)
    (rest : List ParamDescriptor) :
    upsertParam p args (e :: rest) =
      if strictEq e.name p then paramDescriptor p args :: rest
      else e :: upsertParam p args rest := by
  unfold upsertParam
  simp only [findIndex]
  by_cases h : strictEq e.name p = true
  · simp [h]
  · simp only [h, Bool.false_eq_true, if_false]
    cases findIndex p rest with
    | none => simp
    | some i => simp

theorem upsertParam_idem (p : JSVal) (args : List OscArg) (hp : strictEq p p = true) :
    ∀ ps : List ParamDescriptor,
      upsertParam p args (upsertParam p args ps) = upsertParam p args ps := by
  have hd : strictEq (paramDescriptor p args).name p = true := hp
  intro ps
  induction ps with
  | nil => rw [upsertParam_nil, upsertParam_cons, if_pos hd]
  | cons e rest ih =>
    rw [upsertParam_cons]
    by_cases h : strictEq e.name p = true
    · rw [if_pos h, upsertParam_cons, if_pos hd]
    · rw [if_neg h, upsertParam_cons, if_neg h, ih]

theorem names_upsertParam (p : JSVal) (args : List OscArg) :
    ∀ ps : List ParamDescriptor,
      (upsertParam p args ps).map ParamDescriptor.name =
        if (ps.map ParamDescriptor.name).any (fun x => strictEq x p) then
          ps.map ParamDescriptor.name
        else ps.map ParamDescriptor.name ++ [p] := by
  intro ps
  induction ps with
  | nil => simp [upsertParam_nil, paramDescriptor]
  | cons e rest ih =>
    rw [upsertParam_cons]
    by_cases h : strictEq e.name p = true
    · have he : e.name = p := strictEq_eq_of_true h
      have hany : ((e :: rest).map ParamDescriptor.name).any (fun x => strictEq x p) = true := by
        simp [h]
      rw [if_pos h, if_pos hany]
      simp [paramDescriptor, he]
    · simp only [h, Bool.false_eq_true, if_false, List.map_cons, ih, List.any_cons, Bool.false_or]
      split <;> simp

theorem pairwise_upsertParam (p : JSVal) (args : List OscArg) (ps : List ParamDescriptor)
    (h : (ps.map ParamDescriptor.name).Pairwise (fun x y => strictEq x y = false)) :
    ((upsertParam p args ps).map ParamDescriptor.name).Pairwise
      (fun x y => strictEq x y = false) := by
  rw [names_upsertParam]
  split
  · exact h
  · rename_i hn
    rw [List.pairwise_append]
    refine ⟨h, List.pairwise_singleton _ _, ?_⟩
    intro x hx y hy
    rw [List.mem_singleton.mp hy]
    cases hxp : strictEq x p with
    | false => rfl
    | true => exact absurd (List.any_eq_true.mpr ⟨x, hx, hxp⟩) hn

theorem truthy_names_upsertParam (p : JSVal) (args : List OscArg) (ps : List ParamDescriptor)
    (hp : truthy p = true) (h : ∀ x ∈ ps.map ParamDescriptor.name, truthy x = true) :
    ∀ x ∈ (upsertParam p args ps).map ParamDescriptor.name, truthy x = true := by
  rw [names_upsertParam]
  split
  · exact h
  · intro x hx
    rcases List.mem_append.mp hx with hx | hx
    · exact h x hx
    · rw [List.mem_singleton.mp hx]; exact hp

theorem findIndex_lt (p : JSVal) :
    ∀ (ps : List ParamDescriptor) (i : Nat), findIndex p ps = some i → i < ps.length := by
  intro ps
  induction ps with
  | nil => intro i h; simp [findIndex] at h
  | cons e rest ih =>
    intro i h
    simp only [findIndex] at h
    by_cases he : strictEq e.name p = true
    · simp only [he, if_true] at h
      cases Option.some.inj h
      simp
    · simp only [he, Bool.false_eq_true, if_false] at h
      cases hr : findIndex p rest with
      | none => simp [hr] at h
      | some j =>
        simp only [hr, Option.map_some'] at h
        cases Option.some.inj h
        have := ih j hr
        simp only [List.length_cons]
        omega

theorem findIndex_upsertParam (p : JSVal) (args : List OscArg) (hp : strictEq p p = true) :
    ∀ ps : List ParamDescriptor, ∃ i, findIndex p (upsertParam p args ps) = some i ∧
      (upsertParam p args ps).get? i = some (paramDescriptor p args) := by
  have hd : strictEq (paramDescriptor p args).name p = true := hp
  intro ps
  induction ps with
  | nil => exact ⟨0, by simp [upsertParam_nil, findIndex, hd], by simp [upsertParam_nil]⟩
  | cons e rest ih =>
    rw [upsertParam_cons]
    by_cases h : strictEq e.name p = true
    · exact ⟨0, by simp [h, findIndex, hd], by simp [h]⟩
    · obtain ⟨i, hi, hg⟩ := ih
      exact ⟨i + 1, by simp [h, findIndex, hi], by simpa [h] using hg⟩

theorem upsertParam_of_findIndex (p : JSVal) (args : List OscArg) (ps : List ParamDescriptor)
    (i : Nat) (h : findIndex p ps = some i) :
    upsertParam p args ps = ps.set i (paramDescriptor p args) := by
  simp [upsertParam, h]

theorem count_le_one_of_pairwise (x : JSVal) (hx : strictEq x x = true) :
    ∀ xs : List JSVal, xs.Pairwise (fun a b => strictEq a b = false) → xs.count x ≤ 1 := by
  intro xs
  induction xs with
  | nil => intro _; simp
  | cons y ys ih =>
    intro h
    rw [List.pairwise_cons] at h
    by_cases hy : y = x
    · subst hy
      have hnot : y ∉ ys := fun hm => by
        have := h.1 y hm
        rw [hx] at this
        exact Bool.noConfusion this
      simp [List.count_cons, List.count_eq_zero_of_not_mem hnot]
    · have := ih h.2
      simp only [List.count_cons, beq_iff_eq, hy, if_false]
      omega

theorem strictEq_address_false {a : JSVal} {t : String} (h : a ≠ .str t) :
    strictEq a (.str t) = false := by
  cases hs : strictEq a (.str t) with
  | false => rfl
  | true => exact absurd (strictEq_eq_of_true hs) h

theorem cacheModule_other_address (numToString : JSNum → String) (c : Caches)
    (m : OscMessage) (h : m.address ≠ .str "/brahma/registry/module") :
    cacheModule numToString c m = .ok c := by
  simp [cacheModule, strictEq_address_false h]

theorem cacheParam_other_address (numToString : JSNum → String) (c : Caches)
    (m : OscMessage) (h : m.address ≠ .str "/brahma/registry/param") :
    cacheParam numToString c m = .ok c := by
  simp [cacheParam, strictEq_address_false h]

theorem cacheParam_param_address (numToString : JSNum → String) (c : Caches)
    (m : OscMessage) (haddr : m.address = .str "/brahma/registry/param") :
    cacheParam numToString c m =
      if (truthy (argValue m.args 0) && truthy (argValue m.args 1)) = true then
        match jsString numToString (argValue m.args 0) with
        | .error e => .error e
        | .ok key =>
          match paramCacheGet c.paramCache key with
          | .inherited => .error .typeError
          | .list ps =>
            .ok { c with paramCache :=
                    ownSet key (upsertParam (argValue m.args 1) m.args ps) c.paramCache }
          | .absent =>
            .ok { c with paramCache :=
                    ownSet key (upsertParam (argValue m.args 1) m.args []) c.paramCache }
      else .ok c := by
  have heq : strictEq (.str "/brahma/registry/param") (.str "/brahma/registry/param") = true := by
    decide
  simp [cacheParam, haddr, heq]

theorem udpOnMessage_param_address (numToString : JSNum → String) (c : Caches)
    (clients : List Client) (m : OscMessage)
    (haddr : m.address = .str "/brahma/registry/param") :
    udpOnMessage numToString c clients m =
      match cacheParam numToString c m with
      | .error e => .error e
      | .ok c2 => .ok (c2, broadcast clients m) := by
  have hne : m.address ≠ .str "/brahma/registry/module" := by
    rw [haddr]; decide
  simp [udpOnMessage, cacheModule_other_address numToString c m hne]

theorem udpOnMessage_param_skip (numToString : JSNum → String) (c : Caches)
    (clients : List Client) (m : OscMessage)
    (haddr : m.address = .str "/brahma/registry/param")
    (ht : (truthy (argValue m.args 0) && truthy (argValue m.args 1)) = false) :
    udpOnMessage numToString c clients m = .ok (c, broadcast clients m) := by
  rw [udpOnMessage_param_address numToString c clients m haddr,
    cacheParam_param_address numToString c m haddr]
  simp [ht]

theorem udpOnMessage_param_store (numToString : JSNum → String) (c : Caches)
    (clients : List Client) (m : OscMessage) (key : String)
    (haddr : m.address = .str "/brahma/registry/param")
    (hm : truthy (argValue m.args 0) = true) (hp : truthy (argValue m.args 1) = true)
    (hk : jsString numToString (argValue m.args 0) = .ok key)
    (hslot : (c.paramCache.lookup key).isSome = true ∨ key ∉ objectPrototypeKeys) :
    udpOnMessage numToString c clients m =
      .ok ({ c with paramCache :=
               ownSet key (upsertParam (argValue m.args 1) m.args
                 ((c.paramCache.lookup key).getD [])) c.paramCache },
           broadcast clients m) := by
  rw [udpOnMessage_param_address numToString c clients m haddr,
    cacheParam_param_address numToString c m haddr]
  simp only [hm, hp, Bool.and_self, if_true, hk, paramCacheGet]
  cases hl : c.paramCache.lookup key with
  | some ps => simp
  | none =>
    have hnot : key ∉ objectPrototypeKeys := by
      rcases hslot with h | h
      · simp [hl] at h
      · exact h
    simp [hnot]

theorem udpOnMessage_param_raise (numToString : JSNum → String) (c : Caches)
    (clients : List Client) (m : OscMessage) (key : String)
    (haddr : m.address = .str "/brahma/registry/param")
    (hm : truthy (argValue m.args 0) = true) (hp : truthy (argValue m.args 1) = true)
    (hk : jsString numToString (argValue m.args 0) = .ok key)
    (hnone : c.paramCache.lookup key = none) (hin : key ∈ objectPrototypeKeys) :
    udpOnMessage numToString c clients m = .error .typeError := by
  rw [udpOnMessage_param_address numToString c clients m haddr,
    cacheParam_param_address numToString c m haddr]
  simp [hm, hp, hk, paramCacheGet, hnone, hin]

theorem udpOnMessage_param_inv {numToString : JSNum → String} {c c1 : Caches}
    {clients : List Client} {m : OscMessage} {out : List (Nat × OscMessage)}
    (haddr : m.address = .str "/brahma/registry/param")
    (h : udpOnMessage numToString c clients m = .ok (c1, out)) :
    out = broadcast clients m ∧
    (((truthy (argValue m.args 0) && truthy (argValue m.args 1)) = false ∧ c1 = c) ∨
     (truthy (argValue m.args 0) = true ∧ truthy (argValue m.args 1) = true ∧
      ∃ key, jsString numToString (argValue m.args 0) = .ok key ∧
        ((c.paramCache.lookup key).isSome = true ∨ key ∉ objectPrototypeKeys) ∧
        c1 = { c with paramCache :=
                 ownSet key (upsertParam (argValue m.args 1) m.args
                   ((c.paramCache.lookup key).getD [])) c.paramCache })) := by
  cases ht : (truthy (argValue m.args 0) && truthy (argValue m.args 1)) with
  | false =>
    rw [udpOnMessage_param_skip numToString c clients m haddr ht] at h
    cases Except.ok.inj h
    exact ⟨rfl, Or.inl ⟨rfl, rfl⟩⟩
  | true =>
    have hm : truthy (argValue m.args 0) = true := by
      simp only [Bool.and_eq_true] at ht; exact ht.1
    have hp : truthy (argValue m.args 1) = true := by
      simp only [Bool.and_eq_true] at ht; exact ht.2
    cases hk : jsString numToString (argValue m.args 0) with
    | error e =>
      rw [udpOnMessage_param_address numToString c clients m haddr,
        cacheParam_param_address numToString c m haddr] at h
      simp [hm, hp, hk] at h
    | ok key =>
      by_cases hslot : (c.paramCache.lookup key).isSome = true ∨ key ∉ objectPrototypeKeys
      · rw [udpOnMessage_param_store numToString c clients m key haddr hm hp hk hslot] at h
        cases Except.ok.inj h
        exact ⟨rfl, Or.inr ⟨hm, hp, key, rfl, hslot, rfl⟩⟩
      · have hnone : c.paramCache.lookup key = none := by
          cases hl : c.paramCache.lookup key with
          | none => rfl
          | some ps => exact absurd (Or.inl (by simp [hl])) hslot
        have hin : key ∈ objectPrototypeKeys := by
          by_contra hn
          exact hslot (Or.inr hn)
        rw [udpOnMessage_param_raise numToString c clients m key haddr hm hp hk hnone hin] at h
        cases h

theorem udpOnMessage_other_address (numToString : JSNum → String) (c : Caches)
    (clients : List Client) (m : OscMessage)
    (h1 : m.address ≠ .str "/brahma/registry/module")
    (h2 : m.address ≠ .str "/brahma/registry/param") :
    udpOnMessage numToString c clients m = .ok (c, broadcast clients m) := by
  simp [udpOnMessage, cacheModule_other_address numToString c m h1,
    cacheParam_other_address numToString c m h2]

theorem mem_ownSet {α : Type} (k : String) (v : α) (ps : List (String × α))
    (q : String × α) (h : q ∈ ownSet k v ps) : q = (k, v) ∨ q ∈ ps := by
  unfold ownSet at h
  split at h
  · simp only [ownReplace, List.mem_map] at h
    obtain ⟨r, hr, rfl⟩ := h
    by_cases hk : r.1 = k
    · left
      simp [hk]
    · right
      simpa [hk] using hr
  · split at h
    · rcases List.mem_cons.mp ((ownInsertIndex_perm _ k v ps).mem_iff.mp h) with h | h
      · exact Or.inl h
      · exact Or.inr h
    · rcases List.mem_append.mp h with h | h
      · exact Or.inr h
      · exact Or.inl (List.mem_singleton.mp h)

theorem cachesInv_empty (numToString : JSNum → String) : CachesInv numToString emptyCaches := by
  refine ⟨by simp [emptyCaches], ?_, by simp [emptyCaches], ?_⟩
  · intro k d h
    simp [emptyCaches] at h
  · intro k l h
    simp [emptyCaches] at h

theorem cachesInv_module_set (numToString : JSNum → String) (c : Caches) (key : String)
    (name : JSVal) (args : List OscArg) (hinv : CachesInv numToString c)
    (hk : jsString numToString name = .ok key) (ht : truthy name = true) :
    CachesInv numToString
      { c with moduleCache := c.moduleCache.set key (moduleDescriptor name args) } := by
  obtain ⟨h1, h2, h3, h4⟩ := hinv
  unfold ModuleCache.set
  by_cases hp : key = "__proto__"
  · simp only [hp, if_true]
    exact ⟨h1, h2, h3, h4⟩
  · simp only [hp, if_false]
    refine ⟨keys_nodup_ownSet _ _ _ h1, ?_, h3, h4⟩
    intro k d hmem
    rcases mem_ownSet _ _ _ _ hmem with heq | hold
    · cases heq
      exact ⟨hk, ht⟩
    · exact h2 k d hold

theorem cachesInv_param_set (numToString : JSNum → String) (c : Caches) (key : String)
    (p : JSVal) (args : List OscArg) (hinv : CachesInv numToString c)
    (hp : truthy p = true) :
    CachesInv numToString
      { c with paramCache :=
          ownSet key (upsertParam p args ((c.paramCache.lookup key).getD [])) c.paramCache } := by
  obtain ⟨h1, h2, h3, h4⟩ := hinv
  refine ⟨h1, h2, keys_nodup_ownSet _ _ _ h3, ?_⟩
  intro k l hmem
  rcases mem_ownSet _ _ _ _ hmem with heq | hold
  · cases heq
    have hold : (((c.paramCache.lookup key).getD []).map ParamDescriptor.name).Pairwise
          (fun x y => strictEq x y = false) ∧
        ∀ x ∈ ((c.paramCache.lookup key).getD []).map ParamDescriptor.name, truthy x = true := by
      cases hl : c.paramCache.lookup key with
      | none => simp
      | some ps => exact h4 key ps (mem_of_lookup _ _ _ hl)
    exact ⟨pairwise_upsertParam _ _ _ hold.1, truthy_names_upsertParam _ _ _ hp hold.2⟩
  · exact h4 k l hold

theorem cachesInv_udpOnMessage {numToString : JSNum → String} {c c1 : Caches}
    {clients : List Client} {m : OscMessage} {out : List (Nat × OscMessage)}
    (hinv : CachesInv numToString c)
    (h : udpOnMessage numToString c clients m = .ok (c1, out)) : CachesInv numToString c1 := by
  by_cases h1 : m.address = .str "/brahma/registry/module"
  · obtain ⟨-, hcase⟩ := udpOnMessage_module_inv h1 h
    rcases hcase with ⟨-, rfl⟩ | ⟨ht, key, hk, rfl⟩
    · exact hinv
    · exact cachesInv_module_set numToString c key _ _ hinv hk ht
  · by_cases h2 : m.address = .str "/brahma/registry/param"
    · obtain ⟨-, hcase⟩ := udpOnMessage_param_inv h2 h
      rcases hcase with ⟨-, rfl⟩ | ⟨-, hp, key, -, -, rfl⟩
      · exact hinv
      · exact cachesInv_param_set numToString c key _ _ hinv hp
    · rw [udpOnMessage_other_address numToString c clients m h1 h2] at h
      cases Except.ok.inj h
      exact hinv

theorem udpRun_cons_inv {numToString : JSNum → String} {c c2 : Caches} {ev : UdpEvent}
    {rest : List UdpEvent} {out : List (Nat × OscMessage)}
    (h : udpRun numToString c (ev :: rest) = .ok (c2, out)) :
    ∃ c1 out1 out2, udpOnMessage numToString c ev.clients ev.oscMsg = .ok (c1, out1) ∧
      udpRun numToString c1 rest = .ok (c2, out2) ∧ out = out1 ++ out2 := by
  simp only [udpRun] at h
  cases h1 : udpOnMessage numToString c ev.clients ev.oscMsg with
  | error e => simp [h1] at h
  | ok r1 =>
    obtain ⟨c1, out1⟩ := r1
    simp only [h1] at h
    cases h2 : udpRun numToString c1 rest with
    | error e => simp [h2] at h
    | ok r2 =>
      obtain ⟨c3, out2⟩ := r2
      simp only [h2] at h
      cases Except.ok.inj h
      exact ⟨c1, out1, out2, rfl, h2, rfl⟩

theorem cachesInv_udpRun {numToString : JSNum → String} :
    ∀ (evs : List UdpEvent) (c c1 : Caches) (out : List (Nat × OscMessage)),
      CachesInv numToString c → udpRun numToString c evs = .ok (c1, out) →
      CachesInv numToString c1 := by
  intro evs
  induction evs with
  | nil =>
    intro c c1 out hinv h
    simp only [udpRun] at h
    cases Except.ok.inj h
    exact hinv
  | cons ev rest ih =>
    intro c c1 out hinv h
    obtain ⟨c2, out1, out2, h1, h2, -⟩ := udpRun_cons_inv h
    exact ih c2 c1 out2 (cachesInv_udpOnMessage hinv h1) h2

theorem orElse_num_zero (q : ℚ) : orElse (.num (.fin q)) (.num (.fin 0)) = .num (.fin q) := by
  by_cases h : q = 0
  · simp [orElse, truthy, h]
  · simp [orElse, truthy, h]

theorem orElse_str_empty (t : String) : orElse (.str t) (.str "") = .str t := by
  by_cases h : t = ""
  · simp [orElse, truthy, h]
  · simp [orElse, truthy, h]

theorem truthy_str {t : String} (h : t ≠ "") : truthy (.str t) = true := by
  simp [truthy, h]

theorem upsertParam_congr (p : JSVal) (a1 a2 : List OscArg) (ps : List ParamDescriptor)
    (h : paramDescriptor p a1 = paramDescriptor p a2) :
    upsertParam p a1 ps = upsertParam p a2 ps := by
  simp [upsertParam, h]

/-! ## The parameter registry -/

/-- C11, as stated, fails: after the broadcasts of `lorenz`/`rate` with default 1
and then with default 2 and max 0, handled from the empty cache, the one entry
named `rate` holds max 1, not the max 0 of the second broadcast. -/
theorem C11_counterexample_second_max_zero :
    (udpRun noNumToString emptyCaches
        [{ clients := [], oscMsg := paramMsgRate1 },
         { clients := [], oscMsg := paramMsgRateMaxZero }]).map (fun r => r.1.paramCache) =
      .ok [("lorenz", [{ name := .str "rate", default := .num (.fin 2),
                         min := .num (.fin float32_0_01), max := .num (.fin 1),
                         units := .str "Hz", desc := .str "update rate" }])] ∧
    argValue paramMsgRateMaxZero.args 4 = .num (.fin 0) := by
  decide

/-- C11, amended: in every cache state that the bridge can reach, for non-empty
names `m` and `p`, `m` not the name of a property inherited from
`Object.prototype`: two param-registry broadcasts for `(m, p)` are both
handled; afterwards the list of `m` holds exactly one descriptor named `p`, at
the position it had after the first broadcast, and it is the descriptor built
from the second broadcast (its values, a falsy one replaced by the default of
its field). -/
theorem C11_param_updated_in_place (numToString : JSNum → String) (evs : List UdpEvent)
    (c : Caches) (out0 : List (Nat × OscMessage)) (clients : List Client)
    (m1 m2 : OscMessage) (mname pname : String)
    (hreach : udpRun numToString emptyCaches evs = .ok (c, out0))
    (ha1 : m1.address = .str "/brahma/registry/param")
    (ha2 : m2.address = .str "/brahma/registry/param")
    (hm1 : argValue m1.args 0 = .str mname) (hp1 : argValue m1.args 1 = .str pname)
    (hm2 : argValue m2.args 0 = .str mname) (hp2 : argValue m2.args 1 = .str pname)
    (hmne : mname ≠ "") (hpne : pname ≠ "") (hkey : mname ∉ objectPrototypeKeys) :
    ∃ c1 c2 l1 l2 i,
      udpOnMessage numToString c clients m1 = .ok (c1, broadcast clients m1) ∧
      udpOnMessage numToString c1 clients m2 = .ok (c2, broadcast clients m2) ∧
      c1.paramCache.lookup mname = some l1 ∧ c2.paramCache.lookup mname = some l2 ∧
      findIndex (.str pname) l1 = some i ∧
      l2 = l1.set i (paramDescriptor (.str pname) m2.args) ∧
      l2.get? i = some (paramDescriptor (.str pname) m2.args) ∧
      (l2.map ParamDescriptor.name).count (.str pname) = 1 := by
  have hinv : CachesInv numToString c :=
    cachesInv_udpRun evs emptyCaches c out0 (cachesInv_empty numToString) hreach
  have htm : truthy (.str mname) = true := truthy_str hmne
  have htp : truthy (.str pname) = true := truthy_str hpne
  have hself : strictEq (.str pname) (.str pname) = true := by simp [strictEq]
  have hk : jsString numToString (.str mname) = .ok mname := by simp [jsString]
  have h1 := udpOnMessage_param_store numToString c clients m1 mname ha1
    (by rw [hm1]; exact htm) (by rw [hp1]; exact htp) (by rw [hm1]; exact hk) (Or.inr hkey)
  rw [hp1] at h1
  obtain ⟨i, hi, hget⟩ := findIndex_upsertParam (.str pname) m1.args hself
    ((c.paramCache.lookup mname).getD [])
  have hlook1 := lookup_ownSet_self mname
    (upsertParam (.str pname) m1.args ((c.paramCache.lookup mname).getD [])) c.paramCache
  have h2 : udpOnMessage numToString
      { c with paramCache := (ownSet mname
          (upsertParam (.str pname) m1.args ((c.paramCache.lookup mname).getD [])) c.paramCache) }
      clients m2 =
      .ok ({ c with paramCache := (ownSet mname
               (upsertParam (.str pname) m2.args
                 (upsertParam (.str pname) m1.args ((c.paramCache.lookup mname).getD [])))
               (ownSet mname
                 (upsertParam (.str pname) m1.args ((c.paramCache.lookup mname).getD []))
                 c.paramCache)) },
           broadcast clients m2) := by
    have h := udpOnMessage_param_store numToString
      { c with paramCache := (ownSet mname
          (upsertParam (.str pname) m1.args ((c.paramCache.lookup mname).getD [])) c.paramCache) }
      clients m2 mname ha2
      (by rw [hm2]; exact htm) (by rw [hp2]; exact htp) (by rw [hm2]; exact hk)
      (Or.inl (by simp only [hlook1]; rfl))
    rw [hp2] at h
    simp only [hlook1, Option.getD_some] at h
    exact h
  have hinv2 := cachesInv_udpOnMessage (cachesInv_udpOnMessage hinv h1) h2
  have hlook2 := lookup_ownSet_self mname
    (upsertParam (.str pname) m2.args
      (upsertParam (.str pname) m1.args ((c.paramCache.lookup mname).getD [])))
    (ownSet mname (upsertParam (.str pname) m1.args ((c.paramCache.lookup mname).getD []))
      c.paramCache)
  have hset := upsertParam_of_findIndex (.str pname) m2.args _ i hi
  have hlt := findIndex_lt _ _ i hi
  refine ⟨_, _, _, _, i, h1, h2, hlook1, hlook2, hi, hset, ?_, ?_⟩
  · rw [hset]
    simp [hlt]
  · have hpw := (hinv2.2.2.2 mname _ (mem_of_lookup _ _ _ hlook2)).1
    have hle := count_le_one_of_pairwise (.str pname) hself _ hpw
    have hmem : JSVal.str pname ∈
        (upsertParam (.str pname) m2.args
          (upsertParam (.str pname) m1.args ((c.paramCache.lookup mname).getD []))).map
          ParamDescriptor.name := by
      rw [hset]
      refine List.mem_map.mpr ⟨paramDescriptor (.str pname) m2.args, ?_, rfl⟩
      exact List.get?_mem (show (List.set _ i _).get? i = some _ by simp [hlt])
    have hpos := List.count_pos_iff.mpr hmem
    omega

/-- C11, amended, at `lorenz`/`rate` with default 1 and then default 2, from the
empty cache: one entry named `rate`, at position 0, with default 2. -/
theorem C11_witness_lorenz_rate :
    (∃ c1 c2 l1 l2 i,
      udpOnMessage noNumToString emptyCaches [] paramMsgRate1 =
        .ok (c1, broadcast [] paramMsgRate1) ∧
      udpOnMessage noNumToString c1 [] paramMsgRate2 = .ok (c2, broadcast [] paramMsgRate2) ∧
      c1.paramCache.lookup "lorenz" = some l1 ∧ c2.paramCache.lookup "lorenz" = some l2 ∧
      findIndex (.str "rate") l1 = some i ∧
      l2 = l1.set i (paramDescriptor (.str "rate") paramMsgRate2.args) ∧
      l2.get? i = some (paramDescriptor (.str "rate") paramMsgRate2.args) ∧
      (l2.map ParamDescriptor.name).count (.str "rate") = 1) ∧
    (udpRun noNumToString emptyCaches
        [{ clients := [], oscMsg := paramMsgRate1 },
         { clients := [], oscMsg := paramMsgRate2 }]).map (fun r => r.1.paramCache) =
      .ok [("lorenz", [{ name := .str "rate", default := .num (.fin 2),
                         min := .num (.fin float32_0_01), max := .num (.fin 10),
                         units := .str "Hz", desc := .str "update rate" }])] :=
  ⟨C11_param_updated_in_place noNumToString [] emptyCaches [] [] paramMsgRate1 paramMsgRate2
      "lorenz" "rate" rfl rfl rfl (by decide) (by decide) (by decide) (by decide)
      (by decide) (by decide) (by decide),
   by decide⟩

/-- C12, as stated, fails: after the module-registry broadcast whose name is the
integer 5, handled from the empty cache, the module key `5` (a string) maps to
a descriptor whose name is the number 5, not the key. -/
theorem C12_counterexample_integer_name :
    (udpRun integerNumToString emptyCaches [{ clients := [], oscMsg := moduleMsgIntName }]).map
        (fun r => r.1.moduleCache.own.map (fun p => (p.1, p.2.name))) =
      .ok [("5", .num (.fin 5))] ∧
    JSVal.num (.fin 5) ≠ JSVal.str "5" := by
  decide

/-- C12, amended: in every cache state reached from the empty cache by handling a
sequence of inbound UDP messages, each cache holds every key once; every
module key is the string conversion of the name of its descriptor, and is that
name when the name is a string; in every parameter list no two names are equal
under `===`, so that two names of which one is a string or a number are
different. -/
theorem C12_reachable_caches_invariant (numToString : JSNum → String) (evs : List UdpEvent)
    (c : Caches) (out : List (Nat × OscMessage))
    (hreach : udpRun numToString emptyCaches evs = .ok (c, out)) :
    (c.moduleCache.own.map Prod.fst).Nodup ∧
    (∀ k d, (k, d) ∈ c.moduleCache.own →
      jsString numToString d.name = .ok k ∧ ∀ t, d.name = .str t → d.name = .str k) ∧
    (c.paramCache.map Prod.fst).Nodup ∧
    (∀ k l, (k, l) ∈ c.paramCache →
      (l.map ParamDescriptor.name).Pairwise (fun x y => strictEq x y = false) ∧
      (l.map ParamDescriptor.name).Pairwise
        (fun x y => isPrimitive x = true ∨ isPrimitive y = true → x ≠ y)) := by
  obtain ⟨h1, h2, h3, h4⟩ :=
    cachesInv_udpRun evs emptyCaches c out (cachesInv_empty numToString) hreach
  refine ⟨h1, ?_, h3, ?_⟩
  · intro k d hmem
    refine ⟨(h2 k d hmem).1, ?_⟩
    intro t ht
    have hk := (h2 k d hmem).1
    rw [ht] at hk ⊢
    simp only [jsString] at hk
    rw [Except.ok.inj hk]
  · intro k l hmem
    obtain ⟨hpw, htr⟩ := h4 k l hmem
    refine ⟨hpw, ?_⟩
    have hall : ∀ x ∈ l.map ParamDescriptor.name, ∀ y ∈ l.map ParamDescriptor.name,
        strictEq x y = false → (isPrimitive x = true ∨ isPrimitive y = true → x ≠ y) := by
      intro x hx y hy hne hprim heq
      subst heq
      have hself : strictEq x x = true := by
        rcases hprim with hp | hp
        · exact strictEq_self hp (htr x hx)
        · exact strictEq_self hp (htr x hx)
      rw [hself] at hne
      exact Bool.noConfusion hne
    exact hpw.imp_of_mem (fun hx hy h => hall _ hx _ hy h)

/-- C12, amended, at the run of the broadcasts `lorenz` (module) and
`lorenz`/`rate` (parameter): the invariant holds of the state reached. -/
theorem C12_witness_lorenz_run :
    ∃ c out, udpRun noNumToString emptyCaches
        [{ clients := [], oscMsg := moduleMsgLorenz },
         { clients := [], oscMsg := paramMsgRate1 }] = .ok (c, out) ∧
      (c.moduleCache.own.map Prod.fst).Nodup ∧
      (∀ k d, (k, d) ∈ c.moduleCache.own →
        jsString noNumToString d.name = .ok k ∧ ∀ t, d.name = .str t → d.name = .str k) ∧
      (c.paramCache.map Prod.fst).Nodup ∧
      (∀ k l, (k, l) ∈ c.paramCache →
        (l.map ParamDescriptor.name).Pairwise (fun x y => strictEq x y = false) ∧
        (l.map ParamDescriptor.name).Pairwise
          (fun x y => isPrimitive x = true ∨ isPrimitive y = true → x ≠ y)) := by
  have hok : (udpRun noNumToString emptyCaches
      [{ clients := [], oscMsg := moduleMsgLorenz },
       { clients := [], oscMsg := paramMsgRate1 }]).toBool = true := by
    decide
  cases h : udpRun noNumToString emptyCaches
      [{ clients := [], oscMsg := moduleMsgLorenz },
       { clients := [], oscMsg := paramMsgRate1 }] with
  | error e =>
    rw [h] at hok
    exact Bool.noConfusion hok
  | ok r =>
    obtain ⟨c, out⟩ := r
    exact ⟨c, out, rfl, C12_reachable_caches_invariant noNumToString _ c out h⟩

theorem paramDescriptor_storesArguments (p : JSVal) (args : List OscArg) :
    storesArguments (paramDescriptor p args) args := by
  refine ⟨?_, ?_, ?_, ?_, ?_, ?_, ?_, ?_, ?_, ?_⟩ <;> intro h <;>
    simp [paramDescriptor, orElse, h]

theorem orElse_num_of_ne_nan (n : JSNum) (dflt : JSVal)
    (hzero : n = .fin 0 → dflt = .num (.fin 0)) (hnan : n ≠ .nan) :
    orElse (.num n) dflt = .num n := by
  cases n with
  | nan => exact absurd rfl hnan
  | posInf => simp [orElse, truthy]
  | negInf => simp [orElse, truthy]
  | fin q =>
    by_cases hq : q = 0
    · subst hq
      simp [orElse, truthy, hzero rfl]
    · simp [orElse, truthy, hq]

/-- C13, as stated, fails: the broadcast `lorenz`/`rate` with the seven arguments
default 2, min 0.01, max 0, handled from the empty cache, stores a descriptor
whose max is 1, not the max 0 of the message. -/
theorem C13_counterexample_max_zero :
    (udpOnMessage noNumToString emptyCaches [] paramMsgRateMaxZero).map
        (fun r => r.1.paramCache) =
      .ok [("lorenz", [{ name := .str "rate", default := .num (.fin 2),
                         min := .num (.fin float32_0_01), max := .num (.fin 1),
                         units := .str "Hz", desc := .str "update rate" }])] ∧
    argValue paramMsgRateMaxZero.args 4 = .num (.fin 0) ∧
    paramMsgRateMaxZero.args.length = 7 := by
  decide

/-- C13, amended: a param-registry broadcast with non-empty string names `m` and
`p`, `m` not the name of a property inherited from `Object.prototype`, is
handled and stores for `p`, in the list of `m`, a descriptor named `p` that
holds the arguments of the message: each of default, min, max, units and desc
is the argument 2, 3, 4, 5, 6 when that argument is truthy, and the default of
the field (0, 0, 1, the empty string, the empty string) otherwise. So default
and min equal the arguments 2 and 3 whenever these are numbers other than NaN
(0 included) and are 0 for NaN; max equals the argument 4 when this is a number
other than 0 and NaN, and is 1 for 0 and for NaN; units and desc equal the
arguments 5 and 6 whenever these are strings (the empty one included). -/
theorem C13_stored_descriptor_fields (numToString : JSNum → String) (c : Caches)
    (clients : List Client) (m : OscMessage) (mname pname : String)
    (haddr : m.address = .str "/brahma/registry/param")
    (hm : argValue m.args 0 = .str mname) (hp : argValue m.args 1 = .str pname)
    (hmne : mname ≠ "") (hpne : pname ≠ "") (hkey : mname ∉ objectPrototypeKeys) :
    ∃ c1 l i d,
      udpOnMessage numToString c clients m = .ok (c1, broadcast clients m) ∧
      c1.paramCache.lookup mname = some l ∧
      findIndex (.str pname) l = some i ∧ l.get? i = some d ∧
      d.name = .str pname ∧ storesArguments d m.args ∧
      (∀ n, argValue m.args 2 = .num n → n ≠ .nan → d.default = argValue m.args 2) ∧
      (argValue m.args 2 = .num .nan → d.default = .num (.fin 0)) ∧
      (∀ n, argValue m.args 3 = .num n → n ≠ .nan → d.min = argValue m.args 3) ∧
      (argValue m.args 3 = .num .nan → d.min = .num (.fin 0)) ∧
      (∀ n, argValue m.args 4 = .num n → n ≠ .nan → n ≠ .fin 0 →
        d.max = argValue m.args 4) ∧
      (argValue m.args 4 = .num (.fin 0) ∨ argValue m.args 4 = .num .nan →
        d.max = .num (.fin 1)) ∧
      (∀ t, argValue m.args 5 = .str t → d.units = argValue m.args 5) ∧
      (∀ t, argValue m.args 6 = .str t → d.desc = argValue m.args 6) := by
  have hself : strictEq (.str pname) (.str pname) = true := by simp [strictEq]
  have h1 := udpOnMessage_param_store numToString c clients m mname haddr
    (by rw [hm]; exact truthy_str hmne) (by rw [hp]; exact truthy_str hpne)
    (by rw [hm]; simp [jsString]) (Or.inr hkey)
  rw [hp] at h1
  obtain ⟨i, hi, hget⟩ := findIndex_upsertParam (.str pname) m.args hself
    ((c.paramCache.lookup mname).getD [])
  refine ⟨_, _, i, _, h1, lookup_ownSet_self _ _ _, hi, hget, rfl,
    paramDescriptor_storesArguments _ _, ?_, ?_, ?_, ?_, ?_, ?_, ?_, ?_⟩
  · intro n hn hnan
    simp only [paramDescriptor, hn]
    exact orElse_num_of_ne_nan n _ (fun _ => rfl) hnan
  · intro hn
    simp [paramDescriptor, hn, orElse, truthy]
  · intro n hn hnan
    simp only [paramDescriptor, hn]
    exact orElse_num_of_ne_nan n _ (fun _ => rfl) hnan
  · intro hn
    simp [paramDescriptor, hn, orElse, truthy]
  · intro n hn hnan hzero
    simp only [paramDescriptor, hn]
    exact orElse_num_of_ne_nan n _ (fun h0 => absurd h0 hzero) hnan
  · rintro (hq | hq) <;> simp [paramDescriptor, hq, orElse, truthy]
  · intro t ht
    simp only [paramDescriptor, ht, orElse_str_empty]
  · intro t ht
    simp only [paramDescriptor, ht, orElse_str_empty]

/-- C13, amended, at the broadcast `lorenz`/`rate` with default 2, min 0.01 and
max 0, handled from the empty cache: the stored descriptor has default 2, min
0.01, max 1, units `Hz` and desc `update rate`. -/
theorem C13_witness_rate_max_zero :
    (∃ c1 l i d,
      udpOnMessage noNumToString emptyCaches [] paramMsgRateMaxZero =
        .ok (c1, broadcast [] paramMsgRateMaxZero) ∧
      c1.paramCache.lookup "lorenz" = some l ∧
      findIndex (.str "rate") l = some i ∧ l.get? i = some d ∧
      d.name = .str "rate" ∧ storesArguments d paramMsgRateMaxZero.args ∧
      d.default = .num (.fin 2) ∧ d.min = .num (.fin float32_0_01) ∧
      d.max = .num (.fin 1) ∧ d.units = .str "Hz" ∧ d.desc = .str "update rate") ∧
    (udpOnMessage noNumToString emptyCaches [] paramMsgRateMaxZero).map
        (fun r => r.1.paramCache.lookup "lorenz") =
      .ok (some [{ name := .str "rate", default := .num (.fin 2),
                   min := .num (.fin float32_0_01), max := .num (.fin 1),
                   units := .str "Hz", desc := .str "update rate" }]) :=
  have h := C13_stored_descriptor_fields noNumToString emptyCaches [] paramMsgRateMaxZero
    "lorenz" "rate" rfl (by decide) (by decide) (by decide) (by decide) (by decide)
  ⟨h.elim (fun c1 h => h.elim (fun l h => h.elim (fun i h => h.elim (fun d h =>
    ⟨c1, l, i, d, h.1, h.2.1, h.2.2.1, h.2.2.2.1, h.2.2.2.2.1, h.2.2.2.2.2.1,
      (h.2.2.2.2.2.2.1 (.fin 2) rfl (by decide)).trans rfl,
      (h.2.2.2.2.2.2.2.2.1 (.fin float32_0_01) rfl (by decide)).trans rfl,
      h.2.2.2.2.2.2.2.2.2.2.2.1 (Or.inl rfl),
      (h.2.2.2.2.2.2.2.2.2.2.2.2.1 "Hz" rfl).trans rfl,
      (h.2.2.2.2.2.2.2.2.2.2.2.2.2 "update rate" rfl).trans rfl⟩)))),
   by decide⟩

/-- C14: a param-registry broadcast whose default argument is missing and the same
broadcast with default 0 build the same descriptor, with default 0, and the
handler does the same to the caches for both, whatever the cache state; with
non-empty string names, the module name not that of an inherited property,
both are handled and store that descriptor. -/
theorem C14_missing_default_same_as_zero (numToString : JSNum → String) (c : Caches)
    (clients : List Client) (m1 m2 : OscMessage)
    (ha1 : m1.address = .str "/brahma/registry/param")
    (ha2 : m2.address = .str "/brahma/registry/param")
    (hmissing : argValue m1.args 2 = .undefined)
    (hzero : argValue m2.args 2 = .num (.fin 0))
    (hsame : ∀ i, i ≠ 2 → argValue m1.args i = argValue m2.args i) :
    paramDescriptor (argValue m1.args 1) m1.args = paramDescriptor (argValue m2.args 1) m2.args ∧
    (paramDescriptor (argValue m1.args 1) m1.args).default = .num (.fin 0) ∧
    cacheParam numToString c m1 = cacheParam numToString c m2 ∧
    (∀ c1 out, udpOnMessage numToString c clients m1 = .ok (c1, out) →
      udpOnMessage numToString c clients m2 = .ok (c1, broadcast clients m2)) ∧
    (∀ mname pname, argValue m1.args 0 = .str mname → argValue m1.args 1 = .str pname →
      mname ≠ "" → pname ≠ "" → mname ∉ objectPrototypeKeys →
      ∃ c1 l, udpOnMessage numToString c clients m1 = .ok (c1, broadcast clients m1) ∧
        udpOnMessage numToString c clients m2 = .ok (c1, broadcast clients m2) ∧
        c1.paramCache.lookup mname = some l ∧
        paramDescriptor (.str pname) m1.args ∈ l) := by
  have h0 := hsame 0 (by decide)
  have h1 := hsame 1 (by decide)
  have hdesc : ∀ p, paramDescriptor p m1.args = paramDescriptor p m2.args := by
    intro p
    simp [paramDescriptor, hmissing, hzero, ← hsame 3 (by decide), ← hsame 4 (by decide),
      ← hsame 5 (by decide), ← hsame 6 (by decide), orElse, truthy]
  have hcache : cacheParam numToString c m1 = cacheParam numToString c m2 := by
    rw [cacheParam_param_address numToString c m1 ha1,
      cacheParam_param_address numToString c m2 ha2, ← h0, ← h1]
    simp only [upsertParam_congr _ m1.args m2.args _ (hdesc _)]
  have hudp : ∀ c1 out, udpOnMessage numToString c clients m1 = .ok (c1, out) →
      udpOnMessage numToString c clients m2 = .ok (c1, broadcast clients m2) := by
    intro c1 out h
    rw [udpOnMessage_param_address numToString c clients m1 ha1] at h
    rw [udpOnMessage_param_address numToString c clients m2 ha2, ← hcache]
    cases hc : cacheParam numToString c m1 with
    | error e => simp [hc] at h
    | ok c2 =>
      simp only [hc] at h ⊢
      cases Except.ok.inj h
      rfl
  refine ⟨by rw [← h1]; exact hdesc _, by simp [paramDescriptor, hmissing, orElse, truthy],
    hcache, hudp, ?_⟩
  intro mname pname hm hp hmne hpne hkey
  have hself : strictEq (.str pname) (.str pname) = true := by simp [strictEq]
  have hs := udpOnMessage_param_store numToString c clients m1 mname ha1
    (by rw [hm]; exact truthy_str hmne) (by rw [hp]; exact truthy_str hpne)
    (by rw [hm]; simp [jsString]) (Or.inr hkey)
  rw [hp] at hs
  obtain ⟨i, -, hget⟩ := findIndex_upsertParam (.str pname) m1.args hself
    ((c.paramCache.lookup mname).getD [])
  exact ⟨_, _, hs, hudp _ _ hs, lookup_ownSet_self _ _ _, List.get?_mem hget⟩

/-- C14 at the broadcasts `lorenz`/`rate` without any further argument and
`lorenz`/`rate` with default 0, handled from the empty cache. -/
theorem C14_witness_no_default :
    paramDescriptor (argValue paramMsgNoDefault.args 1) paramMsgNoDefault.args =
      paramDescriptor (argValue paramMsgDefaultZero.args 1) paramMsgDefaultZero.args ∧
    (paramDescriptor (argValue paramMsgNoDefault.args 1) paramMsgNoDefault.args).default =
      .num (.fin 0) ∧
    cacheParam noNumToString emptyCaches paramMsgNoDefault =
      cacheParam noNumToString emptyCaches paramMsgDefaultZero ∧
    (∀ c1 out, udpOnMessage noNumToString emptyCaches [] paramMsgNoDefault = .ok (c1, out) →
      udpOnMessage noNumToString emptyCaches [] paramMsgDefaultZero =
        .ok (c1, broadcast [] paramMsgDefaultZero)) ∧
    (∀ mname pname, argValue paramMsgNoDefault.args 0 = .str mname →
      argValue paramMsgNoDefault.args 1 = .str pname →
      mname ≠ "" → pname ≠ "" → mname ∉ objectPrototypeKeys →
      ∃ c1 l, udpOnMessage noNumToString emptyCaches [] paramMsgNoDefault =
          .ok (c1, broadcast [] paramMsgNoDefault) ∧
        udpOnMessage noNumToString emptyCaches [] paramMsgDefaultZero =
          .ok (c1, broadcast [] paramMsgDefaultZero) ∧
        c1.paramCache.lookup mname = some l ∧
        paramDescriptor (.str pname) paramMsgNoDefault.args ∈ l) :=
  C14_missing_default_same_as_zero noNumToString emptyCaches [] paramMsgNoDefault
    paramMsgDefaultZero rfl rfl (by decide) (by decide)
    (by
      intro i hi
      match i with
      | 0 => rfl
      | 1 => rfl
      | 2 => exact absurd rfl hi
      | n + 3 => rfl)

/-- C15: in every cache state, a param-registry broadcast whose module name or
parameter name is falsy (empty, absent, or any other falsy value), and a
module-registry broadcast whose name is falsy, is handled without raising and
leaves both caches as they were. -/
theorem C15_empty_names_change_nothing (numToString : JSNum → String) (c : Caches)
    (clients : List Client) (m : OscMessage) :
    (m.address = .str "/brahma/registry/param" →
      (truthy (argValue m.args 0) = false ∨ truthy (argValue m.args 1) = false) →
      udpOnMessage numToString c clients m = .ok (c, broadcast clients m)) ∧
    (m.address = .str "/brahma/registry/module" →
      truthy (argValue m.args 0) = false →
      udpOnMessage numToString c clients m = .ok (c, broadcast clients m)) ∧
    truthy (.str "") = false ∧ truthy .undefined = false := by
  refine ⟨?_, ?_, by decide, by decide⟩
  · intro haddr hfalsy
    apply udpOnMessage_param_skip numToString c clients m haddr
    rcases hfalsy with h | h
    · simp [h]
    · simp [h]
  · intro haddr hfalsy
    exact udpOnMessage_module_skip numToString c clients m haddr hfalsy

/-- C15 at the param-registry broadcast `lorenz` with an empty parameter name, at
the one without parameter name, and at the module-registry broadcast with an
empty name: each leaves the empty cache empty. -/
theorem C15_witness_empty_names :
    udpOnMessage noNumToString emptyCaches [] paramMsgEmptyParamName =
      .ok (emptyCaches, broadcast [] paramMsgEmptyParamName) ∧
    udpOnMessage noNumToString emptyCaches []
        { address := .str "/brahma/registry/param",
          args := [{ type := "s", value := .str "lorenz" }] } =
      .ok (emptyCaches, broadcast []
        { address := .str "/brahma/registry/param",
          args := [{ type := "s", value := .str "lorenz" }] }) ∧
    udpOnMessage noNumToString emptyCaches [] moduleMsgEmptyName =
      .ok (emptyCaches, broadcast [] moduleMsgEmptyName) :=
  ⟨(C15_empty_names_change_nothing noNumToString emptyCaches [] paramMsgEmptyParamName).1
      rfl (Or.inr (by decide)),
   (C15_empty_names_change_nothing noNumToString emptyCaches []
      { address := .str "/brahma/registry/param",
        args := [{ type := "s", value := .str "lorenz" }] }).1 rfl (Or.inr (by decide)),
   (C15_empty_names_change_nothing noNumToString emptyCaches [] moduleMsgEmptyName).2.1
      rfl (by decide)⟩

theorem param_broadcast_idempotent (numToString : JSNum → String) (c : Caches)
    (clients : List Client) (m : OscMessage)
    (haddr : m.address = .str "/brahma/registry/param")
    (hprim : isPrimitive (argValue m.args 1) = true) :
    (∀ c1 out, udpOnMessage numToString c clients m = .ok (c1, out) →
      udpOnMessage numToString c1 clients m = .ok (c1, out)) ∧
    (∀ key, jsString numToString (argValue m.args 0) = .ok key → key ∉ objectPrototypeKeys →
      ∃ c1, udpOnMessage numToString c clients m = .ok (c1, broadcast clients m)) := by
  constructor
  · intro c1 out h
    obtain ⟨rfl, hcase⟩ := udpOnMessage_param_inv haddr h
    rcases hcase with ⟨ht, rfl⟩ | ⟨hm, hp, key, hk, -, rfl⟩
    · exact udpOnMessage_param_skip numToString c1 clients m haddr ht
    · have hlook := lookup_ownSet_self key
        (upsertParam (argValue m.args 1) m.args ((c.paramCache.lookup key).getD [])) c.paramCache
      have h2 := udpOnMessage_param_store numToString
        { c with paramCache := (ownSet key
            (upsertParam (argValue m.args 1) m.args ((c.paramCache.lookup key).getD []))
            c.paramCache) }
        clients m key haddr hm hp hk (Or.inl (by simp only [hlook]; rfl))
      simp only [hlook, Option.getD_some,
        upsertParam_idem _ _ (strictEq_self hprim hp), ownSet_idem] at h2
      exact h2
  · intro key hk hkey
    cases ht : (truthy (argValue m.args 0) && truthy (argValue m.args 1)) with
    | false => exact ⟨_, udpOnMessage_param_skip numToString c clients m haddr ht⟩
    | true =>
      simp only [Bool.and_eq_true] at ht
      exact ⟨_, udpOnMessage_param_store numToString c clients m key haddr ht.1 ht.2 hk
        (Or.inr hkey)⟩

/-- C16, failing input: the param-registry broadcast `["lorenz", blob [1], 1.0]`
(typed s, b, f), handled twice in a row from the empty cache. Its parameter
name is decoded to a byte array, an object; `p.name === paramName` of line
115 compares objects by identity, so the second handling finds no entry of
that name and pushes the descriptor again: after one handling the list of
`lorenz` has one entry, after two it has two. For every broadcast whose
parameter name is a string, a number, a boolean or absent, in every cache
state, handling it a second time leaves both caches as the first handling
left them (so for `lorenz`/`rate`), and the broadcast is handled whenever the
module name has a string conversion that is not the name of a property
inherited from `Object.prototype`. -/
theorem C16_blob_name_is_pushed_again (numToString : JSNum → String) :
    (∃ c1 c2 d,
      udpOnMessage numToString emptyCaches [] paramMsgBlobName = .ok (c1, []) ∧
      c1.paramCache = [("lorenz", [d])] ∧
      udpOnMessage numToString c1 [] paramMsgBlobName = .ok (c2, []) ∧
      c2.paramCache = [("lorenz", [d, d])] ∧ c2.paramCache ≠ c1.paramCache) ∧
    (∃ c1, udpOnMessage numToString emptyCaches [] paramMsgRate1 = .ok (c1, []) ∧
      udpOnMessage numToString c1 [] paramMsgRate1 = .ok (c1, []) ∧
      c1.paramCache = [("lorenz", [paramDescriptor (.str "rate") paramMsgRate1.args])]) ∧
    (∀ (c : Caches) (clients : List Client) (m : OscMessage),
      m.address = .str "/brahma/registry/param" → isPrimitive (argValue m.args 1) = true →
      (∀ c1 out, udpOnMessage numToString c clients m = .ok (c1, out) →
        udpOnMessage numToString c1 clients m = .ok (c1, out)) ∧
      (∀ key, jsString numToString (argValue m.args 0) = .ok key →
        key ∉ objectPrototypeKeys →
        ∃ c1, udpOnMessage numToString c clients m = .ok (c1, broadcast clients m))) := by
  refine ⟨?_, ?_, ?_⟩
  · have h1 : udpOnMessage numToString emptyCaches [] paramMsgBlobName =
        .ok ({ emptyCaches with paramCache :=
                 [("lorenz", [paramDescriptor (.arr [.num (.fin 1)]) paramMsgBlobName.args])] },
             []) := by
      rw [udpOnMessage_param_store numToString emptyCaches [] paramMsgBlobName "lorenz"
        rfl (by decide) (by decide) rfl (Or.inr (by decide))]
      rfl
    have h2 : udpOnMessage numToString
        { emptyCaches with paramCache :=
            [("lorenz", [paramDescriptor (.arr [.num (.fin 1)]) paramMsgBlobName.args])] }
        [] paramMsgBlobName =
        .ok ({ emptyCaches with paramCache :=
                 [("lorenz", [paramDescriptor (.arr [.num (.fin 1)]) paramMsgBlobName.args,
                              paramDescriptor (.arr [.num (.fin 1)]) paramMsgBlobName.args])] },
             []) := by
      rw [udpOnMessage_param_store numToString _ [] paramMsgBlobName "lorenz"
        rfl (by decide) (by decide) rfl (Or.inl (by decide))]
      rfl
    exact ⟨_, _, _, h1, rfl, h2, rfl, by decide⟩
  · have h1 := udpOnMessage_param_store numToString emptyCaches [] paramMsgRate1 "lorenz"
      rfl (by decide) (by decide) rfl (Or.inr (by decide))
    refine ⟨_, h1, ?_, by decide⟩
    exact (param_broadcast_idempotent numToString emptyCaches [] paramMsgRate1 rfl
      (by decide)).1 _ _ h1
  · intro c clients m haddr hprim
    exact param_broadcast_idempotent numToString c clients m haddr hprim

/-- C18, failing input: the query `GET /api/modules/constructor/params` on the empty
cache, where no param-registry broadcast has been handled. The expression
`paramCache["constructor"] || []` finds the property `constructor` that the
plain object inherits, so the reply is that property, not an empty sequence;
likewise for `__proto__` and for `toString`, also once `toString` is known
from a module-registry broadcast; the unknown name `lorenz` gets the empty
sequence. -/
theorem C18_query_finds_inherited_property (numToString : JSNum → String) :
    apiParams emptyCaches "constructor" = .inheritedProperty ∧
    apiParams emptyCaches "__proto__" = .inheritedProperty ∧
    apiParams emptyCaches "lorenz" = .params [] ∧
    (∃ c1, udpOnMessage numToString emptyCaches []
        { address := .str "/brahma/registry/module",
          args := [{ type := "s", value := .str "toString" }] } =
        .ok (c1, []) ∧
      (apiModules c1).map ModuleDescriptor.name = [.str "toString"] ∧
      apiParams c1 "toString" = .inheritedProperty) := by
  refine ⟨by decide, by decide, by decide, ?_⟩
  refine ⟨_, udpOnMessage_module_store numToString emptyCaches []
      { address := .str "/brahma/registry/module",
        args := [{ type := "s", value := .str "toString" }] }
      "toString" rfl (by decide) rfl, ?_, ?_⟩
  · decide
  · decide

/-- C19: a message whose address is neither `/brahma/registry/module` nor
`/brahma/registry/param` is handled and leaves both caches as they were; a
module-registry broadcast, once handled, leaves the parameter cache as it was,
and a param-registry broadcast, once handled, leaves the module cache as it
was. A module-registry broadcast is handled whenever its name has a string
conversion, a param-registry broadcast whenever its module name has one that
is not the name of a property inherited from `Object.prototype`. -/
theorem C19_cache_updates_only_for_own_address (numToString : JSNum → String) (c : Caches)
    (clients : List Client) (m : OscMessage) :
    (m.address ≠ .str "/brahma/registry/module" → m.address ≠ .str "/brahma/registry/param" →
      udpOnMessage numToString c clients m = .ok (c, broadcast clients m)) ∧
    (m.address = .str "/brahma/registry/module" →
      (∀ c1 out, udpOnMessage numToString c clients m = .ok (c1, out) →
        c1.paramCache = c.paramCache) ∧
      ((∃ key, jsString numToString (argValue m.args 0) = .ok key) →
        ∃ c1, udpOnMessage numToString c clients m = .ok (c1, broadcast clients m))) ∧
    (m.address = .str "/brahma/registry/param" →
      (∀ c1 out, udpOnMessage numToString c clients m = .ok (c1, out) →
        c1.moduleCache = c.moduleCache) ∧
      (∀ key, jsString numToString (argValue m.args 0) = .ok key →
        key ∉ objectPrototypeKeys →
        ∃ c1, udpOnMessage numToString c clients m = .ok (c1, broadcast clients m))) := by
  refine ⟨udpOnMessage_other_address numToString c clients m, ?_, ?_⟩
  · intro haddr
    constructor
    · intro c1 out h
      obtain ⟨-, hcase⟩ := udpOnMessage_module_inv haddr h
      rcases hcase with ⟨-, rfl⟩ | ⟨-, key, -, rfl⟩ <;> rfl
    · rintro ⟨key, hk⟩
      cases ht : truthy (argValue m.args 0) with
      | false => exact ⟨_, udpOnMessage_module_skip numToString c clients m haddr ht⟩
      | true => exact ⟨_, udpOnMessage_module_store numToString c clients m key haddr ht hk⟩
  · intro haddr
    constructor
    · intro c1 out h
      obtain ⟨-, hcase⟩ := udpOnMessage_param_inv haddr h
      rcases hcase with ⟨-, rfl⟩ | ⟨-, -, key, -, -, rfl⟩ <;> rfl
    · intro key hk hkey
      cases ht : (truthy (argValue m.args 0) && truthy (argValue m.args 1)) with
      | false => exact ⟨_, udpOnMessage_param_skip numToString c clients m haddr ht⟩
      | true =>
        simp only [Bool.and_eq_true] at ht
        exact ⟨_, udpOnMessage_param_store numToString c clients m key haddr ht.1 ht.2 hk
          (Or.inr hkey)⟩

/-- C19 at the message `/chronos/tick [7]`, at the module-registry broadcast
`lorenz` and at the param-registry broadcast `lorenz`/`rate`, from the empty
cache. -/
theorem C19_witness_three_addresses :
    udpOnMessage noNumToString emptyCaches [] tickMsg = .ok (emptyCaches, broadcast [] tickMsg) ∧
    (∀ c1 out, udpOnMessage noNumToString emptyCaches [] moduleMsgLorenz = .ok (c1, out) →
      c1.paramCache = emptyCaches.paramCache) ∧
    (∀ c1 out, udpOnMessage noNumToString emptyCaches [] paramMsgRate1 = .ok (c1, out) →
      c1.moduleCache = emptyCaches.moduleCache) :=
  ⟨(C19_cache_updates_only_for_own_address noNumToString emptyCaches [] tickMsg).1
      (by decide) (by decide),
   ((C19_cache_updates_only_for_own_address noNumToString emptyCaches [] moduleMsgLorenz).2.1
      rfl).1,
   ((C19_cache_updates_only_for_own_address noNumToString emptyCaches [] paramMsgRate1).2.2
      rfl).1⟩

/-- C20, failing input: the param-registry broadcast
`["constructor","rate",1.0,0.01,10.0,"Hz","update rate"]` arriving at the empty
cache while one session with an open transport is connected. Line 115 throws
a `TypeError` (the inherited `paramCache["constructor"]` has no `findIndex`),
the exception leaves the handler before the broadcast of lines 133-142, and
the open session is sent no frame. The same broadcast for `lorenz` is
delivered once to the open session and not to the session that is not open;
whenever the handler completes, it has sent the frame of the message once to
each open session and to no other. -/
theorem C20_raising_broadcast_is_not_delivered (numToString : JSNum → String) :
    udpOnMessage numToString emptyCaches [{ id := 1, readyState := WebSocket_OPEN }]
        paramMsgConstructor = .error .typeError ∧
    (∃ c1, udpOnMessage numToString emptyCaches
        [{ id := 1, readyState := WebSocket_OPEN }, { id := 2, readyState := 3 }]
        paramMsgRate1 = .ok (c1, [(1, paramMsgRate1)])) ∧
    (∀ c clients m c1 out, udpOnMessage numToString c clients m = .ok (c1, out) →
      out = (clients.filter (fun cl => cl.readyState == WebSocket_OPEN)).map
        (fun cl => (cl.id, m))) := by
  refine ⟨?_, ?_, ?_⟩
  · exact udpOnMessage_param_raise numToString emptyCaches _ paramMsgConstructor "constructor"
      rfl (by decide) (by decide) rfl (by decide) (by decide)
  · exact ⟨_, udpOnMessage_param_store numToString emptyCaches _ paramMsgRate1 "lorenz"
      rfl (by decide) (by decide) rfl (by decide)⟩
  · intro c clients m c1 out h
    unfold udpOnMessage at h
    cases h1 : cacheModule numToString c m with
    | error e => simp [h1] at h
    | ok c2 =>
      simp only [h1] at h
      cases h2 : cacheParam numToString c2 m with
      | error e => simp [h2] at h
      | ok c3 =>
        simp only [h2] at h
        cases Except.ok.inj h
        rfl

/-! ## Lemmas on runs of the parameter registry -/

theorem mem_addIfAbsent (names : List String) (p q : String) :
    q ∈ addIfAbsent names p ↔ q ∈ names ∨ q = p := by
  unfold addIfAbsent
  split
  · rename_i h
    constructor
    · exact Or.inl
    · rintro (h1 | rfl)
      · exact h1
      · exact h
  · simp

theorem nodup_addIfAbsent (names : List String) (p : String) (h : names.Nodup) :
    (addIfAbsent names p).Nodup := by
  unfold addIfAbsent
  split
  · exact h
  · rename_i hn
    rw [List.nodup_append]
    refine ⟨h, List.nodup_singleton p, ?_⟩
    intro a ha hb
    rw [List.mem_singleton.mp hb] at ha
    exact hn ha

theorem firstSightings_append_singleton (names : List String) (p : String) :
    firstSightings (names ++ [p]) = addIfAbsent (firstSightings names) p := by
  simp [firstSightings, List.foldl_append]

theorem nodup_firstSightings (names : List String) : (firstSightings names).Nodup := by
  induction names using List.reverseRecOn with
  | nil => simp [firstSightings]
  | append_singleton xs x ih =>
    rw [firstSightings_append_singleton]
    exact nodup_addIfAbsent _ _ ih

theorem mem_firstSightings (names : List String) (q : String) :
    q ∈ firstSightings names ↔ q ∈ names := by
  induction names using List.reverseRecOn with
  | nil => simp [firstSightings]
  | append_singleton xs x ih =>
    rw [firstSightings_append_singleton, mem_addIfAbsent, ih]
    simp

theorem lastArgs_append_singleton (p : String) (ws : List (String × List OscArg))
    (w : String × List OscArg) :
    lastArgs p (ws ++ [w]) = if w.1 = p then some w.2 else lastArgs p ws := by
  simp [lastArgs, List.foldl_append]

theorem mem_upsertParam (p : JSVal) (args : List OscArg) :
    ∀ ps : List ParamDescriptor,
      (ps.map ParamDescriptor.name).Pairwise (fun x y => strictEq x y = false) →
      ∀ d ∈ upsertParam p args ps,
        d = paramDescriptor p args ∨ (d ∈ ps ∧ strictEq d.name p = false) := by
  intro ps
  induction ps with
  | nil =>
    intro _ d hd
    rw [upsertParam_nil] at hd
    exact Or.inl (List.mem_singleton.mp hd)
  | cons e rest ih =>
    intro hpw d hd
    rw [List.map_cons, List.pairwise_cons] at hpw
    rw [upsertParam_cons] at hd
    by_cases h : strictEq e.name p = true
    · rw [if_pos h] at hd
      rcases List.mem_cons.mp hd with hd | hd
      · exact Or.inl hd
      · right
        refine ⟨List.mem_cons_of_mem _ hd, ?_⟩
        have he : e.name = p := strictEq_eq_of_true h
        have := hpw.1 d.name (List.mem_map_of_mem _ hd)
        rw [he, strictEq_comm] at this
        exact this
    · rw [if_neg h] at hd
      rcases List.mem_cons.mp hd with hd | hd
      · right
        subst hd
        exact ⟨List.mem_cons_self _ _, by simpa using h⟩
      · rcases ih hpw.2 d hd with h1 | ⟨h1, h2⟩
        · exact Or.inl h1
        · exact Or.inr ⟨List.mem_cons_of_mem _ h1, h2⟩

theorem pairwise_str_of_nodup (names : List String) (h : names.Nodup) :
    (names.map JSVal.str).Pairwise (fun x y => strictEq x y = false) := by
  rw [List.pairwise_map]
  refine h.imp ?_
  intro a b hab
  simp [strictEq, hab]

theorem names_upsertParam_str (q : String) (args : List OscArg) (ps : List ParamDescriptor)
    (names : List String) (h : ps.map ParamDescriptor.name = names.map JSVal.str) :
    (upsertParam (.str q) args ps).map ParamDescriptor.name =
      (addIfAbsent names q).map JSVal.str := by
  rw [names_upsertParam, h]
  have hany : (names.map JSVal.str).any (fun x => strictEq x (.str q)) = true ↔ q ∈ names := by
    simp [List.any_eq_true, strictEq]
  unfold addIfAbsent
  by_cases hq : q ∈ names
  · rw [if_pos (hany.mpr hq), if_pos hq]
  · rw [if_neg (fun hc => hq (hany.mp hc)), if_neg hq]
    simp

theorem foldl_upsertParam_spec (ws : List (String × List OscArg)) :
    ((ws.foldl (fun l w => upsertParam (.str w.1) w.2 l) []).map ParamDescriptor.name =
        (firstSightings (ws.map Prod.fst)).map JSVal.str) ∧
    ∀ d ∈ ws.foldl (fun l w => upsertParam (.str w.1) w.2 l) [],
      ∃ p args, d.name = .str p ∧ lastArgs p ws = some args ∧
        d = paramDescriptor (.str p) args := by
  induction ws using List.reverseRecOn with
  | nil =>
    constructor
    · simp [firstSightings]
    · intro d hd
      simp at hd
  | append_singleton ws w ih =>
    obtain ⟨hnames, hvals⟩ := ih
    rw [List.foldl_append]
    simp only [List.foldl_cons, List.foldl_nil, List.map_append, List.map_cons, List.map_nil]
    constructor
    · rw [firstSightings_append_singleton]
      exact names_upsertParam_str w.1 w.2 _ _ hnames
    · intro d hd
      have hpw : ((ws.foldl (fun l w => upsertParam (.str w.1) w.2 l) []).map
          ParamDescriptor.name).Pairwise (fun x y => strictEq x y = false) := by
        rw [hnames]
        exact pairwise_str_of_nodup _ (nodup_firstSightings _)
      rcases mem_upsertParam (.str w.1) w.2 _ hpw d hd with h1 | ⟨h1, h2⟩
      · refine ⟨w.1, w.2, by rw [h1]; rfl, ?_, h1⟩
        rw [lastArgs_append_singleton, if_pos rfl]
      · obtain ⟨p, args, hp, hlast, hd2⟩ := hvals d h1
        refine ⟨p, args, hp, ?_, hd2⟩
        rw [lastArgs_append_singleton]
        have hne : w.1 ≠ p := by
          intro heq
          rw [hp, ← heq] at h2
          simp [strictEq] at h2
        rw [if_neg hne]
        exact hlast

theorem sighting?_other_address (k : String) (m : OscMessage)
    (h : m.address ≠ .str "/brahma/registry/param") : sighting? k m = none := by
  simp [sighting?, h]

theorem lookup_after_udpOnMessage {numToString : JSNum → String} {c c1 : Caches}
    {clients : List Client} {m : OscMessage} {out : List (Nat × OscMessage)} (k : String)
    (htyped : m.address = .str "/brahma/registry/param" → namesTyped m)
    (h : udpOnMessage numToString c clients m = .ok (c1, out)) :
    c1.paramCache.lookup k =
      match sighting? k m with
      | some w => some (upsertParam (.str w.1) w.2 ((c.paramCache.lookup k).getD []))
      | none => c.paramCache.lookup k := by
  by_cases h2 : m.address = .str "/brahma/registry/param"
  · obtain ⟨hta, htb⟩ := htyped h2
    obtain ⟨-, hcase⟩ := udpOnMessage_param_inv h2 h
    rcases hcase with ⟨hf, rfl⟩ | ⟨hm, hp, key, hk, -, rfl⟩
    · have hnone : sighting? k m = none := by
        unfold sighting?
        split
        · rename_i hc
          obtain ⟨-, h0, hkne⟩ := hc
          split
          · rename_i p hp1
            by_cases hpe : p = ""
            · simp [hpe]
            · exfalso
              rw [h0, hp1, truthy_str hkne, truthy_str hpe] at hf
              exact Bool.noConfusion hf
          · rfl
        · rfl
      rw [hnone]
    · rcases hta with h0 | ⟨t, h0⟩
      · rw [h0] at hm
        exact absurd hm (by decide)
      rcases htb with h1 | ⟨p, h1⟩
      · rw [h1] at hp
        exact absurd hp (by decide)
      have hkey : key = t := by
        rw [h0] at hk
        simp only [jsString] at hk
        exact (Except.ok.inj hk).symm
      subst hkey
      have htne : key ≠ "" := by
        rintro rfl
        rw [h0] at hm
        exact absurd hm (by decide)
      have hpne : p ≠ "" := by
        rintro rfl
        rw [h1] at hp
        exact absurd hp (by decide)
      by_cases hkk : k = key
      · subst hkk
        have hs : sighting? k m = some (p, m.args) := by
          simp [sighting?, h2, h0, h1, htne, hpne]
        rw [hs, h1]
        exact lookup_ownSet_self _ _ _
      · have hs : sighting? k m = none := by
          have hne : ¬ (JSVal.str key = JSVal.str k) := by
            intro he
            exact hkk (JSVal.str.inj he).symm
          simp [sighting?, h0, hne]
        rw [hs]
        exact lookup_ownSet_ne _ _ _ _ hkk
  · rw [sighting?_other_address k m h2]
    by_cases h1 : m.address = .str "/brahma/registry/module"
    · obtain ⟨-, hcase⟩ := udpOnMessage_module_inv h1 h
      rcases hcase with ⟨-, rfl⟩ | ⟨-, key, -, rfl⟩ <;> rfl
    · rw [udpOnMessage_other_address numToString c clients m h1 h2] at h
      cases Except.ok.inj h
      rfl

theorem lookup_after_udpRun {numToString : JSNum → String} (k : String) :
    ∀ (evs : List UdpEvent) (c c1 : Caches) (out : List (Nat × OscMessage)),
      (∀ ev ∈ evs, ev.oscMsg.address = .str "/brahma/registry/param" → namesTyped ev.oscMsg) →
      udpRun numToString c evs = .ok (c1, out) →
      c1.paramCache.lookup k =
        (paramSightings k evs).foldl
          (fun acc w => some (upsertParam (.str w.1) w.2 (acc.getD [])))
          (c.paramCache.lookup k) := by
  intro evs
  induction evs with
  | nil =>
    intro c c1 out _ h
    simp only [udpRun] at h
    cases Except.ok.inj h
    rfl
  | cons ev rest ih =>
    intro c c1 out htyped h
    obtain ⟨c2, out1, out2, h1, h2, -⟩ := udpRun_cons_inv h
    have hstep := lookup_after_udpOnMessage k (htyped ev (List.mem_cons_self _ _)) h1
    rw [ih c2 c1 out2 (fun e he => htyped e (List.mem_cons_of_mem _ he)) h2, hstep]
    unfold paramSightings
    rw [List.filterMap_cons]
    cases hs : sighting? k ev.oscMsg with
    | none => rfl
    | some w => rfl

theorem getD_foldl_upsertParam (ws : List (String × List OscArg)) :
    ∀ o : Option (List ParamDescriptor),
      (ws.foldl (fun acc w => some (upsertParam (.str w.1) w.2 (acc.getD []))) o).getD [] =
        ws.foldl (fun l w => upsertParam (.str w.1) w.2 l) (o.getD []) := by
  induction ws with
  | nil => intro o; rfl
  | cons w ws ih =>
    intro o
    simp only [List.foldl_cons]
    rw [ih]
    rfl

theorem udpOnMessage_completes (numToString : JSNum → String) (c : Caches)
    (clients : List Client) (m : OscMessage)
    (hmod : m.address = .str "/brahma/registry/module" → stringOrAbsent (argValue m.args 0))
    (htyped : m.address = .str "/brahma/registry/param" → namesTyped m)
    (hkeys : m.address = .str "/brahma/registry/param" →
      ∀ t, argValue m.args 0 = .str t → t ∉ objectPrototypeKeys) :
    ∃ c1, udpOnMessage numToString c clients m = .ok (c1, broadcast clients m) := by
  by_cases h1 : m.address = .str "/brahma/registry/module"
  · cases ht : truthy (argValue m.args 0) with
    | false => exact ⟨_, udpOnMessage_module_skip numToString c clients m h1 ht⟩
    | true =>
      rcases hmod h1 with hu | ⟨t, hs⟩
      · rw [hu] at ht
        simp [truthy] at ht
      · exact ⟨_, udpOnMessage_module_store numToString c clients m t h1 ht
          (by rw [hs]; rfl)⟩
  · by_cases h2 : m.address = .str "/brahma/registry/param"
    · cases ht : (truthy (argValue m.args 0) && truthy (argValue m.args 1)) with
      | false => exact ⟨_, udpOnMessage_param_skip numToString c clients m h2 ht⟩
      | true =>
        simp only [Bool.and_eq_true] at ht
        rcases (htyped h2).1 with hu | ⟨t, hs⟩
        · rw [hu] at ht
          simp [truthy] at ht
        · exact ⟨_, udpOnMessage_param_store numToString c clients m t h2 ht.1 ht.2
            (by rw [hs]; rfl) (Or.inr (hkeys h2 t hs))⟩
    · exact ⟨_, udpOnMessage_other_address numToString c clients m h1 h2⟩

theorem udpRun_completes (numToString : JSNum → String) :
    ∀ (evs : List UdpEvent) (c : Caches),
      (∀ ev ∈ evs, ev.oscMsg.address = .str "/brahma/registry/module" →
        stringOrAbsent (argValue ev.oscMsg.args 0)) →
      (∀ ev ∈ evs, ev.oscMsg.address = .str "/brahma/registry/param" → namesTyped ev.oscMsg) →
      (∀ ev ∈ evs, ev.oscMsg.address = .str "/brahma/registry/param" →
        ∀ t, argValue ev.oscMsg.args 0 = .str t → t ∉ objectPrototypeKeys) →
      ∃ c1 out, udpRun numToString c evs = .ok (c1, out) := by
  intro evs
  induction evs with
  | nil => intro c _ _ _; exact ⟨c, [], rfl⟩
  | cons ev rest ih =>
    intro c hmod htyped hkeys
    obtain ⟨c1, h1⟩ := udpOnMessage_completes numToString c ev.clients ev.oscMsg
      (hmod ev (List.mem_cons_self _ _)) (htyped ev (List.mem_cons_self _ _))
      (hkeys ev (List.mem_cons_self _ _))
    obtain ⟨c2, out2, h2⟩ := ih c1
      (fun e he => hmod e (List.mem_cons_of_mem _ he))
      (fun e he => htyped e (List.mem_cons_of_mem _ he))
      (fun e he => hkeys e (List.mem_cons_of_mem _ he))
    exact ⟨c2, broadcast ev.clients ev.oscMsg ++ out2, by simp only [udpRun, h1, h2]⟩

/-! ## Runs of the parameter registry -/

/-- C17, as stated, fails. After the one broadcast `lorenz`/`rate` with default 2,
min 0.01 and max 0, the entry `rate` of `lorenz` holds default 2 and min 0.01
but max 1, not the max of the last broadcast. After the one broadcast whose
module name is the integer 5, the list of the module name `5` (a string) holds
`rate`, a parameter never seen for that name. -/
theorem C17_counterexample_values_and_names :
    ((udpRun integerNumToString emptyCaches
        [{ clients := [], oscMsg := paramMsgRateMaxZero }]).map
        (fun r => r.1.paramCache.lookup "lorenz") =
      .ok (some [{ name := .str "rate", default := .num (.fin 2),
                   min := .num (.fin float32_0_01), max := .num (.fin 1),
                   units := .str "Hz", desc := .str "update rate" }]) ∧
     argValue paramMsgRateMaxZero.args 4 = .num (.fin 0)) ∧
    ((udpRun integerNumToString emptyCaches
        [{ clients := [], oscMsg := paramMsgIntModule }]).map
        (fun r => (r.1.paramCache.lookup "5").map
          (fun l => l.map ParamDescriptor.name)) =
      .ok (some [.str "rate"]) ∧
     paramSightings "5" [{ clients := [], oscMsg := paramMsgIntModule }] = []) := by
  decide

/-- C17, amended: take a finite sequence of inbound UDP messages in which the
names of every registry broadcast are strings or absent (the module name of a
module-registry broadcast, the module name and the parameter name of a
param-registry broadcast) and no module name of a param-registry broadcast is
the name of a property inherited from `Object.prototype`, and a module name
`m`. The bridge handles the whole sequence from the empty cache, and then the
parameter list of `m` lists the distinct parameter names seen for `m`, each
once, in the order of each name's first sighting; every name seen is listed;
and each entry holds the arguments of the last broadcast for its name: each of
default, min, max, units and desc is that broadcast's argument when it is
truthy and the default of the field (0, 0, 1, the empty string, the empty
string) otherwise. The params query returns this list, unless `m` is the name
of a property inherited from `Object.prototype`. -/
theorem C17_param_list_of_a_run (numToString : JSNum → String) (evs : List UdpEvent)
    (m : String)
    (hmod : ∀ ev ∈ evs, ev.oscMsg.address = .str "/brahma/registry/module" →
      stringOrAbsent (argValue ev.oscMsg.args 0))
    (htyped : ∀ ev ∈ evs, ev.oscMsg.address = .str "/brahma/registry/param" →
      namesTyped ev.oscMsg)
    (hkeys : ∀ ev ∈ evs, ev.oscMsg.address = .str "/brahma/registry/param" →
      ∀ t, argValue ev.oscMsg.args 0 = .str t → t ∉ objectPrototypeKeys) :
    ∃ c out, udpRun numToString emptyCaches evs = .ok (c, out) ∧
      ((c.paramCache.lookup m).getD []).map ParamDescriptor.name =
        (firstSightings ((paramSightings m evs).map Prod.fst)).map JSVal.str ∧
      (firstSightings ((paramSightings m evs).map Prod.fst)).Nodup ∧
      (∀ p, p ∈ firstSightings ((paramSightings m evs).map Prod.fst) ↔
        p ∈ (paramSightings m evs).map Prod.fst) ∧
      (∀ d ∈ (c.paramCache.lookup m).getD [],
        ∃ p args, d.name = .str p ∧ lastArgs p (paramSightings m evs) = some args ∧
          storesArguments d args) ∧
      (m ∉ objectPrototypeKeys →
        apiParams c m = .params ((c.paramCache.lookup m).getD [])) := by
  obtain ⟨c, out, hreach⟩ := udpRun_completes numToString evs emptyCaches hmod htyped hkeys
  have hlook := lookup_after_udpRun m evs emptyCaches c out htyped hreach
  have hlist : (c.paramCache.lookup m).getD [] =
      (paramSightings m evs).foldl (fun l w => upsertParam (.str w.1) w.2 l) [] := by
    rw [hlook, getD_foldl_upsertParam]
    rfl
  obtain ⟨hnames, hvals⟩ := foldl_upsertParam_spec (paramSightings m evs)
  refine ⟨c, out, hreach, by rw [hlist]; exact hnames, nodup_firstSightings _,
    mem_firstSightings _, ?_, ?_⟩
  · rw [hlist]
    intro d hd
    obtain ⟨p, args, hname, hlast, hd2⟩ := hvals d hd
    exact ⟨p, args, hname, hlast, by rw [hd2]; exact paramDescriptor_storesArguments _ _⟩
  · intro hkey
    unfold apiParams paramCacheGet
    cases hl : c.paramCache.lookup m with
    | some ps => rfl
    | none => simp [hkey]

/-- C17, amended, at the run of `lorenz`/`rate` with default 1 and then with
default 2: the run is handled, and the list of `lorenz` is the one entry
`rate` with default 2, min 0.01, max 10, units `Hz` and desc `update rate`,
the arguments of the second broadcast. -/
theorem C17_witness_rate_run :
    (∃ c out, udpRun noNumToString emptyCaches
        [{ clients := [], oscMsg := paramMsgRate1 },
         { clients := [], oscMsg := paramMsgRate2 }] = .ok (c, out) ∧
      ((c.paramCache.lookup "lorenz").getD []).map ParamDescriptor.name =
        (firstSightings ((paramSightings "lorenz"
          [{ clients := [], oscMsg := paramMsgRate1 },
           { clients := [], oscMsg := paramMsgRate2 }]).map Prod.fst)).map JSVal.str ∧
      (∀ d ∈ (c.paramCache.lookup "lorenz").getD [],
        ∃ p args, d.name = .str p ∧
          lastArgs p (paramSightings "lorenz"
            [{ clients := [], oscMsg := paramMsgRate1 },
             { clients := [], oscMsg := paramMsgRate2 }]) = some args ∧
          storesArguments d args)) ∧
    firstSightings ((paramSightings "lorenz"
        [{ clients := [], oscMsg := paramMsgRate1 },
         { clients := [], oscMsg := paramMsgRate2 }]).map Prod.fst) = ["rate"] ∧
    lastArgs "rate" (paramSightings "lorenz"
        [{ clients := [], oscMsg := paramMsgRate1 },
         { clients := [], oscMsg := paramMsgRate2 }]) = some paramMsgRate2.args ∧
    (udpRun noNumToString emptyCaches
        [{ clients := [], oscMsg := paramMsgRate1 },
         { clients := [], oscMsg := paramMsgRate2 }]).map
        (fun r => r.1.paramCache.lookup "lorenz") =
      .ok (some [{ name := .str "rate", default := .num (.fin 2),
                   min := .num (.fin float32_0_01), max := .num (.fin 10),
                   units := .str "Hz", desc := .str "update rate" }]) := by
  refine ⟨?_, by decide, by decide, by decide⟩
  have hmem : ∀ ev ∈ ([{ clients := [], oscMsg := paramMsgRate1 },
      { clients := [], oscMsg := paramMsgRate2 }] : List UdpEvent),
      ev.oscMsg = paramMsgRate1 ∨ ev.oscMsg = paramMsgRate2 := by
    intro ev hev
    simp only [List.mem_cons, List.mem_singleton, List.not_mem_nil, or_false] at hev
    rcases hev with rfl | rfl
    · exact Or.inl rfl
    · exact Or.inr rfl
  obtain ⟨c, out, h, hnames, -, -, hvals, -⟩ := C17_param_list_of_a_run noNumToString
    [{ clients := [], oscMsg := paramMsgRate1 }, { clients := [], oscMsg := paramMsgRate2 }]
    "lorenz"
    (by
      intro ev hev haddr
      rcases hmem ev hev with h | h <;> rw [h] at haddr <;> exact absurd haddr (by decide))
    (by
      intro ev hev _
      rcases hmem ev hev with h | h <;> rw [h] <;>
        exact ⟨Or.inr ⟨"lorenz", rfl⟩, Or.inr ⟨"rate", rfl⟩⟩)
    (by
      intro ev hev _ t ht
      have hl : argValue ev.oscMsg.args 0 = .str "lorenz" := by
        rcases hmem ev hev with h | h <;> rw [h] <;> rfl
      rw [hl] at ht
      cases ht
      decide)
  exact ⟨c, out, h, hnames, hvals⟩


/-! ## Fan-out to the sessions -/

theorem fanOut_foldl (oscMsg : OscMessage) :
    ∀ (clients set : List Client) (sent : List (Nat × OscMessage)),
      clients.foldl
        (fun acc client =>
          if client.readyState == WebSocket_OPEN then (acc.1, acc.2 ++ [(client.id, oscMsg)])
          else acc)
        (set, sent) = (set, sent ++ broadcast clients oscMsg) := by
  intro clients
  induction clients with
  | nil => intro set sent; simp [broadcast]
  | cons cl rest ih =>
    intro set sent
    simp only [List.foldl_cons]
    by_cases h : (cl.readyState == WebSocket_OPEN) = true
    · rw [if_pos h, ih]
      simp [broadcast, List.filter_cons, h]
    · rw [if_neg h, ih]
      simp [broadcast, List.filter_cons, h]

theorem fanOut_eq (clients : List Client) (oscMsg : OscMessage) :
    fanOut clients oscMsg = (clients, broadcast clients oscMsg) := by
  unfold fanOut
  rw [fanOut_foldl]
  simp

theorem broadcast_filter_id (oscMsg : OscMessage) (s : Nat) :
    ∀ clients : List Client,
      (broadcast clients oscMsg).filter (fun d => d.1 == s) =
        broadcast (clients.filter (fun cl => cl.id == s)) oscMsg := by
  intro clients
  induction clients with
  | nil => rfl
  | cons cl rest ih =>
    unfold broadcast at ih ⊢
    by_cases h1 : cl.readyState = WebSocket_OPEN <;> by_cases h2 : cl.id = s <;>
      simp [List.filter_cons, h1, h2, ih]

theorem udpOnMessage_out {numToString : JSNum → String} {c c1 : Caches} {clients : List Client}
    {m : OscMessage} {out : List (Nat × OscMessage)}
    (h : udpOnMessage numToString c clients m = .ok (c1, out)) :
    out = broadcast clients m := by
  unfold udpOnMessage at h
  cases h1 : cacheModule numToString c m with
  | error e => simp [h1] at h
  | ok c2 =>
    simp only [h1] at h
    cases h2 : cacheParam numToString c2 m with
    | error e => simp [h2] at h
    | ok c3 =>
      simp only [h2] at h
      cases Except.ok.inj h
      rfl

theorem udpRun_delivery (numToString : JSNum → String) (s : Nat) :
    ∀ (evs : List UdpEvent) (c c1 : Caches) (out : List (Nat × OscMessage)),
      udpRun numToString c evs = .ok (c1, out) →
      (∀ ev ∈ evs, ev.clients.filter (fun cl => cl.id == s) =
        [{ id := s, readyState := WebSocket_OPEN }]) →
      out.filter (fun d => d.1 == s) = evs.map (fun ev => (s, ev.oscMsg)) := by
  intro evs
  induction evs with
  | nil =>
    intro c c1 out h _
    simp only [udpRun] at h
    cases Except.ok.inj h
    rfl
  | cons ev rest ih =>
    intro c c1 out h hopen
    obtain ⟨c2, out1, out2, h1, h2, rfl⟩ := udpRun_cons_inv h
    have ho := udpOnMessage_out h1
    subst ho
    rw [List.filter_append, broadcast_filter_id, hopen ev (List.mem_cons_self ev rest),
      ih c2 c1 out2 h2 (fun e he => hopen e (List.mem_cons_of_mem ev he))]
    simp [broadcast, WebSocket_OPEN]

/-! ## C21: a broadcast with a broken session -/

/-- C21, counterexample to the claim as worded: with the sessions A, B, C, where
the socket of B is closed, one broadcast sends the frame to A and to C, and B
is still in the session set after it. -/
theorem C21_counterexample_broken_session_stays :
    (fanOut [sessionA, sessionB, sessionC] tickMsg).2 = [(1, tickMsg), (3, tickMsg)] ∧
    sessionB ∈ (fanOut [sessionA, sessionB, sessionC] tickMsg).1 := by
  decide

/-- C21, amended: given sessions A, B, C where the sockets of A and C are open
and the socket of B is not, one broadcast sends the message to A and to C and
nothing to B, and leaves the session set as it was (the broadcast removes no
session); a subsequent broadcast, B still not open, again reaches only A and
C. For every session set, a broadcast leaves the set unchanged and sends the
message once to each open session, in the order of the set. -/
theorem C21_broadcast_skips_broken_session (a b c : Client) (m m2 : OscMessage)
    (ha : a.readyState = WebSocket_OPEN) (hb : b.readyState ≠ WebSocket_OPEN)
    (hc : c.readyState = WebSocket_OPEN) :
    (fanOut [a, b, c] m).2 = [(a.id, m), (c.id, m)] ∧
    (fanOut [a, b, c] m).1 = [a, b, c] ∧
    (fanOut (fanOut [a, b, c] m).1 m2).2 = [(a.id, m2), (c.id, m2)] ∧
    (∀ clients msg, fanOut clients msg =
      (clients, (clients.filter (fun cl => cl.readyState == WebSocket_OPEN)).map
        (fun cl => (cl.id, msg)))) := by
  have key : ∀ msg, broadcast [a, b, c] msg = [(a.id, msg), (c.id, msg)] := by
    intro msg
    simp [broadcast, List.filter_cons, ha, hb, hc]
  refine ⟨?_, ?_, ?_, ?_⟩
  · rw [fanOut_eq]; exact key m
  · rw [fanOut_eq]
  · rw [fanOut_eq, fanOut_eq]; exact key m2
  · intro clients msg
    rw [fanOut_eq]
    rfl

/-- C21 at the sessions A (open), B (closed), C (open), for `/chronos/tick [7]`
followed by `/chronos/transport/tempo [120]`. -/
theorem C21_witness_three_sessions :
    (fanOut [sessionA, sessionB, sessionC] tickMsg).2 = [(1, tickMsg), (3, tickMsg)] ∧
    (fanOut [sessionA, sessionB, sessionC] tickMsg).1 = [sessionA, sessionB, sessionC] ∧
    (fanOut (fanOut [sessionA, sessionB, sessionC] tickMsg).1 tempoMsg).2 =
      [(1, tempoMsg), (3, tempoMsg)] :=
  have h := C21_broadcast_skips_broken_session sessionA sessionB sessionC tickMsg tempoMsg
    rfl (by decide) rfl
  ⟨h.1, h.2.1, h.2.2.1⟩

/-! ## C22: delivery in arrival order -/

/-- C22, failing input: `/chronos/tick [7]`, then the param-registry broadcast
`["constructor","rate",1.0,0.01,10.0,"Hz","update rate"]`, then `/chronos/tick
[7]` again, arriving at the empty cache while session A stays open. The first
message is delivered to A; on the second, line 115 throws a `TypeError`
before the broadcast of lines 133-142, so that its frame is never delivered to
A, and the exception ends the run. Whenever a run completes, a session that is
in the session set and open at every message has been delivered the frames
of the messages in exactly their arrival order. -/
theorem C22_raising_message_is_missing (numToString : JSNum → String) :
    (∃ c1, udpOnMessage numToString emptyCaches [sessionA] tickMsg = .ok (c1, [(1, tickMsg)]) ∧
      udpOnMessage numToString c1 [sessionA] paramMsgConstructor = .error .typeError) ∧
    udpRun numToString emptyCaches
      [{ clients := [sessionA], oscMsg := tickMsg },
       { clients := [sessionA], oscMsg := paramMsgConstructor },
       { clients := [sessionA], oscMsg := tickMsg }] = .error .typeError ∧
    (∀ (evs : List UdpEvent) (c c1 : Caches) (out : List (Nat × OscMessage)) (s : Nat),
      udpRun numToString c evs = .ok (c1, out) →
      (∀ ev ∈ evs, ev.clients.filter (fun cl => cl.id == s) =
        [{ id := s, readyState := WebSocket_OPEN }]) →
      out.filter (fun d => d.1 == s) = evs.map (fun ev => (s, ev.oscMsg))) := by
  have h1 : udpOnMessage numToString emptyCaches [sessionA] tickMsg =
      .ok (emptyCaches, [(1, tickMsg)]) :=
    udpOnMessage_other_address numToString emptyCaches [sessionA] tickMsg
      (by decide) (by decide)
  have h2 : udpOnMessage numToString emptyCaches [sessionA] paramMsgConstructor =
      .error .typeError :=
    udpOnMessage_param_raise numToString emptyCaches _ paramMsgConstructor "constructor"
      rfl (by decide) (by decide) rfl (by decide) (by decide)
  refine ⟨⟨emptyCaches, h1, h2⟩, ?_, ?_⟩
  · simp only [udpRun, h1, h2]
  · intro evs c c1 out s h hopen
    exact udpRun_delivery numToString s evs c c1 out h hopen


/-! ## C23: the transport frame fed back through the client path -/

theorem mapOscArgs_objects (numToString : JSNum → String) :
    ∀ args : List OscArg,
      mapOscArgs numToString
          (args.map (fun a => JSVal.obj [("type", .str a.type), ("value", jsonValue a.value)])) =
        .ok (args.map (fun _ => { type := "s", value := .str "[object Object]" })) := by
  intro args
  induction args with
  | nil => rfl
  | cons a rest ih =>
    simp only [List.map_cons, mapOscArgs, ih]
    simp [oscArg, jsString, List.lookup]

/-- C23, counterexample to the claim as worded: the transport frame of
`/chronos/transport/tempo [120]`, argument tagged integer, is
`{"address":"/chronos/transport/tempo","args":[{"type":"i","value":120}]}`; fed back
through the client-frame path it gives one upstream message whose argument is
the string `[object Object]`, not 120. -/
theorem C23_counterexample_tagged_integer :
    wsOnMessage noNumToString (.ok (toTransportFrame tempoMsg)) =
      .ok { upstream := [{ address := .str "/chronos/transport/tempo",
                           args := [{ type := "s", value := .str "[object Object]" }] }],
            toClient := [] } := by
  decide

/-- C23, amended: for every message m with a whitelisted address, feeding the
transport frame that the bridge produces for m (address plus `{type, value}`
arguments) back through the client-frame path yields one upstream message
with the same address and as many arguments as m, each of them the string
`[object Object]` tagged `s`: the argument values are not preserved. Feeding
the frame that carries the address and the plain argument values of m, numbers
and strings, yields one upstream message with the same address and the same
argument values as m. -/
theorem C23_transport_frame_fed_back (numToString : JSNum → String) (m : OscMessage)
    (a : String) (haddr : m.address = .str a)
    (hacc : accessCheck ALLOWED_NAMESPACES (.str a) = .ok true) :
    wsOnMessage numToString (.ok (toTransportFrame m)) =
      .ok { upstream := [{ address := m.address,
                           args := m.args.map
                             (fun _ => { type := "s", value := .str "[object Object]" }) }],
            toClient := [] } ∧
    ((∀ x ∈ m.args, (∃ n, x.value = .num n) ∨ (∃ t, x.value = .str t)) →
      ∃ typed, wsOnMessage numToString (.ok (plainFrame m)) =
          .ok { upstream := [{ address := m.address, args := typed }], toClient := [] } ∧
        typed.map OscArg.value = m.args.map OscArg.value) := by
  constructor
  · rw [haddr]
    refine @wsOnMessage_forward numToString _ a (.arr (m.args.map
      (fun x => JSVal.obj [("type", .str x.type), ("value", jsonValue x.value)]))) _ ?_ hacc ?_ ?_
    · simp [toTransportFrame, JSVal.prop, List.lookup, haddr]
    · simp [toTransportFrame, JSVal.prop, List.lookup]
    · simp only [oscArgs, orElse, truthy]
      exact mapOscArgs_objects numToString m.args
  · intro hsc
    obtain ⟨typed, htyped, hval⟩ := mapOscArgs_scalars numToString (m.args.map OscArg.value)
      (by
        intro x hx
        obtain ⟨o, ho, rfl⟩ := List.mem_map.mp hx
        exact hsc o ho)
    refine ⟨typed, ?_, hval⟩
    rw [haddr]
    refine @wsOnMessage_forward numToString _ a (.arr (m.args.map OscArg.value)) _ ?_ hacc ?_ ?_
    · simp [plainFrame, JSVal.prop, List.lookup, haddr]
    · simp [plainFrame, JSVal.prop, List.lookup]
    · simp only [oscArgs, orElse, truthy]
      exact htyped

/-- C23 at `/daemon/lorenz/create ["lorenz1", 10, 2.667]`: the transport frame fed
back gives three arguments `[object Object]`; the frame of the plain values
gives the values of the message. -/
theorem C23_witness_lorenz_create :
    wsOnMessage noNumToString (.ok (toTransportFrame lorenzCreateMsg)) =
      .ok { upstream := [{ address := .str "/daemon/lorenz/create",
                           args := [{ type := "s", value := .str "[object Object]" },
                                    { type := "s", value := .str "[object Object]" },
                                    { type := "s", value := .str "[object Object]" }] }],
            toClient := [] } ∧
    ∃ typed, wsOnMessage noNumToString (.ok (plainFrame lorenzCreateMsg)) =
        .ok { upstream := [{ address := .str "/daemon/lorenz/create", args := typed }],
              toClient := [] } ∧
      typed.map OscArg.value = [.str "lorenz1", .num (.fin 10), .num (.fin double_2_667)] :=
  have h := C23_transport_frame_fed_back noNumToString lorenzCreateMsg "/daemon/lorenz/create"
    rfl (by decide)
  ⟨h.1, h.2 (by
    intro x hx
    simp only [lorenzCreateMsg, List.mem_cons, List.mem_singleton, List.not_mem_nil,
      or_false] at hx
    rcases hx with rfl | rfl | rfl
    · exact Or.inr ⟨_, rfl⟩
    · exact Or.inl ⟨_, rfl⟩
    · exact Or.inl ⟨_, rfl⟩)⟩

/-! ## C24: the client-frame handler and the registry -/

/-- C24: for every client frame, accepted, rejected by the filter or undecodable,
the client-frame handler completes, leaves the module cache and the parameter
cache as they were, delivers nothing to any client session and writes nothing
back on the client socket; for an undecodable frame, and for a frame whose
address the access check rejects, it sends nothing upstream. -/
theorem C24_client_frame_leaves_registry_alone (numToString : JSNum → String) (c : Caches)
    (parsed : Except JSError JSVal) :
    ∃ eff, wsOnMessageBridge numToString c parsed = .ok (c, [], eff) ∧
      eff.toClient = [] ∧
      (∀ e, parsed = .error e → eff.upstream = []) ∧
      (∀ msg address, parsed = .ok msg → msg.prop "address" = .ok address →
        accessCheck ALLOWED_NAMESPACES address = .ok false → eff.upstream = []) := by
  obtain ⟨eff, heff⟩ := wsOnMessage_ok numToString parsed
  refine ⟨eff, by simp [wsOnMessageBridge, heff], ?_, ?_, ?_⟩
  · rcases wsOnMessage_inv heff with h | ⟨_, _, _, _, _, _, _, _, _, h⟩ <;> rw [h]
  · intro e he
    rcases wsOnMessage_inv heff with h | ⟨_, _, _, _, hp, _⟩
    · rw [h]
    · rw [he] at hp; cases hp
  · intro msg address hp haddr hrej
    rcases wsOnMessage_inv heff with h | ⟨msg2, a, _, _, hp2, haddr2, hacc, _⟩
    · rw [h]
    · rw [hp] at hp2
      cases hp2
      rw [haddr] at haddr2
      cases haddr2
      rw [hrej] at hacc
      cases hacc


/-! ## C25: the reconnect timer of the browser client -/

theorem reconnectInv_initial : ReconnectInv initialReconnect := Or.inl ⟨rfl, rfl⟩

theorem onopen_timers {s : ReconnectState} (h : ReconnectInv s) :
    (onopen s).timers = [] ∧ (onopen s).reconnectInterval = none := by
  rcases h with ⟨h1, h2⟩ | ⟨k, hk, h1, h2⟩
  · simp [onopen, reconnectIntervalTruthy, h1, h2]
  · simp [onopen, reconnectIntervalTruthy, clearInterval, h1, h2, hk]

theorem onclose_idle {s : ReconnectState} (h : ReconnectInv s) (hidle : s.timers = []) :
    onclose s = { reconnectInterval := some (s.lastHandle + 1)
                  timers := [{ handle := s.lastHandle + 1, period := 3000 }]
                  lastHandle := s.lastHandle + 1 } := by
  rcases h with ⟨h1, h2⟩ | ⟨k, hk, h1, h2⟩
  · simp [onclose, reconnectIntervalTruthy, h1, h2]
  · rw [h2] at hidle
    cases hidle

theorem onclose_active {s : ReconnectState} (h : ReconnectInv s) (hact : s.timers ≠ []) :
    onclose s = s := by
  rcases h with ⟨h1, h2⟩ | ⟨k, hk, h1, h2⟩
  · exact absurd h2 hact
  · simp [onclose, reconnectIntervalTruthy, h1, hk]

theorem reconnectInv_step {s : ReconnectState} (h : ReconnectInv s) (e : SocketEvent) :
    ReconnectInv (reconnectStep s e) := by
  cases e
  · obtain ⟨h1, h2⟩ := onopen_timers h
    exact Or.inl ⟨h2, h1⟩
  · by_cases hidle : s.timers = []
    · simp only [reconnectStep]
      rw [onclose_idle h hidle]
      exact Or.inr ⟨s.lastHandle + 1, Nat.succ_ne_zero _, rfl, rfl⟩
    · simp only [reconnectStep]
      rw [onclose_active h hidle]
      exact h
  · exact h

theorem reconnectInv_run :
    ∀ (events : List SocketEvent) (s : ReconnectState), ReconnectInv s →
      ReconnectInv (reconnectRun s events) := by
  intro events
  induction events with
  | nil => intro s h; exact h
  | cons e rest ih =>
    intro s h
    exact ih (reconnectStep s e) (reconnectInv_step h e)

/-- C25: in every state of the reconnect logic of the browser client reached from
the loaded page by a sequence of open and close events (and ticks of the
timer), at most one reconnect timer is active, and an active timer has the
period 3000 ms; a close event with no active timer starts one timer with the
period 3000 ms, a close event with an active timer changes nothing and so
starts none, and an open event leaves no timer active and `reconnectInterval`
null. -/
theorem C25_at_most_one_reconnect_timer (events : List SocketEvent) :
    (reconnectRun initialReconnect events).timers.length ≤ 1 ∧
    (∀ t ∈ (reconnectRun initialReconnect events).timers, t.period = 3000) ∧
    ((reconnectRun initialReconnect events).timers = [] →
      (onclose (reconnectRun initialReconnect events)).timers =
        [{ handle := (reconnectRun initialReconnect events).lastHandle + 1, period := 3000 }]) ∧
    ((reconnectRun initialReconnect events).timers ≠ [] →
      onclose (reconnectRun initialReconnect events) = reconnectRun initialReconnect events) ∧
    (onopen (reconnectRun initialReconnect events)).timers = [] ∧
    (onopen (reconnectRun initialReconnect events)).reconnectInterval = none := by
  have hinv := reconnectInv_run events initialReconnect reconnectInv_initial
  refine ⟨?_, ?_, ?_, ?_, onopen_timers hinv⟩
  · rcases hinv with ⟨_, h2⟩ | ⟨k, _, _, h2⟩ <;> simp [h2]
  · intro t ht
    rcases hinv with ⟨_, h2⟩ | ⟨k, _, _, h2⟩
    · rw [h2] at ht; cases ht
    · rw [h2] at ht
      rw [List.mem_singleton.mp ht]
  · intro hidle
    rw [onclose_idle hinv hidle]
  · intro hact
    exact onclose_active hinv hact

/-! ## C26: the addresses of the cortex panels -/

/-- C26: every OSC address that a cortex panel (chronos, daemon, engine, module
browser, patch matrix, serpens) passes to `osc.send` starts with one of the
prefixes in `ALLOWED_NAMESPACES`, and passes the access check of the
client-frame handler. -/
theorem C26_panel_addresses_whitelisted (a : String) (h : a ∈ panelAddresses) :
    (∃ p ∈ ALLOWED_NAMESPACES, startsWith a p = true) ∧
    accessCheck ALLOWED_NAMESPACES (.str a) = .ok true := by
  have hall : ∀ x ∈ panelAddresses, accessCheck ALLOWED_NAMESPACES (.str x) = .ok true := by
    decide
  exact ⟨(accessCheck_allowed_iff a).mp (hall a h), hall a h⟩

/-- C26 at `/moirai/create`, sent by the daemon panel. -/
theorem C26_witness_moirai_create :
    (∃ p ∈ ALLOWED_NAMESPACES, startsWith "/moirai/create" p = true) ∧
    accessCheck ALLOWED_NAMESPACES (.str "/moirai/create") = .ok true :=
  C26_panel_addresses_whitelisted "/moirai/create" (by decide)

/-! ## C27: the amount of a patch connection -/

/-- C27, failing input: the amount text `0` (which `parseFloat` reads as 0, inside
the range `Amount (0-1)` that the input advertises) with source `lfo1` and
destination `filter.cutoff`. Pressing Connect sends `/brahma/patch/connect`
with amount 1 and records a connection with amount 1, because
`parseFloat(amtInput.value) || 1.0` replaces the falsy 0 by 1. For every
amount text that parses to a number other than 0, with non-empty source and
destination, the amount sent and recorded is that number. -/
theorem C27_amount_zero_becomes_one :
    connectClick [] "lfo1" "filter.cutoff" (.fin 0) =
      ([{ source := "lfo1", dest := "filter.cutoff", amount := .num (.fin 1) }],
       [{ address := "/brahma/patch/connect",
          args := [.str "lfo1", .str "filter.cutoff", .num (.fin 1)] }]) ∧
    (∀ (connections : List Connection) (src dst : String) (q : ℚ),
      src ≠ "" → dst ≠ "" → q ≠ 0 →
      connectClick connections src dst (.fin q) =
        (connections ++ [{ source := src, dest := dst, amount := .num (.fin q) }],
         [{ address := "/brahma/patch/connect",
            args := [.str src, .str dst, .num (.fin q)] }])) := by
  constructor
  · decide
  · intro connections src dst q hs hd hq
    simp [connectClick, truthy, orElse, hs, hd, hq]

/-! ## C28: the octave of the engine panel -/

theorem octaveAfter_range :
    ∀ (clicks : List OctaveClick) (o : Int), 1 ≤ o → o ≤ 7 →
      1 ≤ octaveAfter o clicks ∧ octaveAfter o clicks ≤ 7 := by
  intro clicks
  induction clicks with
  | nil => intro o h1 h2; exact ⟨h1, h2⟩
  | cons click rest ih =>
    intro o h1 h2
    cases click with
    | down =>
      exact ih (octaveDown o) (by unfold octaveDown; omega) (by unfold octaveDown; omega)
    | up =>
      exact ih (octaveUp o) (by unfold octaveUp; omega) (by unfold octaveUp; omega)

/-- C28: in the engine panel, starting from octave 4, after any sequence of `Oct-`
and `Oct+` clicks the octave lies in 1..7; the keyboard has 25 keys, and the
note number of every key (octave * 12 + key index, index 0..24) lies in
12..108, inside the MIDI range 0..127. Both bounds are reached: the first key
after three `Oct-` clicks sends 12, the last key after three `Oct+` clicks
sends 108. -/
theorem C28_octave_and_notes_in_range (clicks : List OctaveClick) :
    1 ≤ octaveAfter initialOctave clicks ∧ octaveAfter initialOctave clicks ≤ 7 ∧
    (pianoNotes (octaveAfter initialOctave clicks)).length = 25 ∧
    (∀ note ∈ pianoNotes (octaveAfter initialOctave clicks),
      12 ≤ note ∧ note ≤ 108 ∧ 0 ≤ note ∧ note ≤ 127) ∧
    (pianoNotes (octaveAfter initialOctave [.down, .down, .down])).head? = some 12 ∧
    (pianoNotes (octaveAfter initialOctave [.up, .up, .up])).getLast? = some 108 := by
  obtain ⟨h1, h2⟩ := octaveAfter_range clicks initialOctave (by decide) (by decide)
  refine ⟨h1, h2, by rw [pianoNotes, List.length_map, List.length_range], ?_,
    by decide, by decide⟩
  intro note hn
  simp only [pianoNotes, List.mem_map, List.mem_range] at hn
  obtain ⟨i, hi, rfl⟩ := hn
  have hi0 : (0 : Int) ≤ (i : Int) := Int.ofNat_nonneg i
  have hi1 : (i : Int) < 25 := by exact_mod_cast hi
  omega

end Bridge
